import Mathlib

/-!
Verification of the Context Mapper MCP server's CML core (parser, builder,
validator, writer and tool layer) against its natural-language specification.
The definitions below are shallow embeddings of the TypeScript sources:
`src/model/validation.ts`, `src/model/writer.ts`, `src/model/parser.ts`
(the Chevrotain lexer/parser and CST visitor) and
`src/tools/aggregate-tools.ts`.  JavaScript arrays become `List`, in-place
mutation becomes explicit state passing, `undefined`-able fields become
`Option` or defaulted fields, and `uuidv4()` becomes a caller-supplied
fresh identifier.
-/

namespace CML

/-! ## Data model (`src/model/types.ts`) -/

/-- `Attribute` from types.ts: optional `key`/`nullable` flags default to
absent, which every consumer treats as `false`. -/
structure Attribute where
  name : String
  type : String
  key : Bool := false
  nullable : Bool := false
deriving DecidableEq

structure OpParam where
  name : String
  type : String
deriving DecidableEq

structure ServiceOperation where
  name : String
  returnType : Option String := none
  parameters : List OpParam := []
deriving DecidableEq

structure Entity where
  id : String
  name : String
  attributes : List Attribute := []
  operations : List ServiceOperation := []
  aggregateRoot : Bool := false
deriving DecidableEq

structure ValueObject where
  id : String
  name : String
  attributes : List Attribute := []
deriving DecidableEq

structure DomainEvent where
  id : String
  name : String
  attributes : List Attribute := []
deriving DecidableEq

structure Command where
  id : String
  name : String
  attributes : List Attribute := []
deriving DecidableEq

structure DomainService where
  id : String
  name : String
  operations : List ServiceOperation := []
deriving DecidableEq

inductive KnowledgeLevel
  | META
  | CONCRETE
deriving DecidableEq

structure Aggregate where
  id : String
  name : String
  aggregateRoot : Option Entity := none
  entities : List Entity := []
  valueObjects : List ValueObject := []
  domainEvents : List DomainEvent := []
  commands : List Command := []
  services : List DomainService := []
  responsibilities : List String := []
  knowledgeLevel : Option KnowledgeLevel := none
deriving DecidableEq

structure Module where
  id : String
  name : String
  aggregates : List Aggregate := []
deriving DecidableEq

structure BoundedContext where
  id : String
  name : String
  domainVisionStatement : Option String := none
  responsibilities : List String := []
  implementationTechnology : Option String := none
  knowledgeLevel : Option KnowledgeLevel := none
  aggregates : List Aggregate := []
  modules : List Module := []
deriving DecidableEq

inductive SymType
  | Partnership
  | SharedKernel
deriving DecidableEq

inductive UpPattern
  | OHS
  | PL
deriving DecidableEq

inductive DownPattern
  | ACL
  | CF
deriving DecidableEq

/-- `ContextRelationship` from types.ts: a tagged union discriminated by the
`type` string field, embedded as a sum type. -/
inductive ContextRelationship
  | symmetric (id : String) (stype : SymType) (participant1 participant2 : String)
  | upstreamDownstream (id : String) (upstream downstream : String)
      (upstreamPatterns : List UpPattern) (downstreamPatterns : List DownPattern)
      (exposedAggregates : List String)
deriving DecidableEq

inductive CMState
  | AS_IS
  | TO_BE
deriving DecidableEq

structure ContextMap where
  id : String
  name : String
  boundedContexts : List String := []
  relationships : List ContextRelationship := []
  state : Option CMState := none
deriving DecidableEq

structure CMLModel where
  name : String
  contextMap : Option ContextMap := none
  boundedContexts : List BoundedContext := []
deriving DecidableEq

/-! ## Character helpers

JavaScript regex character classes used by validation.ts, restricted to the
ASCII ranges the regexes name explicitly (`[a-zA-Z0-9_]`, `[0-9]`, `\s`). -/

def isIdentStartChar (c : Char) : Bool :=
  (('a' ≤ c && c ≤ 'z') || ('A' ≤ c && c ≤ 'Z')) || c = '_'

def isIdentChar (c : Char) : Bool :=
  isIdentStartChar c || ('0' ≤ c && c ≤ '9')

def isDigitChar (c : Char) : Bool :=
  '0' ≤ c && c ≤ '9'

/-- JavaScript `\s` for the ASCII whitespace characters. -/
def jsSpace (c : Char) : Bool :=
  c = ' ' || c = '\t' || c = '\n' || c = '\r' || c = '\x0b' || c = '\x0c'

/-- JavaScript `String.prototype.trim`. -/
def jsTrim (s : String) : String :=
  String.mk (((s.data.dropWhile jsSpace).reverse.dropWhile jsSpace).reverse)

/-- JavaScript `String.prototype.toLowerCase` on ASCII data. -/
def jsToLower (s : String) : String :=
  String.mk (s.data.map Char.toLower)

/-! ## Validation (`src/model/validation.ts`) -/

/-- `isValidIdentifier`: the regex `^[a-zA-Z_][a-zA-Z0-9_]*$`. -/
def isValidIdentifier (name : String) : Bool :=
  match name.data with
  | [] => false
  | c :: cs => isIdentStartChar c && cs.all isIdentChar

/-- `sanitizeIdentifier`: replace every character outside `[a-zA-Z0-9_]`
with an underscore, prefix `_` if the result starts with a digit, and fall
back to `_unnamed` when the result is empty (`sanitized || '_unnamed'`). -/
def sanitizeIdentifier (name : String) : String :=
  let sanitized := String.mk (name.data.map (fun c => if isIdentChar c then c else '_'))
  let sanitized := if (match sanitized.data with
                      | c :: _ => isDigitChar c
                      | [] => false) then "_" ++ sanitized else sanitized
  if sanitized = "" then "_unnamed" else sanitized

inductive VType
  | error
  | warning
deriving DecidableEq

/-- Tag identifying which `errors.push` site of validation.ts produced a
diagnostic.  The `message` field still carries the exact source string; the
tag only records provenance, which in the source is determined by the
(pairwise distinct) message templates. -/
inductive ErrKind
  | duplicateBoundedContext
  | ambiguousDomainObject
  | cmUnresolved
  | relUnresolvedParticipant
  | relUnresolvedUpstream
  | relUnresolvedDownstream
  | symSelf
  | udSelf
  | emptyContext
  | duplicateAggregate
  | noAggregateRoot
  | multipleAggregateRoots
  | duplicateEntity
  | duplicateValueObject
deriving DecidableEq

/-- `ValidationError` from types.ts (`location.element` flattened to
`element`, plus the provenance tag). -/
structure VError where
  kind : ErrKind
  type : VType
  message : String
  element : String
deriving DecidableEq

structure ValidationResult where
  valid : Bool
  errors : List VError
deriving DecidableEq

def ambiguousMsg (name : String) (locations : List String) : String :=
  "Ambiguous domain object name '" ++ name ++ "' defined in multiple locations: "
    ++ String.intercalate ", " locations
    ++ ". Use unique prefixed names (e.g., 'A2A" ++ name ++ "', 'Databricks" ++ name
    ++ "') to avoid ambiguous type references."

def emptyCtxMsg (name : String) : String :=
  "Bounded context '" ++ name ++ "' has no aggregates or modules"

def dupAggMsg (aggName bcName : String) : String :=
  "Duplicate aggregate name '" ++ aggName ++ "' in bounded context '" ++ bcName ++ "'"

def dupBcMsg (name : String) : String :=
  "Duplicate bounded context name: " ++ name

/-- `validateRelationship` from validation.ts. -/
def validateRelationship (rel : ContextRelationship) (bcNames : List String) : List VError :=
  match rel with
  | .symmetric id _ p1 p2 =>
    (if bcNames.contains p1 then [] else
      [⟨.relUnresolvedParticipant, .error,
        "Relationship references non-existent bounded context: " ++ p1, id⟩])
    ++ (if bcNames.contains p2 then [] else
      [⟨.relUnresolvedParticipant, .error,
        "Relationship references non-existent bounded context: " ++ p2, id⟩])
    ++ (if p1 = p2 then
      [⟨.symSelf, .warning, "Symmetric relationship between same context: " ++ p1, id⟩]
      else [])
  | .upstreamDownstream id up down _ _ _ =>
    (if bcNames.contains up then [] else
      [⟨.relUnresolvedUpstream, .error,
        "Relationship references non-existent upstream context: " ++ up, id⟩])
    ++ (if bcNames.contains down then [] else
      [⟨.relUnresolvedDownstream, .error,
        "Relationship references non-existent downstream context: " ++ down, id⟩])
    ++ (if up = down then
      [⟨.udSelf, .error,
        "Upstream-downstream relationship cannot be between same context: " ++ up, id⟩]
      else [])

/-- `validateContextMap` from validation.ts (the caller's presence test for
`model.contextMap` is folded in). -/
def validateContextMap (m : CMLModel) : List VError :=
  match m.contextMap with
  | none => []
  | some cm =>
    let bcNames := m.boundedContexts.map (·.name)
    (cm.boundedContexts.flatMap fun ctxName =>
      if bcNames.contains ctxName then [] else
        [⟨.cmUnresolved, .error,
          "Context map references non-existent bounded context: " ++ ctxName, ctxName⟩])
    ++ cm.relationships.flatMap (fun rel => validateRelationship rel bcNames)

/-- A scan over a name list that reports a duplicate (via `mk`) whenever a
name was already seen, mirroring the `Set`-based duplicate loops of
validation.ts. -/
def dupScan (mk : String → VError) : List String → List String → List VError
  | _, [] => []
  | seen, n :: rest =>
    (if seen.contains n then [mk n] else []) ++ dupScan mk (n :: seen) rest

/-- `validateAggregate` from validation.ts. -/
def validateAggregate (agg : Aggregate) (bcName : String) : List VError :=
  let roots := agg.entities.filter (·.aggregateRoot)
  (if roots.length = 0 ∧ 0 < agg.entities.length then
    [⟨.noAggregateRoot, .warning,
      "Aggregate '" ++ agg.name ++ "' in '" ++ bcName
        ++ "' has entities but no aggregate root defined", agg.name⟩]
    else [])
  ++ (if 1 < roots.length then
    [⟨.multipleAggregateRoots, .error,
      "Aggregate '" ++ agg.name ++ "' in '" ++ bcName ++ "' has multiple aggregate roots",
      agg.name⟩]
    else [])
  ++ dupScan (fun n => ⟨.duplicateEntity, .error,
       "Duplicate entity name '" ++ n ++ "' in aggregate '" ++ agg.name ++ "'", n⟩)
       [] (agg.entities.map (·.name))
  ++ dupScan (fun n => ⟨.duplicateValueObject, .error,
       "Duplicate value object name '" ++ n ++ "' in aggregate '" ++ agg.name ++ "'", n⟩)
       [] (agg.valueObjects.map (·.name))

/-- The two aggregate loops of `validateBoundedContext` (direct aggregates,
then module-nested ones) share one `aggNames` set; they are one scan over
the concatenation. -/
def scanAggregates (bcName : String) : List String → List Aggregate → List VError
  | _, [] => []
  | seen, agg :: rest =>
    (if seen.contains agg.name then
      [⟨.duplicateAggregate, .error, dupAggMsg agg.name bcName, agg.name⟩] else [])
    ++ validateAggregate agg bcName
    ++ scanAggregates bcName (agg.name :: seen) rest

/-- `validateBoundedContext` from validation.ts. -/
def validateBoundedContext (bc : BoundedContext) : List VError :=
  (if bc.aggregates.length = 0 ∧ bc.modules.length = 0 then
    [⟨.emptyContext, .warning, emptyCtxMsg bc.name, bc.name⟩] else [])
  ++ scanAggregates bc.name [] (bc.aggregates ++ bc.modules.flatMap (·.aggregates))

/-- The (domain-object name, "bc.agg" location) pairs visited by
`validateNoDuplicateDomainObjectNames`, in its exact scan order: per bounded
context, direct aggregates then module aggregates; per aggregate, value
objects, entities, domain events, then commands. -/
def scanPairs (m : CMLModel) : List (String × String) :=
  m.boundedContexts.flatMap fun bc =>
    (bc.aggregates ++ bc.modules.flatMap (·.aggregates)).flatMap fun agg =>
      let loc := bc.name ++ "." ++ agg.name
      (agg.valueObjects.map (fun vo => (vo.name, loc)))
      ++ (agg.entities.map (fun e => (e.name, loc)))
      ++ (agg.domainEvents.map (fun e => (e.name, loc)))
      ++ (agg.commands.map (fun c => (c.name, loc)))

/-- One `domainObjectLocations.get / push / set` step of the JS `Map`:
append the location to the existing key (kept in place) or add a new key at
the end, matching JS `Map` insertion-order semantics. -/
def mapUpsert : List (String × List String) → String → String → List (String × List String)
  | [], k, loc => [(k, [loc])]
  | (k', ls) :: rest, k, loc =>
    if k' = k then (k', ls ++ [loc]) :: rest else (k', ls) :: mapUpsert rest k loc

def buildLocMap (m : CMLModel) : List (String × List String) :=
  (scanPairs m).foldl (fun acc p => mapUpsert acc p.1 p.2) []

/-- `validateNoDuplicateDomainObjectNames` from validation.ts. -/
def validateNoDuplicateDomainObjectNames (m : CMLModel) : List VError :=
  (buildLocMap m).flatMap fun p =>
    if 1 < p.2.length then
      [⟨.ambiguousDomainObject, .error, ambiguousMsg p.1 p.2, p.1⟩]
    else []

/-- `validateModel` from validation.ts: context-map errors, per-context
errors, duplicate context names, then cross-context domain-object
duplicates; `valid` iff no error-severity entry. -/
def validateModel (m : CMLModel) : ValidationResult :=
  let errors :=
    validateContextMap m
    ++ m.boundedContexts.flatMap validateBoundedContext
    ++ dupScan (fun n => ⟨.duplicateBoundedContext, .error, dupBcMsg n, n⟩)
         [] (m.boundedContexts.map (·.name))
    ++ validateNoDuplicateDomainObjectNames m
  ⟨(errors.filter (fun e => e.type == VType.error)).length = 0, errors⟩

/-- Declared locations of domain-object name `n`, by direct enumeration in
scan order; used to state the duplicate-detection claims. -/
def declLocations (m : CMLModel) (n : String) : List String :=
  ((scanPairs m).filter (fun p => p.1 == n)).map (·.2)

/-! ## Attribute-type validation (`validateAttributeType`) -/

def VALID_PRIMITIVE_TYPES : List String :=
  ["String", "string", "int", "Integer", "long", "Long", "float", "Float",
   "double", "Double", "boolean", "Boolean", "Date", "DateTime", "Timestamp",
   "Blob", "Clob", "BigDecimal", "BigInteger", "byte", "Byte", "short", "Short",
   "char", "Character", "Object", "UUID"]

/-- Match a prefix, returning the remainder. -/
def dropPrefixOpt : List Char → List Char → Option (List Char)
  | [], s => some s
  | _ :: _, [] => none
  | p :: ps, c :: cs => if p = c then dropPrefixOpt ps cs else none

/-- The anchored regex `^kw\s*<` used by the invalid-type patterns. -/
def anchoredAngle (kw : String) (s : String) : Bool :=
  match dropPrefixOpt kw.data s.data with
  | some rest =>
    match rest.dropWhile jsSpace with
    | '<' :: _ => true
    | _ => false
  | none => false

/-- `INVALID_TYPE_PATTERNS` from validation.ts: anchored regex tests paired
with their messages. -/
def INVALID_TYPE_PATTERNS : List ((String → Bool) × String) :=
  [ (anchoredAngle "Map",
     "Map<K,V> is not supported in CML. Use a Value Object with named fields instead."),
    (anchoredAngle "Dictionary",
     "Dictionary<K,V> is not supported in CML. Use a Value Object with named fields instead."),
    (anchoredAngle "Tuple",
     "Tuple is not supported in CML. Use a Value Object with named fields instead."),
    (fun s => s == "Tuple",
     "Tuple is not supported in CML. Use a Value Object with named fields instead."),
    (fun s => s == "Any",
     "Any is not supported in CML. Use a specific type or Object instead."),
    (fun s => s == "any",
     "any is not supported in CML. Use a specific type or Object instead."),
    (fun s => s == "dynamic",
     "dynamic is not supported in CML. Use a specific type or Object instead."),
    (fun s => s == "void",
     "void is not valid for attributes. Remove this attribute or use a specific type."),
    (fun s => s == "Callback" || s == "Callbacks",
     "Callback types are not supported in CML. Model the callback contract as a separate Value Object or omit."),
    (anchoredAngle "Function",
     "Function types are not supported in CML. Model behavior in Services instead."),
    (fun s => s == "Runnable",
     "Runnable is not supported in CML. This is an implementation detail, not a domain concept.") ]

def firstInvalidMsg (s : String) : Option String :=
  (INVALID_TYPE_PATTERNS.find? (fun p => p.1 s)).map (·.2)

/-- The regex `^(List|Set)\s*<\s*(.+)\s*>$` applied to the trimmed type:
returns the trimmed second capture group when it matches.  Greedy `(.+)`
captures everything up to the final `>`, and the `.trim()` the source
applies to the capture subsumes the `\s*` fringes. -/
def collectionInner (t : String) : Option String :=
  let afterKw :=
    match dropPrefixOpt "List".data t.data with
    | some rest => some rest
    | none => dropPrefixOpt "Set".data t.data
  match afterKw with
  | none => none
  | some rest =>
    match rest.dropWhile jsSpace with
    | '<' :: r =>
      if 2 ≤ r.length ∧ r.getLast? = some '>' then
        some (jsTrim (String.mk r.dropLast))
      else none
    | _ => none

structure TypeCheck where
  valid : Bool
  error : Option String := none
  suggestion : Option String := none
deriving DecidableEq

/-- `validateAttributeType` from validation.ts. -/
def validateAttributeType (type : String) : TypeCheck :=
  let trimmedType := jsTrim type
  match firstInvalidMsg trimmedType with
  | some msg => ⟨false, some msg, none⟩
  | none =>
    if "- ".data.isPrefixOf trimmedType.data then
      let refType := jsTrim (String.mk (trimmedType.data.drop 2))
      if isValidIdentifier refType then ⟨true, none, none⟩
      else ⟨false, some ("Invalid reference type '" ++ refType
        ++ "'. Reference types must be valid identifiers."), none⟩
    else
      match collectionInner trimmedType with
      | some innerType =>
        if innerType.data.contains '<' then
          ⟨false, some ("Nested generic types like '" ++ trimmedType
            ++ "' are not supported in CML."),
           some "Use a Value Object to wrap complex nested structures."⟩
        else
          match firstInvalidMsg innerType with
          | some msg => ⟨false, some ("Invalid collection element type: " ++ msg), none⟩
          | none =>
            if isValidIdentifier innerType || VALID_PRIMITIVE_TYPES.contains innerType then
              ⟨true, none, none⟩
            else
              ⟨false, some ("Invalid collection element type '" ++ innerType ++ "'."),
               some "Use a valid type like List<String> or List<YourValueObject>."⟩
      | none =>
        if VALID_PRIMITIVE_TYPES.contains trimmedType then ⟨true, none, none⟩
        else if isValidIdentifier trimmedType then ⟨true, none, none⟩
        else
          ⟨false, some ("Invalid type '" ++ trimmedType ++ "'."),
           some "Valid types include: String, int, boolean, DateTime, List<Type>, Set<Type>, or domain object names. Use '- TypeName' for explicit references."⟩

/-- Element attribute as supplied to the tool layer. -/
structure AttrInput where
  name : String
  type : String
  key : Bool := false
  nullable : Bool := false
deriving DecidableEq

/-- The error strings produced by `validateAttributes`. -/
def validateAttributesErrors (attrs : List AttrInput) (elementName : String) : List String :=
  attrs.flatMap fun attr =>
    let tc := validateAttributeType attr.type
    if tc.valid then []
    else
      ["Attribute '" ++ attr.name ++ "' in '" ++ elementName ++ "' has invalid type: "
        ++ tc.error.getD ""
        ++ (match tc.suggestion with
            | some s => " " ++ s
            | none => "")]

/-- `validateAttributes` returns `valid` iff no attribute failed. -/
def validateAttributesValid (attrs : List AttrInput) (elementName : String) : Bool :=
  (validateAttributesErrors attrs elementName).length = 0

/-! ## Tool layer (`src/tools/aggregate-tools.ts`)

The tool layer reads the module-level "current model" singleton and mutates
it in place; here the model is passed and returned explicitly, and the
`uuidv4()` calls become caller-supplied fresh identifiers (their values are
never semantically relevant).  The null-model early return of the source is
not represented: the model argument is always present. -/

def findInModules (aggregateName : String) : List Module → Option Aggregate
  | [] => none
  | mod :: rest =>
    match mod.aggregates.find? (fun a => a.name == aggregateName) with
    | some a => some a
    | none => findInModules aggregateName rest

/-- `findAggregate`: first bounded context with the given name, then its
direct aggregates, then its modules in order. -/
def findAggregate (m : CMLModel) (contextName aggregateName : String) : Option Aggregate :=
  match m.boundedContexts.find? (fun bc => bc.name == contextName) with
  | none => none
  | some bc =>
    match bc.aggregates.find? (fun a => a.name == aggregateName) with
    | some a => some a
    | none => findInModules aggregateName bc.modules

/-- The per-context part of `findAggregate` (direct aggregates first, then
modules), factored out for reasoning about updates. -/
def bcFindAgg (bc : BoundedContext) (a : String) : Option Aggregate :=
  match bc.aggregates.find? (fun v => v.name == a) with
  | some v => some v
  | none => findInModules a bc.modules

/-- Replace the first aggregate with the given name (the object the source
mutates in place). -/
def updateFirstAgg (n : String) (f : Aggregate → Aggregate) : List Aggregate → List Aggregate
  | [] => []
  | a :: rest => if a.name == n then f a :: rest else a :: updateFirstAgg n f rest

def updateFirstModule (n : String) (f : Aggregate → Aggregate) : List Module → List Module
  | [] => []
  | mod :: rest =>
    if (mod.aggregates.find? (fun a => a.name == n)).isSome then
      { mod with aggregates := updateFirstAgg n f mod.aggregates } :: rest
    else mod :: updateFirstModule n f rest

def updateBcAgg (aggName : String) (f : Aggregate → Aggregate) (bc : BoundedContext) :
    BoundedContext :=
  if (bc.aggregates.find? (fun a => a.name == aggName)).isSome then
    { bc with aggregates := updateFirstAgg aggName f bc.aggregates }
  else
    { bc with modules := updateFirstModule aggName f bc.modules }

def updateFirstBc (n : String) (g : BoundedContext → BoundedContext) :
    List BoundedContext → List BoundedContext
  | [] => []
  | bc :: rest => if bc.name == n then g bc :: rest else bc :: updateFirstBc n g rest

/-- In-place mutation of the aggregate returned by `findAggregate`, as an
explicit functional update along the same search path. -/
def updateAggregate (m : CMLModel) (contextName aggName : String)
    (f : Aggregate → Aggregate) : CMLModel :=
  { m with boundedContexts := updateFirstBc contextName (updateBcAgg aggName f) m.boundedContexts }

/-- The suffix removal `currentContext.replace(/Platform$|Context$|Server$/g, '')`:
exactly one of the three alternatives can match (as a suffix), so one
trailing occurrence is removed. -/
def stripCtxSuffix (s : String) : String :=
  if "Platform".data.isSuffixOf s.data then String.mk (s.data.take (s.data.length - 8))
  else if "Context".data.isSuffixOf s.data then String.mk (s.data.take (s.data.length - 7))
  else if "Server".data.isSuffixOf s.data then String.mk (s.data.take (s.data.length - 6))
  else s

def dupSuggestion (currentContext name : String) : String :=
  "Use a unique prefixed name like '" ++ stripCtxSuffix currentContext ++ name ++ "' instead"

def aggContainsDomainName (agg : Aggregate) (n : String) : Bool :=
  agg.valueObjects.any (fun vo => vo.name == n) || agg.entities.any (fun e => e.name == n)
    || agg.domainEvents.any (fun e => e.name == n) || agg.commands.any (fun c => c.name == n)

structure DupCheck where
  isDuplicate : Bool
  existingLocation : Option String := none
  suggestion : Option String := none
deriving DecidableEq

/-- `checkForDuplicateDomainObjectName`: first location (bounded contexts in
order, skipping the current one; direct aggregates then module aggregates)
whose aggregate declares the name as value object, entity, domain event or
command. -/
def checkForDuplicateDomainObjectName (m : CMLModel) (name currentContext : String) : DupCheck :=
  match (m.boundedContexts.flatMap fun bc =>
      if bc.name == currentContext then [] else
        ((bc.aggregates ++ bc.modules.flatMap (·.aggregates)).filter
            (fun agg => aggContainsDomainName agg name)).map
          (fun agg => bc.name ++ "." ++ agg.name)).head? with
  | some loc => ⟨true, some loc, some (dupSuggestion currentContext name)⟩
  | none => ⟨false, none, none⟩

/-- Modelled from the spec: `isReservedDomainObjectName` is exported by the
repository's validation module and called throughout aggregate-tools.ts, but
its body is not among the provided sources (only its signature and partial
blacklist in ADR-004, and its call sites).  Spec 4.4 rule 7: a fixed
structural blacklist of roughly fifteen words, matched case-insensitively,
with a suggestion offered; ADR-004 names 'resource', 'entity', 'service',
'command', 'aggregate' among them. -/
def RESERVED_DOMAIN_OBJECT_NAMES : List String :=
  ["resource", "entity", "service", "command", "aggregate", "boundedcontext",
   "contextmap", "module", "domain", "event", "valueobject", "domainevent",
   "repository", "subdomain", "application"]

/-- Modelled from the spec: case-insensitive membership in the structural
blacklist, returning a rename suggestion for reserved names. -/
def isReservedDomainObjectName (name : String) : Bool × Option String :=
  if RESERVED_DOMAIN_OBJECT_NAMES.contains (jsToLower name) then
    (true, some ("a more specific domain term such as '" ++ name ++ "Record'"))
  else (false, none)

def capFirst (s : String) : String :=
  match s.data with
  | [] => ""
  | c :: cs => String.mk (c.toUpper :: cs)

/-- The identifier-name normalization of `addIdentifier` (and of the
identifiers section of `batchAddElements`): sanitize, append `Id` unless
already a suffix, capitalize the first letter. -/
def normalizeIdentifierName (raw : String) : String :=
  let name := sanitizeIdentifier raw
  let name := if "Id".data.isSuffixOf name.data then name else name ++ "Id"
  capFirst name

structure IdentifierInfo where
  id : String
  name : String
  type : String
deriving DecidableEq

structure AddIdentifierResult where
  success : Bool
  identifier : Option IdentifierInfo := none
  error : Option String := none
deriving DecidableEq

structure AddIdentifierParams where
  contextName : String
  aggregateName : String
  name : String
deriving DecidableEq

/-- `addIdentifier` from aggregate-tools.ts: create an ID value object with
a single `String value` attribute, returning the existing object untouched
when one with the normalized name is already in the aggregate. -/
def addIdentifier (p : AddIdentifierParams) (freshId : String) (m : CMLModel) :
    AddIdentifierResult × CMLModel :=
  match findAggregate m p.contextName p.aggregateName with
  | none =>
    (⟨false, none, some ("Aggregate '" ++ p.aggregateName ++ "' not found in context '"
      ++ p.contextName ++ "'")⟩, m)
  | some aggregate =>
    let name := normalizeIdentifierName p.name
    match aggregate.valueObjects.find? (fun vo => vo.name == name) with
    | some existing =>
      (⟨true, some ⟨existing.id, existing.name, "- " ++ existing.name⟩, none⟩, m)
    | none =>
      let dup := checkForDuplicateDomainObjectName m name p.contextName
      if dup.isDuplicate then
        (⟨false, none, some ("Identifier name '" ++ name ++ "' already exists in "
          ++ dup.existingLocation.getD "" ++ ". " ++ dup.suggestion.getD "")⟩, m)
      else
        let vo : ValueObject := ⟨freshId, name, [⟨"value", "String", false, false⟩]⟩
        (⟨true, some ⟨freshId, name, "- " ++ name⟩, none⟩,
         updateAggregate m p.contextName p.aggregateName
           (fun a => { a with valueObjects := a.valueObjects ++ [vo] }))

/-! ### `batchAddElements` -/

structure BatchEntityParams where
  name : String
  aggregateRoot : Bool := false
  attributes : List AttrInput := []
deriving DecidableEq

structure BatchElemParams where
  name : String
  attributes : List AttrInput := []
deriving DecidableEq

structure BatchOpParams where
  name : String
  returnType : Option String := none
  parameters : List OpParam := []
deriving DecidableEq

structure BatchServiceParams where
  name : String
  operations : List BatchOpParams := []
deriving DecidableEq

structure BatchIdentifierParams where
  name : String
deriving DecidableEq

/-- `failFast` defaults to true (`params.failFast !== false`). -/
structure BatchAddElementsParams where
  contextName : String
  aggregateName : String
  entities : List BatchEntityParams := []
  valueObjects : List BatchElemParams := []
  identifiers : List BatchIdentifierParams := []
  domainEvents : List BatchElemParams := []
  commands : List BatchElemParams := []
  services : List BatchServiceParams := []
  failFast : Bool := true
deriving DecidableEq

structure ValidationItem where
  elementType : String
  name : String
  error : String
deriving DecidableEq

structure CreatedEntity where
  id : String
  name : String
  isAggregateRoot : Bool
deriving DecidableEq

structure CreatedElem where
  id : String
  name : String
deriving DecidableEq

structure BatchCreated where
  entities : List CreatedEntity := []
  valueObjects : List CreatedElem := []
  identifiers : List IdentifierInfo := []
  domainEvents : List CreatedElem := []
  commands : List CreatedElem := []
  services : List CreatedElem := []
deriving DecidableEq

structure BatchAddElementsResult where
  success : Bool
  created : BatchCreated
  errors : List ValidationItem := []
deriving DecidableEq

/-- Phase-1 identifier loop: duplicate-in-batch and cross-context checks
(the in-aggregate check is deliberately skipped; an existing identifier is
returned as-is in phase 2).  Returns (errors, batch names, normalized
names); with `failFast` the loop stops at the first error. -/
def valIdentifiers (m : CMLModel) (ctx : String) (failFast : Bool) :
    List BatchIdentifierParams → List String → List ValidationItem → List String →
    List ValidationItem × List String × List String
  | [], names, errs, norm => (errs, names, norm)
  | idp :: rest, names, errs, norm =>
    let name := normalizeIdentifierName idp.name
    if names.contains name then
      let errs := errs ++ [⟨"identifier", name, "Duplicate name '" ++ name ++ "' within this batch"⟩]
      if failFast then (errs, names, norm)
      else valIdentifiers m ctx failFast rest names errs norm
    else
      let dup := checkForDuplicateDomainObjectName m name ctx
      if dup.isDuplicate then
        let errs := errs ++ [⟨"identifier", name, "Identifier name '" ++ name
          ++ "' already exists in " ++ dup.existingLocation.getD "" ++ ". "
          ++ dup.suggestion.getD ""⟩]
        if failFast then (errs, names, norm)
        else valIdentifiers m ctx failFast rest names errs norm
      else valIdentifiers m ctx failFast rest (name :: names) errs (norm ++ [name])

/-- Phase-1 loop shared by the value-object / entity / domain-event /
command sections: reserved keyword, duplicate in batch, duplicate in
aggregate, cross-context duplicate, then attribute types.  `resArticle`,
`dupAggLabel` and `crossLabel` carry the per-section message fragments,
`inAggNames` the names already in the target aggregate's respective list. -/
def valElems (m : CMLModel) (ctx aggName : String) (failFast : Bool)
    (etype resArticle dupAggLabel crossLabel : String) (inAggNames : List String) :
    List (String × List AttrInput) → List String → List ValidationItem →
    List ValidationItem × List String
  | [], names, errs => (errs, names)
  | (rawName, attrs) :: rest, names, errs =>
    let name := sanitizeIdentifier rawName
    let res := isReservedDomainObjectName name
    if res.1 then
      let errs := errs ++ [⟨etype, name, "'" ++ name
        ++ "' is a reserved CML keyword and cannot be used as " ++ resArticle
        ++ " name. Try: " ++ res.2.getD ""⟩]
      if failFast then (errs, names)
      else valElems m ctx aggName failFast etype resArticle dupAggLabel crossLabel inAggNames rest names errs
    else if names.contains name then
      let errs := errs ++ [⟨etype, name, "Duplicate name '" ++ name ++ "' within this batch"⟩]
      if failFast then (errs, names)
      else valElems m ctx aggName failFast etype resArticle dupAggLabel crossLabel inAggNames rest names errs
    else if inAggNames.contains name then
      let errs := errs ++ [⟨etype, name, dupAggLabel ++ " '" ++ name
        ++ "' already exists in aggregate '" ++ aggName ++ "'"⟩]
      if failFast then (errs, names)
      else valElems m ctx aggName failFast etype resArticle dupAggLabel crossLabel inAggNames rest names errs
    else
      let dup := checkForDuplicateDomainObjectName m name ctx
      if dup.isDuplicate then
        let errs := errs ++ [⟨etype, name, crossLabel ++ " name '" ++ name
          ++ "' already exists in " ++ dup.existingLocation.getD "" ++ ". "
          ++ dup.suggestion.getD ""⟩]
        if failFast then (errs, names)
        else valElems m ctx aggName failFast etype resArticle dupAggLabel crossLabel inAggNames rest names errs
      else if 0 < attrs.length ∧ ¬validateAttributesValid attrs name then
        let errs := errs ++ [⟨etype, name,
          String.intercalate "; " (validateAttributesErrors attrs name)⟩]
        if failFast then (errs, names)
        else valElems m ctx aggName failFast etype resArticle dupAggLabel crossLabel inAggNames rest names errs
      else valElems m ctx aggName failFast etype resArticle dupAggLabel crossLabel inAggNames rest (name :: names) errs

/-- Phase-1 service loop: only the duplicate-in-aggregate check. -/
def valServices (aggName : String) (failFast : Bool) (inAggNames : List String) :
    List BatchServiceParams → List ValidationItem → List ValidationItem
  | [], errs => errs
  | svc :: rest, errs =>
    let name := sanitizeIdentifier svc.name
    if inAggNames.contains name then
      let errs := errs ++ [⟨"service", name, "Service '" ++ name
        ++ "' already exists in aggregate '" ++ aggName ++ "'"⟩]
      if failFast then errs else valServices aggName failFast inAggNames rest errs
    else valServices aggName failFast inAggNames rest errs

def mkFreshId (n : Nat) : String :=
  "uuid-" ++ toString n

/-- Phase-2 identifier creation: reuse an existing value object of the same
name, otherwise append a new ID value object. -/
def createIdentifiers : List String → Aggregate → Nat →
    Aggregate × List IdentifierInfo × Nat
  | [], agg, fresh => (agg, [], fresh)
  | name :: rest, agg, fresh =>
    match agg.valueObjects.find? (fun vo => vo.name == name) with
    | some existing =>
      let (agg', made, fresh') := createIdentifiers rest agg fresh
      (agg', ⟨existing.id, existing.name, "- " ++ existing.name⟩ :: made, fresh')
    | none =>
      let vo : ValueObject := ⟨mkFreshId fresh, name, [⟨"value", "String", false, false⟩]⟩
      let agg1 := { agg with valueObjects := agg.valueObjects ++ [vo] }
      let (agg', made, fresh') := createIdentifiers rest agg1 (fresh + 1)
      (agg', ⟨vo.id, vo.name, "- " ++ vo.name⟩ :: made, fresh')

def toAttribute (a : AttrInput) : Attribute :=
  ⟨a.name, a.type, false, false⟩

def toAttributeFull (a : AttrInput) : Attribute :=
  ⟨a.name, a.type, a.key, a.nullable⟩

def createValueObjects : List BatchElemParams → Aggregate → Nat →
    Aggregate × List CreatedElem × Nat
  | [], agg, fresh => (agg, [], fresh)
  | vp :: rest, agg, fresh =>
    let vo : ValueObject := ⟨mkFreshId fresh, sanitizeIdentifier vp.name, vp.attributes.map toAttribute⟩
    let agg1 := { agg with valueObjects := agg.valueObjects ++ [vo] }
    let (agg', made, fresh') := createValueObjects rest agg1 (fresh + 1)
    (agg', ⟨vo.id, vo.name⟩ :: made, fresh')

def createEntities : List BatchEntityParams → Aggregate → Nat →
    Aggregate × List CreatedEntity × Nat
  | [], agg, fresh => (agg, [], fresh)
  | ep :: rest, agg, fresh =>
    let e : Entity := ⟨mkFreshId fresh, sanitizeIdentifier ep.name,
      ep.attributes.map toAttributeFull, [], ep.aggregateRoot⟩
    let root' := if ep.aggregateRoot then some e else agg.aggregateRoot
    let agg1 := { agg with entities := agg.entities ++ [e], aggregateRoot := root' }
    let (agg', made, fresh') := createEntities rest agg1 (fresh + 1)
    (agg', ⟨e.id, e.name, e.aggregateRoot⟩ :: made, fresh')

def createDomainEvents : List BatchElemParams → Aggregate → Nat →
    Aggregate × List CreatedElem × Nat
  | [], agg, fresh => (agg, [], fresh)
  | dp :: rest, agg, fresh =>
    let ev : DomainEvent := ⟨mkFreshId fresh, sanitizeIdentifier dp.name, dp.attributes.map toAttribute⟩
    let agg1 := { agg with domainEvents := agg.domainEvents ++ [ev] }
    let (agg', made, fresh') := createDomainEvents rest agg1 (fresh + 1)
    (agg', ⟨ev.id, ev.name⟩ :: made, fresh')

def createCommands : List BatchElemParams → Aggregate → Nat →
    Aggregate × List CreatedElem × Nat
  | [], agg, fresh => (agg, [], fresh)
  | cp :: rest, agg, fresh =>
    let c : Command := ⟨mkFreshId fresh, sanitizeIdentifier cp.name, cp.attributes.map toAttribute⟩
    let agg1 := { agg with commands := agg.commands ++ [c] }
    let (agg', made, fresh') := createCommands rest agg1 (fresh + 1)
    (agg', ⟨c.id, c.name⟩ :: made, fresh')

def toServiceOp (op : BatchOpParams) : ServiceOperation :=
  ⟨op.name, op.returnType, op.parameters⟩

def createServices : List BatchServiceParams → Aggregate → Nat →
    Aggregate × List CreatedElem × Nat
  | [], agg, fresh => (agg, [], fresh)
  | sp :: rest, agg, fresh =>
    let svc : DomainService := ⟨mkFreshId fresh, sanitizeIdentifier sp.name,
      sp.operations.map toServiceOp⟩
    let agg1 := { agg with services := agg.services ++ [svc] }
    let (agg', made, fresh') := createServices rest agg1 (fresh + 1)
    (agg', ⟨svc.id, svc.name⟩ :: made, fresh')

/-- Phase 2 of `batchAddElements` (validation passed): identifiers, value
objects, entities, domain events, commands, services, in that order. -/
def batchPhase2 (p : BatchAddElementsParams) (normIds : List String)
    (agg : Aggregate) (fresh : Nat) : Aggregate × BatchCreated :=
  let (agg1, madeIds, f1) := createIdentifiers normIds agg fresh
  let (agg2, madeVos, f2) := createValueObjects p.valueObjects agg1 f1
  let (agg3, madeEnts, f3) := createEntities p.entities agg2 f2
  let (agg4, madeEvs, f4) := createDomainEvents p.domainEvents agg3 f3
  let (agg5, madeCmds, f5) := createCommands p.commands agg4 f4
  let (agg6, madeSvcs, _) := createServices p.services agg5 f5
  (agg6, ⟨madeEnts, madeVos, madeIds, madeEvs, madeCmds, madeSvcs⟩)

/-- All of phase 1 of `batchAddElements`: identifiers unconditionally, then
each section guarded by `validationErrors.length === 0 || !failFast`.
Returns (errors, normalized identifier names). -/
def batchPhase1 (p : BatchAddElementsParams) (m : CMLModel) (agg : Aggregate) :
    List ValidationItem × List String :=
  let failFast := p.failFast
  let (errs1, names1, normIds) := valIdentifiers m p.contextName failFast p.identifiers [] [] []
  let (errs2, names2) :=
    if errs1.length = 0 ∨ failFast = false then
      valElems m p.contextName p.aggregateName failFast "valueObject" "a Value Object"
        "Value object" "Value object" (agg.valueObjects.map (·.name))
        (p.valueObjects.map (fun vp => (vp.name, vp.attributes))) names1 errs1
    else (errs1, names1)
  let (errs3, names3) :=
    if errs2.length = 0 ∨ failFast = false then
      valElems m p.contextName p.aggregateName failFast "entity" "an Entity"
        "Entity" "Entity" (agg.entities.map (·.name))
        (p.entities.map (fun ep => (ep.name, ep.attributes))) names2 errs2
    else (errs2, names2)
  let (errs4, names4) :=
    if errs3.length = 0 ∨ failFast = false then
      valElems m p.contextName p.aggregateName failFast "domainEvent" "a Domain Event"
        "Domain event" "Domain event" (agg.domainEvents.map (·.name))
        (p.domainEvents.map (fun dp => (dp.name, dp.attributes))) names3 errs3
    else (errs3, names3)
  let (errs5, _) :=
    if errs4.length = 0 ∨ failFast = false then
      valElems m p.contextName p.aggregateName failFast "command" "a Command"
        "Command" "Command" (agg.commands.map (·.name))
        (p.commands.map (fun cp => (cp.name, cp.attributes))) names4 errs4
    else (errs4, names4)
  let errs6 :=
    if errs5.length = 0 ∨ failFast = false then
      valServices p.aggregateName failFast (agg.services.map (·.name)) p.services errs5
    else errs5
  (errs6, normIds)

/-- `batchAddElements` from aggregate-tools.ts: validate everything, then
mutate only if no validation error was collected. -/
def batchAddElements (p : BatchAddElementsParams) (fresh : Nat) (m : CMLModel) :
    BatchAddElementsResult × CMLModel :=
  match findAggregate m p.contextName p.aggregateName with
  | none =>
    (⟨false, {}, [⟨"aggregate", p.aggregateName, "Aggregate '" ++ p.aggregateName
      ++ "' not found in context '" ++ p.contextName ++ "'"⟩]⟩, m)
  | some aggregate =>
    let (validationErrors, normIds) := batchPhase1 p m aggregate
    if 0 < validationErrors.length then
      (⟨false, {}, validationErrors⟩, m)
    else
      let (agg', created) := batchPhase2 p normIds aggregate fresh
      (⟨true, created, []⟩,
       updateAggregate m p.contextName p.aggregateName (fun _ => agg'))

/-! ## Lexer (`src/model/parser.ts`, Chevrotain token definitions)

Chevrotain tries the token types in `allTokens` order and emits the first
match; a keyword token with `longer_alt: Identifier` yields an `Identifier`
token instead whenever the identifier pattern matches a strictly longer
prefix.  `WhiteSpace`, `LineComment` and `BlockComment` are in the SKIPPED
group.  On an unmatched character the lexer records an error, skips one
character and continues. -/

inductive TokKind
  | ContextMapKw
  | BoundedContextKw
  | AggregateKw
  | EntityKw
  | ValueObjectKw
  | DomainEventKw
  | CommandKw
  | ServiceKw
  | ModuleKw
  | PartnershipKw
  | SharedKernelKw
  | CustomerSupplierKw
  | UpstreamKeyword
  | DownstreamKeyword
  | UpstreamShort
  | DownstreamShort
  | OHS
  | PL
  | ACL
  | CF
  | ContainsKw
  | ImplementsKw
  | TypeKw
  | StateKw
  | DomainVisionStatementKw
  | ResponsibilitiesKw
  | ImplementationTechnologyKw
  | KnowledgeLevelKw
  | AggregateRootKw
  | DefKw
  | KeyKw
  | NullableKw
  | ExposedAggregatesKw
  | ListTypeKw
  | SetTypeKw
  | AsIsKw
  | ToBeKw
  | MetaKw
  | ConcreteKw
  | DoubleArrow
  | UDArrow
  | DUArrow
  | Arrow
  | LCurly
  | RCurly
  | LParen
  | RParen
  | LSquare
  | RSquare
  | LAngle
  | RAngle
  | Comma
  | Colon
  | Semicolon
  | Equals
  | StringLit
  | Ident
deriving DecidableEq

structure Tok where
  kind : TokKind
  image : List Char
deriving DecidableEq

/-- Length of the `[a-zA-Z_][a-zA-Z0-9_]*` match at the start, 0 if none. -/
def identLen (cs : List Char) : Nat :=
  match cs with
  | c :: rest => if isIdentStartChar c then 1 + (rest.takeWhile isIdentChar).length else 0
  | [] => 0

/-- Keyword entries tried in order; each pattern list stands for one regex
(e.g. `[Uu]pstream` is two strings), all with `longer_alt: Identifier`. -/
def tryKw (cs : List Char) : List (TokKind × List String) → Option Tok
  | [] => none
  | (kind, pats) :: rest =>
    match pats.find? (fun p => p.data.isPrefixOf cs) with
    | some p =>
      let il := identLen cs
      if p.data.length < il then some ⟨.Ident, cs.take il⟩
      else some ⟨kind, p.data⟩
    | none => tryKw cs rest

/-- Keyword tokens declared before `CustomerSupplier` in `allTokens`. -/
def kwChainA : List (TokKind × List String) :=
  [ (.ContextMapKw, ["ContextMap"]),
    (.BoundedContextKw, ["BoundedContext"]),
    (.AggregateKw, ["Aggregate"]),
    (.EntityKw, ["Entity"]),
    (.ValueObjectKw, ["ValueObject"]),
    (.DomainEventKw, ["DomainEvent"]),
    (.CommandKw, ["Command"]),
    (.ServiceKw, ["Service"]),
    (.ModuleKw, ["Module"]),
    (.PartnershipKw, ["Partnership"]),
    (.SharedKernelKw, ["SharedKernel"]) ]

/-- `[Uu]pstream` and `[Dd]ownstream`. -/
def kwChainB : List (TokKind × List String) :=
  [ (.UpstreamKeyword, ["Upstream", "upstream"]),
    (.DownstreamKeyword, ["Downstream", "downstream"]) ]

/-- Keyword tokens after the short role markers. -/
def kwChainC : List (TokKind × List String) :=
  [ (.OHS, ["OHS"]),
    (.PL, ["PL"]),
    (.ACL, ["ACL"]),
    (.CF, ["CF"]),
    (.ContainsKw, ["contains"]),
    (.ImplementsKw, ["implements"]),
    (.TypeKw, ["type"]),
    (.StateKw, ["state"]),
    (.DomainVisionStatementKw, ["domainVisionStatement"]),
    (.ResponsibilitiesKw, ["responsibilities"]),
    (.ImplementationTechnologyKw, ["implementationTechnology"]),
    (.KnowledgeLevelKw, ["knowledgeLevel"]),
    (.AggregateRootKw, ["aggregateRoot"]),
    (.DefKw, ["def"]),
    (.KeyKw, ["key"]),
    (.NullableKw, ["nullable"]),
    (.ExposedAggregatesKw, ["exposedAggregates"]),
    (.ListTypeKw, ["List"]),
    (.SetTypeKw, ["Set"]),
    (.AsIsKw, ["AS_IS"]),
    (.ToBeKw, ["TO_BE"]),
    (.MetaKw, ["META"]),
    (.ConcreteKw, ["CONCRETE"]) ]

/-- Every fixed string that lexes to a non-identifier token when standing
alone as a full identifier-shaped word. -/
def exactKeywordStrings : List String :=
  (kwChainA ++ kwChainB ++ kwChainC).flatMap (·.2) ++ ["U", "D"]

def symbolToks : List (TokKind × Char) :=
  [ (.LCurly, '\x7b'), (.RCurly, '\x7d'), (.LParen, '('), (.RParen, ')'),
    (.LSquare, '['), (.RSquare, ']'), (.LAngle, '<'), (.RAngle, '>'),
    (.Comma, ','), (.Colon, ':'), (.Semicolon, ';'), (.Equals, '=') ]

/-- Length of the block comment `/\*[\s\S]*?\*/` starting after the opening
`/*`, up to and including the closing `*/`; `none` if unterminated. -/
def blockCommentClose : List Char → Option Nat
  | [] => none
  | '*' :: '/' :: _ => some 2
  | _ :: rest => (blockCommentClose rest).map (· + 1)

/-- One lexer step: `none` means no token type matches at this position;
`some (none, n)` a skipped match of length `n`; `some (some t, n)` an
emitted token. -/
def nextTok (cs : List Char) : Option (Option Tok × Nat) :=
  let wsLen := (cs.takeWhile jsSpace).length
  if 0 < wsLen then some (none, wsLen) else
  match cs with
  | '/' :: '/' :: rest =>
    some (none, 2 + (rest.takeWhile (fun c => c ≠ '\n' && c ≠ '\r')).length)
  | '/' :: '*' :: rest =>
    match blockCommentClose rest with
    | some n => some (none, 2 + n)
    | none => none
  | _ =>
  if "<->".data.isPrefixOf cs then some (some ⟨.DoubleArrow, "<->".data⟩, 3) else
  if "U->D".data.isPrefixOf cs then some (some ⟨.UDArrow, "U->D".data⟩, 4) else
  if "D<-U".data.isPrefixOf cs then some (some ⟨.UDArrow, "D<-U".data⟩, 4) else
  if "D->U".data.isPrefixOf cs then some (some ⟨.DUArrow, "D->U".data⟩, 4) else
  if "U<-D".data.isPrefixOf cs then some (some ⟨.DUArrow, "U<-D".data⟩, 4) else
  if "->".data.isPrefixOf cs then some (some ⟨.Arrow, "->".data⟩, 2) else
  match tryKw cs kwChainA with
  | some t => some (some t, t.image.length)
  | none =>
  if "Customer-Supplier".data.isPrefixOf cs then
    some (some ⟨.CustomerSupplierKw, "Customer-Supplier".data⟩, 17) else
  match tryKw cs kwChainB with
  | some t => some (some t, t.image.length)
  | none =>
  match cs with
  | 'U' :: rest =>
    if (rest.head?.map isIdentChar).getD false then
      lexTail cs
    else some (some ⟨.UpstreamShort, ['U']⟩, 1)
  | 'D' :: rest =>
    if (rest.head?.map isIdentChar).getD false then
      lexTail cs
    else some (some ⟨.DownstreamShort, ['D']⟩, 1)
  | _ => lexTail cs
where
  /-- The token types after the short role markers in `allTokens`. -/
  lexTail (cs : List Char) : Option (Option Tok × Nat) :=
    match tryKw cs kwChainC with
    | some t => some (some t, t.image.length)
    | none =>
    match symbolToks.find? (fun p => cs.head? = some p.2) with
    | some p => some (some ⟨p.1, [p.2]⟩, 1)
    | none =>
    match cs with
    | '"' :: rest =>
      let content := rest.takeWhile (fun c => c ≠ '"')
      if (rest.drop content.length).head? = some '"' then
        some (some ⟨.StringLit, '"' :: content ++ ['"']⟩, content.length + 2)
      else none
    | _ =>
      let il := identLen cs
      if 0 < il then some (some ⟨.Ident, cs.take il⟩, il) else none

/-- The lexer driver: collect tokens, flag an error (and skip one char) on
an unmatched position.  The fuel is an upper bound on steps; every step
consumes at least one character. -/
def tokenizeLoop : Nat → List Char → List Tok → Bool → List Tok × Bool
  | 0, _, acc, hadErr => (acc.reverse, hadErr)
  | _, [], acc, hadErr => (acc.reverse, hadErr)
  | fuel + 1, cs, acc, hadErr =>
    match nextTok cs with
    | none => tokenizeLoop fuel (cs.drop 1) acc true
    | some (none, n) => tokenizeLoop fuel (cs.drop (max n 1)) acc hadErr
    | some (some t, n) => tokenizeLoop fuel (cs.drop (max n 1)) (t :: acc) hadErr

/-- `CMLLexer.tokenize`: token list plus an errors-present flag. -/
def tokenize (s : String) : List Tok × Bool :=
  tokenizeLoop (s.data.length + 1) s.data [] false

/-! ## Parser (`CMLParserClass`)

Chevrotain's CST keeps, per node, the consumed tokens and sub-nodes grouped
by name in consumption order; the structures below are those children maps
with their fixed key sets made into fields.  Alternatives inside `OR` are
chosen by the computed LL(k) lookahead, reproduced here by explicit peeks
(all alternatives are first-token-disjoint except `relationshipDecl`, which
needs the second token).  With error recovery disabled (the default for
`CstParser`), any mismatch makes `parseCML` report failure, modelled by
`Except`. -/

structure AttributeDeclCst where
  listType : Bool := false
  setType : Bool := false
  identifiers : List (List Char) := []
  attrName : List Char := []
  key : Bool := false
  nullable : Bool := false
deriving DecidableEq

structure ParameterDeclCst where
  identifiers : List (List Char) := []
deriving DecidableEq

structure OperationDeclCst where
  identifiers : List (List Char) := []
  parameters : List ParameterDeclCst := []
deriving DecidableEq

structure EntityDeclCst where
  identifiers : List (List Char) := []
  aggregateRootDecls : Nat := 0
  attributes : List AttributeDeclCst := []
  operations : List OperationDeclCst := []
deriving DecidableEq

structure SimpleElemCst where
  identifiers : List (List Char) := []
  attributes : List AttributeDeclCst := []
deriving DecidableEq

structure ServiceDeclCst where
  identifiers : List (List Char) := []
  operations : List OperationDeclCst := []
deriving DecidableEq

structure RespCst where
  strings : List (List Char) := []
deriving DecidableEq

structure KLCst where
  meta : Bool := false
  concrete : Bool := false
deriving DecidableEq

structure StrPropCst where
  strings : List (List Char) := []
deriving DecidableEq

structure AggregateDeclCst where
  identifiers : List (List Char) := []
  responsibilities : List RespCst := []
  knowledgeLevels : List KLCst := []
  entities : List EntityDeclCst := []
  valueObjects : List SimpleElemCst := []
  domainEvents : List SimpleElemCst := []
  commands : List SimpleElemCst := []
  services : List ServiceDeclCst := []
deriving DecidableEq

structure ModuleDeclCst where
  identifiers : List (List Char) := []
  aggregates : List AggregateDeclCst := []
deriving DecidableEq

structure BoundedContextDeclCst where
  identifiers : List (List Char) := []
  dvs : List StrPropCst := []
  responsibilities : List RespCst := []
  implTech : List StrPropCst := []
  knowledgeLevels : List KLCst := []
  aggregates : List AggregateDeclCst := []
  modules : List ModuleDeclCst := []
deriving DecidableEq

structure CmStateCst where
  asIs : Bool := false
  toBe : Bool := false
deriving DecidableEq

structure ContainsCst where
  identifiers : List (List Char) := []
deriving DecidableEq

structure UpPatternsCst where
  upOHS : Nat := 0
  upPL : Nat := 0
deriving DecidableEq

structure DownPatternsCst where
  downACL : Nat := 0
  downCF : Nat := 0
deriving DecidableEq

structure ExposedAggCst where
  identifiers : List (List Char) := []
deriving DecidableEq

structure RelPropCst where
  exposed : List ExposedAggCst := []
deriving DecidableEq

structure SymRelCst where
  identifiers : List (List Char) := []
  partnership : Bool := false
  sharedKernel : Bool := false
deriving DecidableEq

structure UdRelCst where
  identifiers : List (List Char) := []
  upstreamPatterns : List UpPatternsCst := []
  downstreamPatterns : List DownPatternsCst := []
  relProps : List RelPropCst := []
deriving DecidableEq

structure RelationshipDeclCst where
  symmetric : Option SymRelCst := none
  upstreamDownstream : Option UdRelCst := none
deriving DecidableEq

structure ContextMapDeclCst where
  identifiers : List (List Char) := []
  states : List CmStateCst := []
  containsDecls : List ContainsCst := []
  relationships : List RelationshipDeclCst := []
  typeDecls : Nat := 0
deriving DecidableEq

structure CmlModelCst where
  contextMaps : List ContextMapDeclCst := []
  boundedContexts : List BoundedContextDeclCst := []
deriving DecidableEq

def expectTok (k : TokKind) (ts : List Tok) : Except String (Tok × List Tok) :=
  match ts with
  | t :: rest => if t.kind = k then .ok (t, rest) else .error "unexpected token"
  | [] => .error "unexpected end of input"

def peekKind (ts : List Tok) : Option TokKind :=
  ts.head?.map (·.kind)

def peekKind2 (ts : List Tok) : Option TokKind :=
  (ts.drop 1).head?.map (·.kind)

/-- `attributeName`: an identifier, or one of the whitelisted keywords. -/
def parseAttrName (ts : List Tok) : Except String ((List Char) × List Tok) :=
  match ts with
  | t :: rest =>
    if t.kind = .Ident ∨ t.kind = .TypeKw ∨ t.kind = .StateKw ∨ t.kind = TokKind.KeyKw
        ∨ t.kind = .ServiceKw ∨ t.kind = .ModuleKw then
      .ok (t.image, rest)
    else .error "expected attribute name"
  | [] => .error "unexpected end of input"

/-- `attributeDecl`: `(List|Set) < Identifier >` or a bare identifier type,
then the name, then optional `key`, `nullable`, `;`. -/
def parseAttributeDecl (ts : List Tok) : Except String (AttributeDeclCst × List Tok) :=
  let typed : Except String (AttributeDeclCst × List Tok) :=
    match peekKind ts with
    | some .ListTypeKw => do
      let (_, ts) ← expectTok .ListTypeKw ts
      let (_, ts) ← expectTok .LAngle ts
      let (inner, ts) ← expectTok .Ident ts
      let (_, ts) ← expectTok .RAngle ts
      .ok ({ listType := true, identifiers := [inner.image] }, ts)
    | some .SetTypeKw => do
      let (_, ts) ← expectTok .SetTypeKw ts
      let (_, ts) ← expectTok .LAngle ts
      let (inner, ts) ← expectTok .Ident ts
      let (_, ts) ← expectTok .RAngle ts
      .ok ({ setType := true, identifiers := [inner.image] }, ts)
    | _ => do
      let (t, ts) ← expectTok .Ident ts
      .ok ({ identifiers := [t.image] }, ts)
  match typed with
  | .error e => .error e
  | .ok (cst, ts) => do
    let (name, ts) ← parseAttrName ts
    let (hasKey, ts) :=
      match ts with
      | t :: rest => if t.kind = TokKind.KeyKw then (true, rest) else (false, ts)
      | [] => (false, ts)
    let (hasNullable, ts) :=
      match ts with
      | t :: rest => if t.kind = TokKind.NullableKw then (true, rest) else (false, ts)
      | [] => (false, ts)
    let ts :=
      match ts with
      | t :: rest => if t.kind = TokKind.Semicolon then rest else ts
      | [] => ts
    .ok ({ cst with attrName := name, key := hasKey, nullable := hasNullable }, ts)

def parseParameterDecl (ts : List Tok) : Except String (ParameterDeclCst × List Tok) := do
  let (ty, ts) ← expectTok .Ident ts
  let (nm, ts) ← expectTok .Ident ts
  .ok ({ identifiers := [ty.image, nm.image] }, ts)

def parseParamsLoop : Nat → List Tok → List ParameterDeclCst → Except String ((List ParameterDeclCst) × List Tok)
  | 0, _, _ => .error "out of fuel"
  | fuel + 1, ts, acc =>
    match peekKind ts with
    | some .Comma => do
      let (_, ts) ← expectTok .Comma ts
      let (p, ts) ← parseParameterDecl ts
      parseParamsLoop fuel ts (acc ++ [p])
    | _ => .ok (acc, ts)

/-- `operationDecl`: `def` returnType name `(` parameters `)`. -/
def parseOperationDecl (ts : List Tok) : Except String (OperationDeclCst × List Tok) := do
  let (_, ts) ← expectTok .DefKw ts
  let (ret, ts) ← expectTok .Ident ts
  let (nm, ts) ← expectTok .Ident ts
  let (_, ts) ← expectTok .LParen ts
  let (params, ts) ←
    match peekKind ts with
    | some .Ident => do
      let (p, ts) ← parseParameterDecl ts
      parseParamsLoop (ts.length + 1) ts [p]
    | _ => .ok ([], ts)
  let (_, ts) ← expectTok .RParen ts
  .ok ({ identifiers := [ret.image, nm.image], parameters := params }, ts)

def parseEntityBodyLoop : Nat → List Tok → EntityDeclCst → Except String (EntityDeclCst × List Tok)
  | 0, _, _ => .error "out of fuel"
  | fuel + 1, ts, acc =>
    match peekKind ts with
    | some .AggregateRootKw => do
      let (_, ts) ← expectTok .AggregateRootKw ts
      parseEntityBodyLoop fuel ts { acc with aggregateRootDecls := acc.aggregateRootDecls + 1 }
    | some .ListTypeKw | some .SetTypeKw | some .Ident => do
      let (a, ts) ← parseAttributeDecl ts
      parseEntityBodyLoop fuel ts { acc with attributes := acc.attributes ++ [a] }
    | some .DefKw => do
      let (o, ts) ← parseOperationDecl ts
      parseEntityBodyLoop fuel ts { acc with operations := acc.operations ++ [o] }
    | _ => .ok (acc, ts)

/-- `entityDecl`: `Entity` name with an optional braced body. -/
def parseEntityDecl (ts : List Tok) : Except String (EntityDeclCst × List Tok) := do
  let (_, ts) ← expectTok .EntityKw ts
  let (nm, ts) ← expectTok .Ident ts
  match peekKind ts with
  | some .LCurly => do
    let (_, ts) ← expectTok .LCurly ts
    let (cst, ts) ← parseEntityBodyLoop (ts.length + 1) ts { identifiers := [nm.image] }
    let (_, ts) ← expectTok .RCurly ts
    .ok (cst, ts)
  | _ => .ok ({ identifiers := [nm.image] }, ts)

def parseAttrsLoop : Nat → List Tok → List AttributeDeclCst → Except String ((List AttributeDeclCst) × List Tok)
  | 0, _, _ => .error "out of fuel"
  | fuel + 1, ts, acc =>
    match peekKind ts with
    | some .ListTypeKw | some .SetTypeKw | some .Ident => do
      let (a, ts) ← parseAttributeDecl ts
      parseAttrsLoop fuel ts (acc ++ [a])
    | _ => .ok (acc, ts)

/-- `valueObjectDecl` / `domainEventDecl` / `commandDecl` share one shape:
keyword, name, optional braced attribute list. -/
def parseSimpleElem (kw : TokKind) (ts : List Tok) : Except String (SimpleElemCst × List Tok) := do
  let (_, ts) ← expectTok kw ts
  let (nm, ts) ← expectTok .Ident ts
  match peekKind ts with
  | some .LCurly => do
    let (_, ts) ← expectTok .LCurly ts
    let (attrs, ts) ← parseAttrsLoop (ts.length + 1) ts []
    let (_, ts) ← expectTok .RCurly ts
    .ok ({ identifiers := [nm.image], attributes := attrs }, ts)
  | _ => .ok ({ identifiers := [nm.image] }, ts)

def parseOpsLoop : Nat → List Tok → List OperationDeclCst → Except String ((List OperationDeclCst) × List Tok)
  | 0, _, _ => .error "out of fuel"
  | fuel + 1, ts, acc =>
    match peekKind ts with
    | some .DefKw => do
      let (o, ts) ← parseOperationDecl ts
      parseOpsLoop fuel ts (acc ++ [o])
    | _ => .ok (acc, ts)

def parseServiceDecl (ts : List Tok) : Except String (ServiceDeclCst × List Tok) := do
  let (_, ts) ← expectTok .ServiceKw ts
  let (nm, ts) ← expectTok .Ident ts
  match peekKind ts with
  | some .LCurly => do
    let (_, ts) ← expectTok .LCurly ts
    let (ops, ts) ← parseOpsLoop (ts.length + 1) ts []
    let (_, ts) ← expectTok .RCurly ts
    .ok ({ identifiers := [nm.image], operations := ops }, ts)
  | _ => .ok ({ identifiers := [nm.image] }, ts)

def parseStringsLoop : Nat → List Tok → List (List Char) → Except String ((List (List Char)) × List Tok)
  | 0, _, _ => .error "out of fuel"
  | fuel + 1, ts, acc =>
    match peekKind ts with
    | some .Comma => do
      let (_, ts) ← expectTok .Comma ts
      let (s, ts) ← expectTok .StringLit ts
      parseStringsLoop fuel ts (acc ++ [s.image])
    | _ => .ok (acc, ts)

/-- `responsibilitiesDecl`: `responsibilities = "…" (, "…")*`. -/
def parseResponsibilitiesDecl (ts : List Tok) : Except String (RespCst × List Tok) := do
  let (_, ts) ← expectTok .ResponsibilitiesKw ts
  let (_, ts) ← expectTok .Equals ts
  let (s, ts) ← expectTok .StringLit ts
  let (ss, ts) ← parseStringsLoop (ts.length + 1) ts [s.image]
  .ok ({ strings := ss }, ts)

/-- `knowledgeLevelDecl`: `knowledgeLevel = META|CONCRETE`. -/
def parseKnowledgeLevelDecl (ts : List Tok) : Except String (KLCst × List Tok) := do
  let (_, ts) ← expectTok .KnowledgeLevelKw ts
  let (_, ts) ← expectTok .Equals ts
  match ts with
  | t :: rest =>
    if t.kind = TokKind.MetaKw then .ok ({ meta := true }, rest)
    else if t.kind = TokKind.ConcreteKw then .ok ({ concrete := true }, rest)
    else .error "expected META or CONCRETE"
  | [] => .error "unexpected end of input"

def parseAggBodyLoop : Nat → List Tok → AggregateDeclCst → Except String (AggregateDeclCst × List Tok)
  | 0, _, _ => .error "out of fuel"
  | fuel + 1, ts, acc =>
    match peekKind ts with
    | some .ResponsibilitiesKw => do
      let (r, ts) ← parseResponsibilitiesDecl ts
      parseAggBodyLoop fuel ts { acc with responsibilities := acc.responsibilities ++ [r] }
    | some .KnowledgeLevelKw => do
      let (k, ts) ← parseKnowledgeLevelDecl ts
      parseAggBodyLoop fuel ts { acc with knowledgeLevels := acc.knowledgeLevels ++ [k] }
    | some .EntityKw => do
      let (e, ts) ← parseEntityDecl ts
      parseAggBodyLoop fuel ts { acc with entities := acc.entities ++ [e] }
    | some .ValueObjectKw => do
      let (v, ts) ← parseSimpleElem .ValueObjectKw ts
      parseAggBodyLoop fuel ts { acc with valueObjects := acc.valueObjects ++ [v] }
    | some .DomainEventKw => do
      let (v, ts) ← parseSimpleElem .DomainEventKw ts
      parseAggBodyLoop fuel ts { acc with domainEvents := acc.domainEvents ++ [v] }
    | some .CommandKw => do
      let (v, ts) ← parseSimpleElem .CommandKw ts
      parseAggBodyLoop fuel ts { acc with commands := acc.commands ++ [v] }
    | some .ServiceKw => do
      let (s, ts) ← parseServiceDecl ts
      parseAggBodyLoop fuel ts { acc with services := acc.services ++ [s] }
    | _ => .ok (acc, ts)

def parseAggregateDecl (ts : List Tok) : Except String (AggregateDeclCst × List Tok) := do
  let (_, ts) ← expectTok .AggregateKw ts
  let (nm, ts) ← expectTok .Ident ts
  let (_, ts) ← expectTok .LCurly ts
  let (cst, ts) ← parseAggBodyLoop (ts.length + 1) ts { identifiers := [nm.image] }
  let (_, ts) ← expectTok .RCurly ts
  .ok (cst, ts)

def parseModuleAggsLoop : Nat → List Tok → List AggregateDeclCst → Except String ((List AggregateDeclCst) × List Tok)
  | 0, _, _ => .error "out of fuel"
  | fuel + 1, ts, acc =>
    match peekKind ts with
    | some .AggregateKw => do
      let (a, ts) ← parseAggregateDecl ts
      parseModuleAggsLoop fuel ts (acc ++ [a])
    | _ => .ok (acc, ts)

def parseModuleDecl (ts : List Tok) : Except String (ModuleDeclCst × List Tok) := do
  let (_, ts) ← expectTok .ModuleKw ts
  let (nm, ts) ← expectTok .Ident ts
  let (_, ts) ← expectTok .LCurly ts
  let (aggs, ts) ← parseModuleAggsLoop (ts.length + 1) ts []
  let (_, ts) ← expectTok .RCurly ts
  .ok ({ identifiers := [nm.image], aggregates := aggs }, ts)

def parseDvsDecl (ts : List Tok) : Except String (StrPropCst × List Tok) := do
  let (_, ts) ← expectTok .DomainVisionStatementKw ts
  let (_, ts) ← expectTok .Equals ts
  let (s, ts) ← expectTok .StringLit ts
  .ok ({ strings := [s.image] }, ts)

def parseImplTechDecl (ts : List Tok) : Except String (StrPropCst × List Tok) := do
  let (_, ts) ← expectTok .ImplementationTechnologyKw ts
  let (_, ts) ← expectTok .Equals ts
  let (s, ts) ← expectTok .StringLit ts
  .ok ({ strings := [s.image] }, ts)

def parseBcBodyLoop : Nat → List Tok → BoundedContextDeclCst → Except String (BoundedContextDeclCst × List Tok)
  | 0, _, _ => .error "out of fuel"
  | fuel + 1, ts, acc =>
    match peekKind ts with
    | some .DomainVisionStatementKw => do
      let (d, ts) ← parseDvsDecl ts
      parseBcBodyLoop fuel ts { acc with dvs := acc.dvs ++ [d] }
    | some .ResponsibilitiesKw => do
      let (r, ts) ← parseResponsibilitiesDecl ts
      parseBcBodyLoop fuel ts { acc with responsibilities := acc.responsibilities ++ [r] }
    | some .ImplementationTechnologyKw => do
      let (i, ts) ← parseImplTechDecl ts
      parseBcBodyLoop fuel ts { acc with implTech := acc.implTech ++ [i] }
    | some .KnowledgeLevelKw => do
      let (k, ts) ← parseKnowledgeLevelDecl ts
      parseBcBodyLoop fuel ts { acc with knowledgeLevels := acc.knowledgeLevels ++ [k] }
    | some .AggregateKw => do
      let (a, ts) ← parseAggregateDecl ts
      parseBcBodyLoop fuel ts { acc with aggregates := acc.aggregates ++ [a] }
    | some .ModuleKw => do
      let (md, ts) ← parseModuleDecl ts
      parseBcBodyLoop fuel ts { acc with modules := acc.modules ++ [md] }
    | _ => .ok (acc, ts)

/-- `boundedContextDecl`: `BoundedContext` name (`implements` name)? braced
body of properties, aggregates and modules in any order. -/
def parseBoundedContextDecl (ts : List Tok) : Except String (BoundedContextDeclCst × List Tok) := do
  let (nm₀, ts) ← expectTok .BoundedContextKw ts
  let (nm, ts) ← expectTok .Ident ts
  let _ := nm₀
  let (ids, ts) ←
    match peekKind ts with
    | some .ImplementsKw => do
      let (_, ts) ← expectTok .ImplementsKw ts
      let (impl, ts) ← expectTok .Ident ts
      pure ([nm.image, impl.image], ts)
    | _ => pure ([nm.image], ts)
  let (_, ts) ← expectTok .LCurly ts
  let (cst, ts) ← parseBcBodyLoop (ts.length + 1) ts { identifiers := ids }
  let (_, ts) ← expectTok .RCurly ts
  .ok (cst, ts)

def parseUpPatternsTail : Nat → List Tok → UpPatternsCst → Except String (UpPatternsCst × List Tok)
  | 0, _, _ => .error "out of fuel"
  | fuel + 1, ts, acc =>
    match peekKind ts with
    | some .Comma => do
      let (_, ts) ← expectTok .Comma ts
      match ts with
      | t :: rest =>
        if t.kind = TokKind.OHS then parseUpPatternsTail fuel rest { acc with upOHS := acc.upOHS + 1 }
        else if t.kind = TokKind.PL then parseUpPatternsTail fuel rest { acc with upPL := acc.upPL + 1 }
        else .error "expected OHS or PL"
      | [] => .error "unexpected end of input"
    | _ => .ok (acc, ts)

/-- `upstreamPatterns`: `U`/`Upstream` then comma-separated `OHS`/`PL`. -/
def parseUpPatterns (ts : List Tok) : Except String (UpPatternsCst × List Tok) := do
  match ts with
  | t :: rest =>
    if t.kind = TokKind.UpstreamShort ∨ t.kind = TokKind.UpstreamKeyword then
      parseUpPatternsTail (rest.length + 1) rest {}
    else .error "expected upstream role"
  | [] => .error "unexpected end of input"

def parseDownPatternsTail : Nat → List Tok → DownPatternsCst → Except String (DownPatternsCst × List Tok)
  | 0, _, _ => .error "out of fuel"
  | fuel + 1, ts, acc =>
    match peekKind ts with
    | some .Comma => do
      let (_, ts) ← expectTok .Comma ts
      match ts with
      | t :: rest =>
        if t.kind = TokKind.ACL then parseDownPatternsTail fuel rest { acc with downACL := acc.downACL + 1 }
        else if t.kind = TokKind.CF then parseDownPatternsTail fuel rest { acc with downCF := acc.downCF + 1 }
        else .error "expected ACL or CF"
      | [] => .error "unexpected end of input"
    | _ => .ok (acc, ts)

def parseDownPatterns (ts : List Tok) : Except String (DownPatternsCst × List Tok) := do
  match ts with
  | t :: rest =>
    if t.kind = TokKind.DownstreamShort ∨ t.kind = TokKind.DownstreamKeyword then
      parseDownPatternsTail (rest.length + 1) rest {}
    else .error "expected downstream role"
  | [] => .error "unexpected end of input"

def parseIdentsAfterCommaLoop : Nat → List Tok → List (List Char) → Except String ((List (List Char)) × List Tok)
  | 0, _, _ => .error "out of fuel"
  | fuel + 1, ts, acc =>
    match peekKind ts with
    | some .Comma => do
      let (_, ts) ← expectTok .Comma ts
      let (i, ts) ← expectTok .Ident ts
      parseIdentsAfterCommaLoop fuel ts (acc ++ [i.image])
    | _ => .ok (acc, ts)

def parseExposedAggregates (ts : List Tok) : Except String (ExposedAggCst × List Tok) := do
  let (_, ts) ← expectTok .ExposedAggregatesKw ts
  let (_, ts) ← expectTok .Equals ts
  let (i, ts) ← expectTok .Ident ts
  let (ids, ts) ← parseIdentsAfterCommaLoop (ts.length + 1) ts [i.image]
  .ok ({ identifiers := ids }, ts)

def parseRelPropsLoop : Nat → List Tok → List RelPropCst → Except String ((List RelPropCst) × List Tok)
  | 0, _, _ => .error "out of fuel"
  | fuel + 1, ts, acc =>
    match peekKind ts with
    | some .ExposedAggregatesKw => do
      let (e, ts) ← parseExposedAggregates ts
      parseRelPropsLoop fuel ts (acc ++ [{ exposed := [e] }])
    | _ => .ok (acc, ts)

/-- `upstreamDownstreamRelationship`:
`Up ([patterns])? -> ([patterns])? Down ({ props })?`. -/
def parseUdRel (ts : List Tok) : Except String (UdRelCst × List Tok) := do
  let (up, ts) ← expectTok .Ident ts
  let (ups, ts) ←
    match peekKind ts with
    | some .LSquare => do
      let (_, ts) ← expectTok .LSquare ts
      let (u, ts) ← parseUpPatterns ts
      let (_, ts) ← expectTok .RSquare ts
      pure ([u], ts)
    | _ => pure ([], ts)
  let (_, ts) ← expectTok .Arrow ts
  let (downs, ts) ←
    match peekKind ts with
    | some .LSquare => do
      let (_, ts) ← expectTok .LSquare ts
      let (d, ts) ← parseDownPatterns ts
      let (_, ts) ← expectTok .RSquare ts
      pure ([d], ts)
    | _ => pure ([], ts)
  let (down, ts) ← expectTok .Ident ts
  let (props, ts) ←
    match peekKind ts with
    | some .LCurly => do
      let (_, ts) ← expectTok .LCurly ts
      let (ps, ts) ← parseRelPropsLoop (ts.length + 1) ts []
      let (_, ts) ← expectTok .RCurly ts
      pure (ps, ts)
    | _ => pure ([], ts)
  .ok ({ identifiers := [up.image, down.image], upstreamPatterns := ups,
         downstreamPatterns := downs, relProps := props }, ts)

def parseSymRel (ts : List Tok) : Except String (SymRelCst × List Tok) := do
  let (p1, ts) ← expectTok .Ident ts
  match ts with
  | t :: rest =>
    if t.kind = TokKind.PartnershipKw then do
      let (p2, ts) ← expectTok .Ident rest
      .ok ({ identifiers := [p1.image, p2.image], partnership := true }, ts)
    else if t.kind = TokKind.SharedKernelKw then do
      let (p2, ts) ← expectTok .Ident rest
      .ok ({ identifiers := [p1.image, p2.image], sharedKernel := true }, ts)
    else .error "expected Partnership or SharedKernel"
  | [] => .error "unexpected end of input"

/-- `relationshipDecl`: decided by the LL(2) lookahead — second token
`Partnership`/`SharedKernel` selects the symmetric alternative. -/
def parseRelationshipDecl (ts : List Tok) : Except String (RelationshipDeclCst × List Tok) :=
  if peekKind2 ts = some .PartnershipKw ∨ peekKind2 ts = some .SharedKernelKw then do
    let (s, ts) ← parseSymRel ts
    .ok ({ symmetric := some s }, ts)
  else do
    let (u, ts) ← parseUdRel ts
    .ok ({ upstreamDownstream := some u }, ts)

def parseCmTypeDecl (ts : List Tok) : Except String (Unit × List Tok) := do
  let (_, ts) ← expectTok .TypeKw ts
  let ts :=
    match ts with
    | t :: rest => if t.kind = TokKind.Equals then rest else ts
    | [] => ts
  let (_, ts) ← expectTok .Ident ts
  .ok ((), ts)

def parseCmStateDecl (ts : List Tok) : Except String (CmStateCst × List Tok) := do
  let (_, ts) ← expectTok .StateKw ts
  let ts :=
    match ts with
    | t :: rest => if t.kind = TokKind.Equals then rest else ts
    | [] => ts
  match ts with
  | t :: rest =>
    if t.kind = TokKind.AsIsKw then .ok ({ asIs := true }, rest)
    else if t.kind = TokKind.ToBeKw then .ok ({ toBe := true }, rest)
    else .error "expected AS_IS or TO_BE"
  | [] => .error "unexpected end of input"

def parseContainsDecl (ts : List Tok) : Except String (ContainsCst × List Tok) := do
  let (_, ts) ← expectTok .ContainsKw ts
  let (i, ts) ← expectTok .Ident ts
  let (ids, ts) ← parseIdentsAfterCommaLoop (ts.length + 1) ts [i.image]
  .ok ({ identifiers := ids }, ts)

def parseCmBodyLoop : Nat → List Tok → ContextMapDeclCst → Except String (ContextMapDeclCst × List Tok)
  | 0, _, _ => .error "out of fuel"
  | fuel + 1, ts, acc =>
    match peekKind ts with
    | some .TypeKw => do
      let (_, ts) ← parseCmTypeDecl ts
      parseCmBodyLoop fuel ts { acc with typeDecls := acc.typeDecls + 1 }
    | some .StateKw => do
      let (s, ts) ← parseCmStateDecl ts
      parseCmBodyLoop fuel ts { acc with states := acc.states ++ [s] }
    | some .ContainsKw => do
      let (c, ts) ← parseContainsDecl ts
      parseCmBodyLoop fuel ts { acc with containsDecls := acc.containsDecls ++ [c] }
    | some .Ident => do
      let (r, ts) ← parseRelationshipDecl ts
      parseCmBodyLoop fuel ts { acc with relationships := acc.relationships ++ [r] }
    | _ => .ok (acc, ts)

/-- `contextMapDecl`: `ContextMap` name? braced body of type, state,
contains and relationship declarations in any order. -/
def parseContextMapDecl (ts : List Tok) : Except String (ContextMapDeclCst × List Tok) := do
  let (_, ts) ← expectTok .ContextMapKw ts
  let (ids, ts) ←
    match peekKind ts with
    | some .Ident => do
      let (nm, ts) ← expectTok .Ident ts
      pure ([nm.image], ts)
    | _ => pure ([], ts)
  let (_, ts) ← expectTok .LCurly ts
  let (cst, ts) ← parseCmBodyLoop (ts.length + 1) ts { identifiers := ids }
  let (_, ts) ← expectTok .RCurly ts
  .ok (cst, ts)

def parseModelLoop : Nat → List Tok → CmlModelCst → Except String (CmlModelCst × List Tok)
  | 0, _, _ => .error "out of fuel"
  | fuel + 1, ts, acc =>
    match peekKind ts with
    | some .ContextMapKw => do
      let (cm, ts) ← parseContextMapDecl ts
      parseModelLoop fuel ts { acc with contextMaps := acc.contextMaps ++ [cm] }
    | some .BoundedContextKw => do
      let (bc, ts) ← parseBoundedContextDecl ts
      parseModelLoop fuel ts { acc with boundedContexts := acc.boundedContexts ++ [bc] }
    | _ => .ok (acc, ts)

/-- The `cmlModel` entry rule followed by Chevrotain's all-input-consumed
check. -/
def parseCmlModelToks (ts : List Tok) : Except String CmlModelCst :=
  match parseModelLoop (ts.length + 1) ts {} with
  | .error e => .error e
  | .ok (cst, rest) =>
    if rest.isEmpty then .ok cst
    else .error "Redundant input, expecting EOF"

/-! ## AST builder (the CST visitor of `src/model/parser.ts`)

`uuidv4()` becomes a threaded counter (identities are used only for external
addressing, never for semantics). -/

/-- `stripQuotes`: the regex replace `/^"|"$/g` removes one leading and one
trailing double quote. -/
def stripQuotes (s : String) : String :=
  let cs := s.data
  let cs := match cs with
    | '"' :: rest => rest
    | other => other
  let cs := if cs.getLast? = some '"' then cs.dropLast else cs
  String.mk cs

/-- Counter-threading map for fresh-identity assignment. -/
def mapCounter (f : β → Nat → α × Nat) : List β → Nat → List α × Nat
  | [], n => ([], n)
  | b :: rest, n =>
    let (a, n1) := f b n
    let (xs, n2) := mapCounter f rest n1
    (a :: xs, n2)

/-- `visitAttribute`: collection flag decides the type shape; the name comes
from the (single) token of the `attributeName` subrule. -/
def visitAttribute (cst : AttributeDeclCst) : Attribute :=
  let name := if cst.attrName.isEmpty then "unnamed" else String.mk cst.attrName
  let type :=
    if cst.listType || cst.setType then
      let coll := if cst.listType then "List" else "Set"
      let inner := (cst.identifiers.head?.map String.mk).getD "Object"
      coll ++ "<" ++ inner ++ ">"
    else
      (cst.identifiers.head?.map String.mk).getD "String"
  ⟨name, type, cst.key, cst.nullable⟩

def visitOperation (cst : OperationDeclCst) : ServiceOperation :=
  { name := ((cst.identifiers.drop 1).head?.map String.mk).getD "unnamed",
    returnType := some ((cst.identifiers.head?.map String.mk).getD "void"),
    parameters := cst.parameters.map fun p =>
      ⟨((p.identifiers.drop 1).head?.map String.mk).getD "param",
       (p.identifiers.head?.map String.mk).getD "Object"⟩ }

def visitEntity (cst : EntityDeclCst) (n : Nat) : Entity × Nat :=
  (⟨mkFreshId n,
    (cst.identifiers.head?.map String.mk).getD "UnnamedEntity",
    cst.attributes.map visitAttribute,
    cst.operations.map visitOperation,
    0 < cst.aggregateRootDecls⟩, n + 1)

def visitValueObject (cst : SimpleElemCst) (n : Nat) : ValueObject × Nat :=
  (⟨mkFreshId n,
    (cst.identifiers.head?.map String.mk).getD "UnnamedValueObject",
    cst.attributes.map visitAttribute⟩, n + 1)

def visitDomainEvent (cst : SimpleElemCst) (n : Nat) : DomainEvent × Nat :=
  (⟨mkFreshId n,
    (cst.identifiers.head?.map String.mk).getD "UnnamedEvent",
    cst.attributes.map visitAttribute⟩, n + 1)

def visitCommand (cst : SimpleElemCst) (n : Nat) : Command × Nat :=
  (⟨mkFreshId n,
    (cst.identifiers.head?.map String.mk).getD "UnnamedCommand",
    cst.attributes.map visitAttribute⟩, n + 1)

def visitService (cst : ServiceDeclCst) (n : Nat) : DomainService × Nat :=
  (⟨mkFreshId n,
    (cst.identifiers.head?.map String.mk).getD "UnnamedService",
    cst.operations.map visitOperation⟩, n + 1)

/-- The entity loop of `visitAggregate`: each entity carrying the
aggregate-root marker overwrites `agg.aggregateRoot`, so the last flagged
entity wins. -/
def visitEntitiesLoop : List EntityDeclCst → Option Entity → Nat →
    List Entity × Option Entity × Nat
  | [], root, n => ([], root, n)
  | c :: rest, root, n =>
    let (e, n1) := visitEntity c n
    let root1 := if e.aggregateRoot then some e else root
    let (es, root2, n2) := visitEntitiesLoop rest root1 n1
    (e :: es, root2, n2)

def klOfCst (ks : List KLCst) : Option KnowledgeLevel :=
  match ks.head? with
  | some k =>
    if k.meta then some KnowledgeLevel.META
    else if k.concrete then some KnowledgeLevel.CONCRETE
    else none
  | none => none

def respOfCst (rs : List RespCst) : List String :=
  match rs.head? with
  | some r => r.strings.map (fun s => stripQuotes (String.mk s))
  | none => []

def visitAggregate (cst : AggregateDeclCst) (n : Nat) : Aggregate × Nat :=
  let aggId := mkFreshId n
  let name := (cst.identifiers.head?.map String.mk).getD "UnnamedAggregate"
  let (entities, root, n1) := visitEntitiesLoop cst.entities none (n + 1)
  let (vos, n2) := mapCounter visitValueObject cst.valueObjects n1
  let (evs, n3) := mapCounter visitDomainEvent cst.domainEvents n2
  let (cmds, n4) := mapCounter visitCommand cst.commands n3
  let (svcs, n5) := mapCounter visitService cst.services n4
  (⟨aggId, name, root, entities, vos, evs, cmds, svcs,
    respOfCst cst.responsibilities, klOfCst cst.knowledgeLevels⟩, n5)

def visitModule (cst : ModuleDeclCst) (n : Nat) : Module × Nat :=
  let modId := mkFreshId n
  let name := (cst.identifiers.head?.map String.mk).getD "UnnamedModule"
  let (aggs, n1) := mapCounter visitAggregate cst.aggregates (n + 1)
  (⟨modId, name, aggs⟩, n1)

def visitBoundedContext (cst : BoundedContextDeclCst) (n : Nat) : BoundedContext × Nat :=
  let bcId := mkFreshId n
  let name := (cst.identifiers.head?.map String.mk).getD "UnnamedContext"
  let dvs := (cst.dvs.head?.bind (·.strings.head?)).map (fun s => stripQuotes (String.mk s))
  let implTech := (cst.implTech.head?.bind (·.strings.head?)).map (fun s => stripQuotes (String.mk s))
  let (aggs, n1) := mapCounter visitAggregate cst.aggregates (n + 1)
  let (mods, n2) := mapCounter visitModule cst.modules n1
  (⟨bcId, name, dvs, respOfCst cst.responsibilities, implTech,
    klOfCst cst.knowledgeLevels, aggs, mods⟩, n2)

/-- `visitRelationship`: symmetric node first; pattern tokens are collected
as at-most-one `OHS`, then at-most-one `PL` (likewise `ACL`, `CF`), and the
last `exposedAggregates` property assignment wins. -/
def visitRelationship (cst : RelationshipDeclCst) (n : Nat) :
    Option ContextRelationship × Nat :=
  match cst.symmetric with
  | some sym =>
    let stype := if sym.sharedKernel then SymType.SharedKernel else SymType.Partnership
    (some (.symmetric (mkFreshId n) stype
      ((sym.identifiers.head?.map String.mk).getD "")
      (((sym.identifiers.drop 1).head?.map String.mk).getD "")), n + 1)
  | none =>
    match cst.upstreamDownstream with
    | some ud =>
      let ups :=
        match ud.upstreamPatterns.head? with
        | some up =>
          (if 0 < up.upOHS then [UpPattern.OHS] else [])
            ++ (if 0 < up.upPL then [UpPattern.PL] else [])
        | none => []
      let downs :=
        match ud.downstreamPatterns.head? with
        | some dn =>
          (if 0 < dn.downACL then [DownPattern.ACL] else [])
            ++ (if 0 < dn.downCF then [DownPattern.CF] else [])
        | none => []
      let exposed :=
        (((ud.relProps.filterMap (fun p => p.exposed.head?)).getLast?).map
          (·.identifiers.map String.mk)).getD []
      (some (.upstreamDownstream (mkFreshId n)
        ((ud.identifiers.head?.map String.mk).getD "")
        (((ud.identifiers.drop 1).head?.map String.mk).getD "")
        ups downs exposed), n + 1)
    | none => (none, n)

def visitRelationshipsLoop : List RelationshipDeclCst → Nat →
    List ContextRelationship × Nat
  | [], n => ([], n)
  | c :: rest, n =>
    let (r, n1) := visitRelationship c n
    let (rs, n2) := visitRelationshipsLoop rest n1
    (match r with
     | some rel => rel :: rs
     | none => rs, n2)

def visitContextMap (cst : ContextMapDeclCst) (n : Nat) : ContextMap × Nat :=
  let cmId := mkFreshId n
  let name := (cst.identifiers.head?.map String.mk).getD "MainContextMap"
  let state :=
    match cst.states.head? with
    | some s =>
      if s.asIs then some CMState.AS_IS
      else if s.toBe then some CMState.TO_BE
      else none
    | none => none
  let contains := cst.containsDecls.flatMap (·.identifiers.map String.mk)
  let (rels, n1) := visitRelationshipsLoop cst.relationships (n + 1)
  (⟨cmId, name, contains, rels, state⟩, n1)

/-- `visitCmlModel`: only the first context-map node is visited. -/
def visitCmlModel (cst : CmlModelCst) : CMLModel :=
  let (cmOpt, n1) :=
    match cst.contextMaps.head? with
    | some cmCst =>
      let (cm, n1) := visitContextMap cmCst 0
      (some cm, n1)
    | none => (none, 0)
  let (bcs, _) := mapCounter visitBoundedContext cst.boundedContexts n1
  ⟨"Untitled", cmOpt, bcs⟩

/-- `parseCML`: lex (fail on any lexical error), parse (fail on any parser
error or leftover input), then build; error positions are dropped, only the
success flag and the model have semantic weight. -/
structure ParseResult where
  success : Bool
  model : Option CMLModel := none
  errors : List String := []
deriving DecidableEq

def parseCML (text : String) : ParseResult :=
  let lex := tokenize text
  if lex.2 then ⟨false, none, ["lexing errors"]⟩
  else
    match parseCmlModelToks lex.1 with
    | .error e => ⟨false, none, [e]⟩
    | .ok cst => ⟨true, some (visitCmlModel cst), []⟩

/-! ## Writer (`src/model/writer.ts`) -/

/-- `RESERVED_KEYWORDS` from writer.ts, transcribed exactly.  Lookup is by
the lowercased name, so the mixed-case entries can never match — a quirk
preserved from the source. -/
def RESERVED_KEYWORDS : List String :=
  ["abstract", "action", "aggregate", "aggregateRoot", "application", "assert", "async",
   "boundedContext", "by",
   "case", "catch", "class", "command", "contains", "context",
   "def", "default", "description", "do", "domain", "domainEvent", "domainVisionStatement",
   "else", "entity", "enum", "event", "exposedAggregates", "extends",
   "false", "final", "finally", "for", "function",
   "gap", "get",
   "hint", "hook",
   "if", "implements", "implementationTechnology", "import", "in", "input", "instanceof",
   "key", "knowledgeLevel",
   "let", "list",
   "map", "module", "name",
   "new", "null", "nullable",
   "of", "operation", "optional", "output",
   "package", "param", "path", "plateau", "private", "protected", "public",
   "query",
   "ref", "repository", "required", "responsibilities", "result", "return",
   "scaffold", "service", "set", "state", "static", "subdomain", "super", "switch",
   "this", "throw", "trait", "true", "try", "type",
   "url", "use",
   "value", "valueObject", "var", "version", "void",
   "while", "with"]

/-- `CMLWriter.escapeIdentifier`: prefix `^` when the lowercased name is in
the reserved set. -/
def escapeIdentifier (name : String) : String :=
  if RESERVED_KEYWORDS.contains (jsToLower name) then "^" ++ name else name

/-- `CMLWriter.escapeString`: backslash-escape backslashes and quotes. -/
def escapeString (s : String) : String :=
  String.mk (s.data.flatMap fun c =>
    if c = '\\' then ['\\', '\\'] else if c = '"' then ['\\', '"'] else [c])

/-- One output line at the given indent depth (a tab per level). -/
def wLine (ind : Nat) (text : String) : String :=
  String.mk (List.replicate ind '\t') ++ text

def quoteList (xs : List String) : String :=
  String.intercalate ", " (xs.map (fun r => "\"" ++ escapeString r ++ "\""))

def klString : KnowledgeLevel → String
  | .META => "META"
  | .CONCRETE => "CONCRETE"

def writeAttributeLine (ind : Nat) (attr : Attribute) : String :=
  wLine ind (attr.type ++ " " ++ escapeIdentifier attr.name
    ++ (if attr.key then " key" else "")
    ++ (if attr.nullable then " nullable" else ""))

def writeOperationLine (ind : Nat) (op : ServiceOperation) : String :=
  wLine ind ("def " ++ op.returnType.getD "void" ++ " " ++ op.name ++ "("
    ++ String.intercalate ", " (op.parameters.map (fun p => p.type ++ " " ++ p.name)) ++ ")")

def writeEntityLines (ind : Nat) (e : Entity) : List String :=
  if e.attributes.isEmpty && e.operations.isEmpty && !e.aggregateRoot then
    [wLine ind ("Entity " ++ e.name)]
  else
    [wLine ind ("Entity " ++ e.name ++ " \x7b")]
    ++ (if e.aggregateRoot then [wLine (ind + 1) "aggregateRoot"] else [])
    ++ e.attributes.map (writeAttributeLine (ind + 1))
    ++ e.operations.map (writeOperationLine (ind + 1))
    ++ [wLine ind "\x7d"]

def writeValueObjectLines (ind : Nat) (v : ValueObject) : List String :=
  if v.attributes.isEmpty then [wLine ind ("ValueObject " ++ v.name)]
  else
    [wLine ind ("ValueObject " ++ v.name ++ " \x7b")]
    ++ v.attributes.map (writeAttributeLine (ind + 1))
    ++ [wLine ind "\x7d"]

def writeDomainEventLines (ind : Nat) (v : DomainEvent) : List String :=
  if v.attributes.isEmpty then [wLine ind ("DomainEvent " ++ v.name)]
  else
    [wLine ind ("DomainEvent " ++ v.name ++ " \x7b")]
    ++ v.attributes.map (writeAttributeLine (ind + 1))
    ++ [wLine ind "\x7d"]

def writeCommandLines (ind : Nat) (v : Command) : List String :=
  if v.attributes.isEmpty then [wLine ind ("Command " ++ v.name)]
  else
    [wLine ind ("Command " ++ v.name ++ " \x7b")]
    ++ v.attributes.map (writeAttributeLine (ind + 1))
    ++ [wLine ind "\x7d"]

def writeServiceLines (ind : Nat) (s : DomainService) : List String :=
  if s.operations.isEmpty then [wLine ind ("Service " ++ s.name)]
  else
    [wLine ind ("Service " ++ s.name ++ " \x7b")]
    ++ s.operations.map (writeOperationLine (ind + 1))
    ++ [wLine ind "\x7d"]

/-- `writeAggregate`: properties, then each child block preceded by a blank
line. -/
def writeAggregateLines (ind : Nat) (agg : Aggregate) : List String :=
  [wLine ind ("Aggregate " ++ agg.name ++ " \x7b")]
  ++ (if 0 < agg.responsibilities.length then
      [wLine (ind + 1) ("responsibilities = " ++ quoteList agg.responsibilities)] else [])
  ++ (match agg.knowledgeLevel with
      | some kl => [wLine (ind + 1) ("knowledgeLevel = " ++ klString kl)]
      | none => [])
  ++ agg.entities.flatMap (fun e => [""] ++ writeEntityLines (ind + 1) e)
  ++ agg.valueObjects.flatMap (fun v => [""] ++ writeValueObjectLines (ind + 1) v)
  ++ agg.domainEvents.flatMap (fun v => [""] ++ writeDomainEventLines (ind + 1) v)
  ++ agg.commands.flatMap (fun v => [""] ++ writeCommandLines (ind + 1) v)
  ++ agg.services.flatMap (fun s => [""] ++ writeServiceLines (ind + 1) s)
  ++ [wLine ind "\x7d"]

/-- `writeModule`: a blank line after each aggregate. -/
def writeModuleLines (ind : Nat) (m : Module) : List String :=
  [wLine ind ("Module " ++ m.name ++ " \x7b")]
  ++ m.aggregates.flatMap (fun a => writeAggregateLines (ind + 1) a ++ [""])
  ++ [wLine ind "\x7d"]

def writeBoundedContextLines (ind : Nat) (bc : BoundedContext) : List String :=
  [wLine ind ("BoundedContext " ++ bc.name ++ " \x7b")]
  ++ (match bc.domainVisionStatement with
      | some d => [wLine (ind + 1) ("domainVisionStatement = \"" ++ escapeString d ++ "\"")]
      | none => [])
  ++ (if 0 < bc.responsibilities.length then
      [wLine (ind + 1) ("responsibilities = " ++ quoteList bc.responsibilities)] else [])
  ++ (match bc.implementationTechnology with
      | some t => [wLine (ind + 1) ("implementationTechnology = \"" ++ escapeString t ++ "\"")]
      | none => [])
  ++ (match bc.knowledgeLevel with
      | some kl => [wLine (ind + 1) ("knowledgeLevel = " ++ klString kl)]
      | none => [])
  ++ bc.aggregates.flatMap (fun a => [""] ++ writeAggregateLines (ind + 1) a)
  ++ bc.modules.flatMap (fun mo => [""] ++ writeModuleLines (ind + 1) mo)
  ++ [wLine ind "\x7d"]

def symString : SymType → String
  | .Partnership => "Partnership"
  | .SharedKernel => "SharedKernel"

def upPatString : UpPattern → String
  | .OHS => "OHS"
  | .PL => "PL"

def downPatString : DownPattern → String
  | .ACL => "ACL"
  | .CF => "CF"

/-- `writeRelationship`: symmetric as `P1 [Type] P2`; upstream-downstream
always with at least the bare role markers, plus an `exposedAggregates`
block when that list is non-empty. -/
def writeRelationshipLines (ind : Nat) (rel : ContextRelationship) : List String :=
  match rel with
  | .symmetric _ st p1 p2 =>
    [wLine ind (p1 ++ " [" ++ symString st ++ "] " ++ p2)]
  | .upstreamDownstream _ up down ups downs exposed =>
    let upPats :=
      if 0 < ups.length then "[U," ++ String.intercalate "," (ups.map upPatString) ++ "]"
      else "[U]"
    let downPats :=
      if 0 < downs.length then "[D," ++ String.intercalate "," (downs.map downPatString) ++ "]"
      else "[D]"
    if 0 < exposed.length then
      [wLine ind (up ++ " " ++ upPats ++ " -> " ++ downPats ++ " " ++ down ++ " \x7b"),
       wLine (ind + 1) ("exposedAggregates = " ++ String.intercalate ", " exposed),
       wLine ind "\x7d"]
    else
      [wLine ind (up ++ " " ++ upPats ++ " -> " ++ downPats ++ " " ++ down)]

def stateString : CMState → String
  | .AS_IS => "AS_IS"
  | .TO_BE => "TO_BE"

def writeContextMapLines (cm : ContextMap) : List String :=
  [wLine 0 ("ContextMap " ++ cm.name ++ " \x7b")]
  ++ (match cm.state with
      | some s => [wLine 1 ("state = " ++ stateString s)]
      | none => [])
  ++ (if 0 < cm.boundedContexts.length then
      [wLine 1 ("contains " ++ String.intercalate ", " cm.boundedContexts)] else [])
  ++ [""]
  ++ cm.relationships.flatMap (writeRelationshipLines 1)
  ++ [wLine 0 "\x7d"]

/-- `serializeCML`: context map (if any) then each bounded context, each
followed by a blank line, joined with newlines. -/
def serializeCML (m : CMLModel) : String :=
  let lines :=
    (match m.contextMap with
     | some cm => writeContextMapLines cm ++ [""]
     | none => [])
    ++ m.boundedContexts.flatMap (fun bc => writeBoundedContextLines 0 bc ++ [""])
  String.intercalate "\n" lines

/-! ## Concrete documents used by the claims -/

/-- A syntactically valid document with a symmetric relationship. -/
def docSymmetric : String :=
  "ContextMap M \x7b A Partnership B \x7d"

/-- An aggregate with two entities both marked `aggregateRoot`. -/
def docTwoRoots : String :=
  "BoundedContext B1 \x7b Aggregate A1 \x7b Entity E1 \x7b aggregateRoot \x7d Entity E2 \x7b aggregateRoot \x7d \x7d \x7d"

/-- An entity with an attribute named `query` (a reserved keyword of the
writer, lexed as a plain identifier). -/
def docQueryAttr : String :=
  "BoundedContext B1 \x7b Aggregate A1 \x7b Entity E1 \x7b String query \x7d \x7d \x7d"

/-- The keyword-prefix lexing document from the spec. -/
def docServiceNow : String :=
  "BoundedContext ServiceNowPlatform \x7b \x7d"

/-! ## Auxiliary definitions for the statements -/

/-- Independent statement of the amended sanitization contract: replace each
character outside `[a-zA-Z0-9_]` by `_`, prepend `_` when the first
character is a digit, and fall back to `_unnamed` for an empty result. -/
def sanitizeSpec (name : String) : String :=
  let repl := name.data.map (fun c => if isIdentChar c then c else '_')
  let pre :=
    match repl with
    | c :: _ => if isDigitChar c then '_' :: repl else repl
    | [] => []
  match pre with
  | [] => "_unnamed"
  | cs => String.mk cs

/-- `[a-zA-Z_][a-zA-Z0-9_]*` as a predicate on character lists. -/
def isIdentifierChars (w : List Char) : Bool :=
  match w with
  | [] => false
  | c :: cs => isIdentStartChar c && cs.all isIdentChar

/-- Every element requested from `batchAddElements` is present (under its
normalized name) in the target aggregate of the given model. -/
def batchAllPresent (p : BatchAddElementsParams) (m : CMLModel) : Bool :=
  match findAggregate m p.contextName p.aggregateName with
  | none => false
  | some agg =>
    p.identifiers.all (fun ip =>
        (agg.valueObjects.map (·.name)).contains (normalizeIdentifierName ip.name))
    && p.valueObjects.all (fun vp =>
        (agg.valueObjects.map (·.name)).contains (sanitizeIdentifier vp.name))
    && p.entities.all (fun ep =>
        (agg.entities.map (·.name)).contains (sanitizeIdentifier ep.name))
    && p.domainEvents.all (fun dp =>
        (agg.domainEvents.map (·.name)).contains (sanitizeIdentifier dp.name))
    && p.commands.all (fun cp =>
        (agg.commands.map (·.name)).contains (sanitizeIdentifier cp.name))
    && p.services.all (fun sp =>
        (agg.services.map (·.name)).contains (sanitizeIdentifier sp.name))

def firstAggregate (m : CMLModel) : Option Aggregate :=
  m.boundedContexts.head?.bind (·.aggregates.head?)

/-- The first option when present, the default otherwise. -/
def orDefault (o d : Option α) : Option α :=
  match o with
  | some x => some x
  | none => d

/-! ## Concrete witness fixtures -/

/-- Two bounded contexts each declaring a value object `AgentId` (the
spec's own example). -/
def mAgentDup : CMLModel :=
  let agg1 : Aggregate :=
    { id := "a1", name := "AgentAggregate", valueObjects := [{ id := "v1", name := "AgentId" }] }
  let agg2 : Aggregate :=
    { id := "a2", name := "PlatformAggregate", valueObjects := [{ id := "v2", name := "AgentId" }] }
  let bc1 : BoundedContext := { id := "bc1", name := "A2AServer", aggregates := [agg1] }
  let bc2 : BoundedContext := { id := "bc2", name := "DatabricksPlatform", aggregates := [agg2] }
  { name := "M", boundedContexts := [bc1, bc2] }

/-- One aggregate already holding the ID value object `OrderId`. -/
def mWithOrderId : CMLModel :=
  let vo : ValueObject :=
    { id := "vo1", name := "OrderId", attributes := [⟨"value", "String", false, false⟩] }
  let agg : Aggregate := { id := "a", name := "OrderAggregate", valueObjects := [vo] }
  let bc : BoundedContext := { id := "b", name := "Orders", aggregates := [agg] }
  { name := "M", boundedContexts := [bc] }

def pOrderId : AddIdentifierParams :=
  ⟨"Orders", "OrderAggregate", "Order"⟩

/-- A batch request against `mWithOrderId` that passes every validation. -/
def pBatchW : BatchAddElementsParams :=
  let ent : BatchEntityParams :=
    { name := "Order", aggregateRoot := true, attributes := [⟨"status", "String", false, false⟩] }
  let vo : BatchElemParams :=
    { name := "Money", attributes := [⟨"amount", "BigDecimal", false, false⟩] }
  { contextName := "Orders", aggregateName := "OrderAggregate",
    entities := [ent], valueObjects := [vo], identifiers := [{ name := "Payment" }] }

/-- A batch request whose value object collides with the `OrderId` already
present in the target aggregate. -/
def pBatchFail : BatchAddElementsParams :=
  { contextName := "Orders", aggregateName := "OrderAggregate",
    valueObjects := [{ name := "OrderId" }] }

/-- A model whose only diagnostic is the empty-bounded-context warning. -/
def mEmptyBc : CMLModel :=
  { name := "M", boundedContexts := [{ id := "b", name := "Empty" }] }

/-- An aggregate CST with two entities both carrying the aggregate-root
marker. -/
def cstTwoRoots : AggregateDeclCst :=
  { identifiers := ["A1".data],
    entities := [{ identifiers := ["E1".data], aggregateRootDecls := 1 },
                 { identifiers := ["E2".data], aggregateRootDecls := 1 }] }

/-! # Theorems -/

/-- C5: `validateAttributeType` rejects `Map<String, Any>` and
`List<Set<String>>`, and accepts `List<String>`, `- CustomerId` and
`BigDecimal`. -/
theorem validateAttributeType_accept_reject_sets :
    (validateAttributeType "Map<String, Any>").valid = false
  ∧ (validateAttributeType "List<Set<String>>").valid = false
  ∧ (validateAttributeType "List<String>").valid = true
  ∧ (validateAttributeType "- CustomerId").valid = true
  ∧ (validateAttributeType "BigDecimal").valid = true := by
  decide

/-- C8 counterexample: `sanitizeIdentifier "a-b"` is `"a_b"`, not the
stripped `"ab"` the claim describes — non-identifier characters are
replaced with underscores, not removed. -/
theorem sanitizeIdentifier_replaces_not_strips :
    sanitizeIdentifier "a-b" = "a_b" ∧ sanitizeIdentifier "a-b" ≠ "ab" := by
  decide

/-- C1: a parse-accepted document with a symmetric relationship whose
serialization does not re-parse: the writer emits `A [Partnership] B` while
the grammar's `symmetricRelationship` rule accepts only `A Partnership B`,
so `parse(serialize(parse(D).model))` fails instead of returning an equal
model. -/
theorem roundtrip_symmetric_relationship_fails :
    (parseCML docSymmetric).success = true
  ∧ ((parseCML docSymmetric).model.bind (fun mo => mo.contextMap.map (·.relationships.length)))
      = some 1
  ∧ ((parseCML docSymmetric).model.map (fun mo => (parseCML (serializeCML mo)).success))
      = some false := by
  decide

/-- C3 counterexample: in `docTwoRoots` both `E1` and `E2` carry the
aggregate-root marker with `E1` first in document order, yet the built
aggregate's root back-reference is `E2` — the builder keeps the last
flagged entity, not the first. -/
theorem builder_keeps_last_root_counterexample :
    (parseCML docTwoRoots).success = true
  ∧ (((parseCML docTwoRoots).model.bind firstAggregate).map
      (fun a => ((a.entities.filter (·.aggregateRoot)).map (·.name), a.aggregateRoot.map (·.name))))
      = some (["E1", "E2"], some "E2")
  ∧ ("E2" : String) ≠ "E1" := by
  decide

set_option maxRecDepth 100000 in
/-- C4: the attribute name `query` is escaped to `^query` on output as
claimed, but re-parsing the serialized text fails — the lexer has no token
matching `^` — rather than succeeding with the unescaped name. -/
theorem escaped_attribute_roundtrip_fails :
    escapeIdentifier "query" = "^query"
  ∧ (parseCML docQueryAttr).success = true
  ∧ (((parseCML docQueryAttr).model.bind firstAggregate).bind
      (fun a => a.entities.head?.map (fun e => e.attributes.map (fun ab => (ab.type, ab.name)))))
      = some [("String", "query")]
  ∧ ((parseCML docQueryAttr).model.map (fun mo =>
      decide ("^query".data <:+: (serializeCML mo).data))) = some true
  ∧ ((parseCML docQueryAttr).model.map (fun mo => (parseCML (serializeCML mo)).success))
      = some false := by
  decide

/-! ### Shared helper lemmas -/

theorem string_mk_cons_ne_empty (c : Char) (cs : List Char) : String.mk (c :: cs) ≠ "" := by
  intro h
  have : (String.mk (c :: cs)).data = ("" : String).data := by rw [h]
  simp at this

theorem mk_cons_eq_empty_iff (c : Char) (cs : List Char) :
    (String.mk (c :: cs) = "") = False := by
  simp [string_mk_cons_ne_empty]

theorem append_mk_underscore (x : List Char) :
    ("_" : String) ++ String.mk x = String.mk ('_' :: x) := rfl

theorem isIdentChar_of_start {c : Char} (h : isIdentStartChar c = true) :
    isIdentChar c = true := by
  simp [isIdentChar, h]

theorem sanitizeChar_isIdentChar (a : Char) :
    isIdentChar (if isIdentChar a then a else '_') = true := by
  by_cases h : isIdentChar a = true
  · simp [h]
  · simp [h]
    decide

theorem identStart_of_identChar_not_digit {c : Char} (hc : isIdentChar c = true)
    (hd : isDigitChar c = false) : isIdentStartChar c = true := by
  have : isIdentChar c = (isIdentStartChar c || isDigitChar c) := rfl
  rw [this, hd] at hc
  simpa using hc

/-- C8 (amended): `sanitizeIdentifier` replaces every character outside
`[a-zA-Z0-9_]` with an underscore, prefixes `_` when the result begins with
a digit, and returns `_unnamed` for an empty result; the returned name is
always a valid identifier. -/
theorem sanitizeIdentifier_amended_spec (name : String) :
    sanitizeIdentifier name = sanitizeSpec name
  ∧ isValidIdentifier (sanitizeIdentifier name) = true := by
  obtain ⟨l⟩ := name
  cases l with
  | nil => constructor <;> decide
  | cons c cs =>
    have hmapall : ∀ x ∈ cs.map (fun a => if isIdentChar a then a else '_'),
        isIdentChar x = true := by
      intro x hx
      rcases List.mem_map.mp hx with ⟨a, _, rfl⟩
      exact sanitizeChar_isIdentChar a
    have hfc := sanitizeChar_isIdentChar c
    by_cases hd : isDigitChar (if isIdentChar c then c else '_') = true
    · constructor
      · simp [sanitizeIdentifier, sanitizeSpec, hd, append_mk_underscore,
          mk_cons_eq_empty_iff]
      · simp [sanitizeIdentifier, hd, append_mk_underscore, mk_cons_eq_empty_iff,
          isValidIdentifier]
        constructor
        · decide
        · exact ⟨hfc, fun x _ => sanitizeChar_isIdentChar x⟩
    · have hd' : isDigitChar (if isIdentChar c then c else '_') = false := by
        simpa using hd
      constructor
      · simp [sanitizeIdentifier, sanitizeSpec, hd', mk_cons_eq_empty_iff]
      · simp [sanitizeIdentifier, hd', mk_cons_eq_empty_iff, isValidIdentifier]
        constructor
        · exact identStart_of_identChar_not_digit hfc hd'
        · exact fun x _ => sanitizeChar_isIdentChar x

theorem orDefault_some (x : α) (d : Option α) : orDefault (some x) d = some x := rfl

theorem orDefault_none (d : Option α) : orDefault none d = d := rfl

theorem getLast?_cons_orDefault (a : α) (l : List α) :
    (a :: l).getLast? = orDefault l.getLast? (some a) := by
  cases l with
  | nil => rfl
  | cons x xs =>
    rw [List.getLast?_cons_cons]
    have : (x :: xs).getLast?.isSome := by
      rw [List.getLast?_isSome]
      simp
    rcases hc : (x :: xs).getLast? with _ | y
    · rw [hc] at this
      simp at this
    · rfl

theorem orDefault_absorb (o : Option α) (a : α) (d : Option α) :
    orDefault (orDefault o (some a)) d = orDefault o (some a) := by
  cases o <;> rfl

/-- The entity loop of `visitAggregate` ends with the last flagged entity
as root (or the incoming root if none is flagged). -/
theorem visitEntitiesLoop_root (cs : List EntityDeclCst) (root : Option Entity) (n : Nat) :
    (visitEntitiesLoop cs root n).2.1 =
      orDefault ((visitEntitiesLoop cs root n).1.filter (·.aggregateRoot)).getLast? root := by
  induction cs generalizing root n with
  | nil => simp [visitEntitiesLoop, orDefault]
  | cons c rest ih =>
    rcases hE : visitEntity c n with ⟨e, n1⟩
    by_cases he : e.aggregateRoot = true
    · have ihr := ih (some e) n1
      rcases hrec : visitEntitiesLoop rest (some e) n1 with ⟨es, root2, n2⟩
      rw [hrec] at ihr
      simp only at ihr
      simp only [visitEntitiesLoop, hE, he, if_true, hrec]
      simp only [List.filter_cons, he, if_true]
      rw [getLast?_cons_orDefault, orDefault_absorb]
      exact ihr
    · have he' : e.aggregateRoot = false := by simpa using he
      have ihr := ih root n1
      rcases hrec : visitEntitiesLoop rest root n1 with ⟨es, root2, n2⟩
      rw [hrec] at ihr
      simp only at ihr
      simp only [visitEntitiesLoop, hE, he', Bool.false_eq_true, if_false, hrec]
      simp only [List.filter_cons, he', Bool.false_eq_true, if_false]
      simpa using ihr

/-- C3 (amended): for every aggregate CST whose entity list carries more
than one aggregate-root marker, the built aggregate's root back-reference
is the LAST flagged entity in document order (each flagged entity
overwrites the previous assignment). -/
theorem visitAggregate_root_is_last (cst : AggregateDeclCst) (n : Nat)
    (h : 1 < ((visitAggregate cst n).1.entities.filter (·.aggregateRoot)).length) :
    (visitAggregate cst n).1.aggregateRoot
      = ((visitAggregate cst n).1.entities.filter (·.aggregateRoot)).getLast? := by
  clear h
  have hroot := visitEntitiesLoop_root cst.entities none (n + 1)
  rcases hrec : visitEntitiesLoop cst.entities none (n + 1) with ⟨es, root, n1⟩
  rw [hrec] at hroot
  simp only at hroot
  simp only [visitAggregate, hrec]
  rw [hroot]
  cases (es.filter (·.aggregateRoot)).getLast? <;> rfl

/-- Witness for the amended C3 theorem at a concrete two-root CST. -/
theorem visitAggregate_root_is_last_witness :
    (visitAggregate cstTwoRoots 0).1.aggregateRoot
      = ((visitAggregate cstTwoRoots 0).1.entities.filter (·.aggregateRoot)).getLast? :=
  visitAggregate_root_is_last cstTwoRoots 0 (by decide)

/-! ### Which validator pass produces which error kinds -/

theorem mem_ite_list {c : Prop} [Decidable c] {l1 l2 : List α} {e : α}
    (h : e ∈ (if c then l1 else l2)) : e ∈ l1 ∨ e ∈ l2 := by
  by_cases hc : c
  · left
    simpa [hc] using h
  · right
    simpa [hc] using h

theorem dupScan_kind (mk : String → VError) (K : ErrKind) (hmk : ∀ n, (mk n).kind = K) :
    ∀ seen ns, ∀ e ∈ dupScan mk seen ns, e.kind = K := by
  intro seen ns
  induction ns generalizing seen with
  | nil => intro e he; simp [dupScan] at he
  | cons n rest ih =>
    intro e he
    rcases List.mem_append.mp he with h1 | h2
    · rcases mem_ite_list h1 with h | h
      · rcases List.mem_singleton.mp h with rfl
        exact hmk n
      · simp at h
    · exact ih _ e h2

theorem validateRelationship_kinds (rel : ContextRelationship) (ns : List String) :
    ∀ e ∈ validateRelationship rel ns,
      e.kind ≠ ErrKind.ambiguousDomainObject ∧ e.kind ≠ ErrKind.emptyContext := by
  intro e he
  cases rel with
  | symmetric i st p1 p2 =>
    simp only [validateRelationship, List.mem_append] at he
    rcases he with (ha | hb) | hc
    · rcases mem_ite_list ha with h | h
      · simp at h
      · rcases List.mem_singleton.mp h with rfl
        exact ⟨by simp, by simp⟩
    · rcases mem_ite_list hb with h | h
      · simp at h
      · rcases List.mem_singleton.mp h with rfl
        exact ⟨by simp, by simp⟩
    · rcases mem_ite_list hc with h | h
      · rcases List.mem_singleton.mp h with rfl
        exact ⟨by simp, by simp⟩
      · simp at h
  | upstreamDownstream i up down a b c =>
    simp only [validateRelationship, List.mem_append] at he
    rcases he with (ha | hb) | hc
    · rcases mem_ite_list ha with h | h
      · simp at h
      · rcases List.mem_singleton.mp h with rfl
        exact ⟨by simp, by simp⟩
    · rcases mem_ite_list hb with h | h
      · simp at h
      · rcases List.mem_singleton.mp h with rfl
        exact ⟨by simp, by simp⟩
    · rcases mem_ite_list hc with h | h
      · rcases List.mem_singleton.mp h with rfl
        exact ⟨by simp, by simp⟩
      · simp at h

theorem validateContextMap_kinds (m : CMLModel) :
    ∀ e ∈ validateContextMap m,
      e.kind ≠ ErrKind.ambiguousDomainObject ∧ e.kind ≠ ErrKind.emptyContext := by
  intro e he
  unfold validateContextMap at he
  cases hcm : m.contextMap with
  | none => rw [hcm] at he; simp at he
  | some cm =>
    rw [hcm] at he
    rcases List.mem_append.mp he with h1 | h2
    · rcases List.mem_flatMap.mp h1 with ⟨x, _, hx⟩
      rcases mem_ite_list hx with h | h
      · simp at h
      · rcases List.mem_singleton.mp h with rfl
        exact ⟨by simp, by simp⟩
    · rcases List.mem_flatMap.mp h2 with ⟨rel, _, hrel⟩
      exact validateRelationship_kinds rel _ e hrel

theorem validateAggregate_kinds (agg : Aggregate) (bcName : String) :
    ∀ e ∈ validateAggregate agg bcName,
      e.kind ≠ ErrKind.ambiguousDomainObject ∧ e.kind ≠ ErrKind.emptyContext := by
  intro e he
  unfold validateAggregate at he
  rcases List.mem_append.mp he with h12 | h4
  · rcases List.mem_append.mp h12 with h123 | h3
    · rcases List.mem_append.mp h123 with h1 | h2
      · rcases mem_ite_list h1 with h | h
        · rcases List.mem_singleton.mp h with rfl
          exact ⟨by simp, by simp⟩
        · simp at h
      · rcases mem_ite_list h2 with h | h
        · rcases List.mem_singleton.mp h with rfl
          exact ⟨by simp, by simp⟩
        · simp at h
    · have := dupScan_kind _ ErrKind.duplicateEntity (fun n => rfl) _ _ e h3
      rw [this]
      exact ⟨by simp, by simp⟩
  · have := dupScan_kind _ ErrKind.duplicateValueObject (fun n => rfl) _ _ e h4
    rw [this]
    exact ⟨by simp, by simp⟩

theorem scanAggregates_kinds (bcName : String) :
    ∀ seen aggs, ∀ e ∈ scanAggregates bcName seen aggs,
      e.kind ≠ ErrKind.ambiguousDomainObject ∧ e.kind ≠ ErrKind.emptyContext := by
  intro seen aggs
  induction aggs generalizing seen with
  | nil => intro e he; simp [scanAggregates] at he
  | cons agg rest ih =>
    intro e he
    simp only [scanAggregates, List.mem_append] at he
    rcases he with (h1 | h2) | h3
    · rcases mem_ite_list h1 with h | h
      · rcases List.mem_singleton.mp h with rfl
        exact ⟨by simp, by simp⟩
      · simp at h
    · exact validateAggregate_kinds agg bcName e h2
    · exact ih _ e h3

theorem validateBoundedContext_kinds (bc : BoundedContext) :
    ∀ e ∈ validateBoundedContext bc, e.kind ≠ ErrKind.ambiguousDomainObject := by
  intro e he
  unfold validateBoundedContext at he
  rcases List.mem_append.mp he with h1 | h2
  · rcases mem_ite_list h1 with h | h
    · rcases List.mem_singleton.mp h with rfl
      simp
    · simp at h
  · exact (scanAggregates_kinds bc.name _ _ e h2).1

theorem validateNoDuplicate_kinds (m : CMLModel) :
    ∀ e ∈ validateNoDuplicateDomainObjectNames m, e.kind = ErrKind.ambiguousDomainObject := by
  intro e he
  unfold validateNoDuplicateDomainObjectNames at he
  rcases List.mem_flatMap.mp he with ⟨p, _, hp⟩
  rcases mem_ite_list hp with h | h
  · rcases List.mem_singleton.mp h with rfl
    rfl
  · simp at h

theorem validateModel_errors_eq (m : CMLModel) :
    (validateModel m).errors =
      validateContextMap m
      ++ m.boundedContexts.flatMap validateBoundedContext
      ++ dupScan (fun n => ⟨.duplicateBoundedContext, .error, dupBcMsg n, n⟩)
           [] (m.boundedContexts.map (·.name))
      ++ validateNoDuplicateDomainObjectNames m := rfl

theorem filter_flatMap_comm (l : List α) (f : α → List β) (p : β → Bool) :
    (l.flatMap f).filter p = l.flatMap (fun x => (f x).filter p) := by
  induction l with
  | nil => rfl
  | cons x xs ih => simp [List.flatMap_cons, List.filter_append, ih]

/-- C9: `validateModel` emits exactly one warning-severity diagnostic per
bounded context with no aggregates and no modules (in context order, never
an error), and a model whose diagnostics are all warnings is still valid. -/
theorem validateModel_empty_context_warning (m : CMLModel) :
    (((validateModel m).errors.filter (fun e => e.kind == ErrKind.emptyContext)).map (·.element)
       = (m.boundedContexts.filter (fun bc => bc.aggregates.isEmpty && bc.modules.isEmpty)).map (·.name))
  ∧ (∀ e ∈ (validateModel m).errors, e.kind = ErrKind.emptyContext →
       e.type = VType.warning ∧ e.message = emptyCtxMsg e.element)
  ∧ (((validateModel m).errors.all (fun e => e.type == VType.warning)) = true →
       (validateModel m).valid = true) := by
  refine ⟨?_, ?_, ?_⟩
  · rw [validateModel_errors_eq]
    have hA : (validateContextMap m).filter (fun e => e.kind == ErrKind.emptyContext) = [] := by
      rw [List.filter_eq_nil_iff]
      intro e he
      simp [(validateContextMap_kinds m e he).2]
    have hC : (dupScan (fun n => ⟨.duplicateBoundedContext, .error, dupBcMsg n, n⟩)
        [] (m.boundedContexts.map (·.name))).filter (fun e => e.kind == ErrKind.emptyContext) = [] := by
      rw [List.filter_eq_nil_iff]
      intro e he
      have := dupScan_kind _ ErrKind.duplicateBoundedContext (fun n => rfl) _ _ e he
      simp [this]
    have hD : (validateNoDuplicateDomainObjectNames m).filter
        (fun e => e.kind == ErrKind.emptyContext) = [] := by
      rw [List.filter_eq_nil_iff]
      intro e he
      simp [validateNoDuplicate_kinds m e he]
    rw [List.filter_append, List.filter_append, List.filter_append, hA, hC, hD]
    simp only [List.nil_append, List.append_nil]
    rw [filter_flatMap_comm]
    induction m.boundedContexts with
    | nil => rfl
    | cons bc rest ih =>
      have hscan : (scanAggregates bc.name [] (bc.aggregates ++ bc.modules.flatMap (·.aggregates))).filter
          (fun e => e.kind == ErrKind.emptyContext) = [] := by
        rw [List.filter_eq_nil_iff]
        intro e he
        simp [(scanAggregates_kinds bc.name _ _ e he).2]
      have hbc : (validateBoundedContext bc).filter (fun e => e.kind == ErrKind.emptyContext)
          = (if bc.aggregates.length = 0 ∧ bc.modules.length = 0 then
              [⟨ErrKind.emptyContext, VType.warning, emptyCtxMsg bc.name, bc.name⟩] else []) := by
        unfold validateBoundedContext
        rw [List.filter_append, hscan, List.append_nil]
        by_cases hc : bc.aggregates.length = 0 ∧ bc.modules.length = 0
        · rw [if_pos hc]
          rfl
        · rw [if_neg hc]
          rfl
      rw [List.flatMap_cons, List.map_append, hbc, ih, List.filter_cons]
      by_cases hc : bc.aggregates.length = 0 ∧ bc.modules.length = 0
      · have h1 : bc.aggregates = [] := List.length_eq_zero.mp hc.1
        have h2 : bc.modules = [] := List.length_eq_zero.mp hc.2
        have hc' : (bc.aggregates.isEmpty && bc.modules.isEmpty) = true := by
          rw [h1, h2]
          rfl
        rw [if_pos hc, hc']
        simp
      · have hc' : (bc.aggregates.isEmpty && bc.modules.isEmpty) = false := by
        { rcases not_and_or.mp hc with h | h
          · have hne : bc.aggregates ≠ [] := fun hh => h (by rw [hh]; rfl)
            cases hagg : bc.aggregates with
            | nil => exact absurd hagg hne
            | cons a l => rfl
          · have hne : bc.modules ≠ [] := fun hh => h (by rw [hh]; rfl)
            cases hmods : bc.modules with
            | nil => exact absurd hmods hne
            | cons a l => simp }
        rw [if_neg hc, hc']
        simp
  · intro e he hk
    rw [validateModel_errors_eq] at he
    rcases List.mem_append.mp he with h123 | h4
    · rcases List.mem_append.mp h123 with h12 | h3
      · rcases List.mem_append.mp h12 with h1 | h2
        · exact absurd hk (validateContextMap_kinds m e h1).2
        · rcases List.mem_flatMap.mp h2 with ⟨bc, _, hbc⟩
          unfold validateBoundedContext at hbc
          rcases List.mem_append.mp hbc with hif | hscan
          · rcases mem_ite_list hif with h | h
            · rcases List.mem_singleton.mp h with rfl
              exact ⟨rfl, rfl⟩
            · simp at h
          · exact absurd hk (scanAggregates_kinds bc.name _ _ e hscan).2
      · have := dupScan_kind _ ErrKind.duplicateBoundedContext (fun n => rfl) _ _ e h3
        rw [this] at hk
        exact absurd hk (by decide)
    · have := validateNoDuplicate_kinds m e h4
      rw [this] at hk
      exact absurd hk (by decide)
  · intro hall
    have : (validateModel m).errors.filter (fun e => e.type == VType.error) = [] := by
      rw [List.filter_eq_nil_iff]
      intro e he
      have := List.all_eq_true.mp hall e he
      simp at this
      simp [this]
    show decide (((validateModel m).errors.filter (fun e => e.type == VType.error)).length = 0) = true
    rw [this]
    rfl

/-- Witness for C9 at a model whose only bounded context is empty: its
single diagnostic is the warning and the model is still valid. -/
theorem validateModel_empty_context_warning_witness :
    (validateModel mEmptyBc).valid = true :=
  (validateModel_empty_context_warning mEmptyBc).2.2 (by decide)

/-! ### The location map built by `validateNoDuplicateDomainObjectNames` -/

theorem mapUpsert_find (mp : List (String × List String)) (k loc : String) (n : String) :
    (mapUpsert mp k loc).find? (fun q => q.1 == n) =
      if n = k then
        (match mp.find? (fun q => q.1 == k) with
         | some q => some (q.1, q.2 ++ [loc])
         | none => some (k, [loc]))
      else mp.find? (fun q => q.1 == n) := by
  induction mp with
  | nil =>
    by_cases hnk : n = k
    · subst hnk
      simp [mapUpsert]
    · have h1 : (k == n) = false := by
        simp only [beq_eq_false_iff_ne, ne_eq]
        exact fun h => hnk h.symm
      simp [mapUpsert, List.find?_cons, h1, hnk]
  | cons hd rest ih =>
    rcases hd with ⟨k2, ls⟩
    by_cases hk : k2 = k
    · subst hk
      by_cases hnk : n = k2
      · subst hnk
        simp [mapUpsert, List.find?_cons, beq_iff_eq]
      · have h1 : (k2 == n) = false := by
          simp only [beq_eq_false_iff_ne, ne_eq]
          exact fun h => hnk h.symm
        simp [mapUpsert, List.find?_cons, h1, hnk]
    · by_cases hnk2 : k2 = n
      · subst hnk2
        have hkn : ¬(k2 = k) := hk
        simp [mapUpsert, hk, List.find?_cons, beq_iff_eq, fun h : k2 = k => hk h]
      · have hk2n : (((k2, ls) : String × List String).1 == n) = false := by
          simp [beq_iff_eq, hnk2]
        have hk2k : (((k2, ls) : String × List String).1 == k) = false := by
          simp [beq_iff_eq, hk]
        simp only [mapUpsert, if_neg hk]
        rw [List.find?_cons_of_neg _ (by simp [hk2n]), ih,
          List.find?_cons_of_neg _ (by simp [hk2k]),
          List.find?_cons_of_neg _ (by simp [hk2n])]

theorem foldUpsert_find (ps : List (String × String)) (mp : List (String × List String))
    (n : String) :
    ((ps.foldl (fun acc p => mapUpsert acc p.1 p.2) mp).find? (fun q => q.1 == n)) =
      (match mp.find? (fun q => q.1 == n) with
       | some q => some (q.1, q.2 ++ ((ps.filter (fun p => p.1 == n)).map (·.2)))
       | none =>
         if ((ps.filter (fun p => p.1 == n)).map (·.2)) = [] then none
         else some (n, (ps.filter (fun p => p.1 == n)).map (·.2))) := by
  induction ps generalizing mp with
  | nil =>
    cases h : mp.find? (fun q => q.1 == n) <;> simp [h]
  | cons p ps ih =>
    rcases p with ⟨pk, pv⟩
    rw [List.foldl_cons, ih]
    rw [mapUpsert_find]
    by_cases hp : pk = n
    · subst hp
      rw [if_pos rfl]
      simp only [List.filter_cons, beq_self_eq_true, if_true, List.map_cons]
      cases h : mp.find? (fun q => q.1 == pk) with
      | some q => simp
      | none => simp
    · rw [if_neg (fun h => hp h.symm)]
      simp only [List.filter_cons]
      have : ((⟨pk, pv⟩ : String × String).1 == n) = false := by
        simp [beq_iff_eq, hp]
      rw [this]
      simp only [Bool.false_eq_true, if_false]

theorem mapUpsert_keys_sub (mp : List (String × List String)) (k loc : String) :
    ∀ x ∈ (mapUpsert mp k loc).map (·.1), x ∈ mp.map (·.1) ∨ x = k := by
  induction mp with
  | nil =>
    intro x hx
    simp [mapUpsert] at hx
    right
    exact hx
  | cons hd rest ih =>
    rcases hd with ⟨k2, ls⟩
    intro x hx
    by_cases hk : k2 = k
    · subst hk
      rw [mapUpsert, if_pos rfl] at hx
      simp only [List.map_cons, List.mem_cons] at hx
      rcases hx with rfl | hx
      · left; simp
      · left; simp [hx]
    · rw [mapUpsert, if_neg hk] at hx
      simp only [List.map_cons, List.mem_cons] at hx
      rcases hx with rfl | hx
      · left; simp
      · rcases ih x hx with h | h
        · left; simp [h]
        · right; exact h

theorem mapUpsert_keys_nodup (mp : List (String × List String)) (k loc : String)
    (h : (mp.map (·.1)).Nodup) : ((mapUpsert mp k loc).map (·.1)).Nodup := by
  induction mp with
  | nil => simp [mapUpsert]
  | cons hd rest ih =>
    rcases hd with ⟨k2, ls⟩
    simp only [List.map_cons, List.nodup_cons] at h
    by_cases hk : k2 = k
    · subst hk
      rw [mapUpsert, if_pos rfl]
      simp only [List.map_cons, List.nodup_cons]
      exact h
    · rw [mapUpsert, if_neg hk]
      simp only [List.map_cons, List.nodup_cons]
      refine ⟨?_, ih h.2⟩
      intro hmem
      rcases mapUpsert_keys_sub rest k loc k2 hmem with hh | hh
      · exact h.1 hh
      · exact hk hh

theorem buildLocMap_keys_nodup (m : CMLModel) :
    ((buildLocMap m).map (·.1)).Nodup := by
  unfold buildLocMap
  generalize scanPairs m = ps
  have : ∀ (mp : List (String × List String)), (mp.map (·.1)).Nodup →
      (((ps.foldl (fun acc p => mapUpsert acc p.1 p.2) mp)).map (·.1)).Nodup := by
    induction ps with
    | nil => intro mp h; simpa using h
    | cons p ps ih =>
      intro mp h
      rw [List.foldl_cons]
      exact ih _ (mapUpsert_keys_nodup mp p.1 p.2 h)
  exact this [] (by simp)

/-- For an association list with distinct keys, a key-guarded `flatMap`
collapses to the looked-up entry. -/
theorem flatMap_key_guard (mp : List (String × List String)) (n : String)
    (P : String × List String → Prop) [DecidablePred P]
    (g : String × List String → VError)
    (hnd : (mp.map (·.1)).Nodup) :
    (mp.flatMap (fun p => if p.1 = n ∧ P p then [g p] else [])) =
      (match mp.find? (fun q => q.1 == n) with
       | some q => if P q then [g q] else []
       | none => []) := by
  induction mp with
  | nil => rfl
  | cons q rest ih =>
    simp only [List.map_cons, List.nodup_cons] at hnd
    by_cases hq : q.1 = n
    · rw [List.flatMap_cons, List.find?_cons_of_pos _ (by simp [beq_iff_eq, hq])]
      have hrest : rest.flatMap (fun p => if p.1 = n ∧ P p then [g p] else []) = [] := by
        rw [List.flatMap_eq_nil_iff]
        intro p hp
        have hpn : p.1 ≠ n := by
          intro hc
          exact hnd.1 (by rw [hq, ← hc]; exact List.mem_map.mpr ⟨p, hp, rfl⟩)
        rw [if_neg (fun hh => hpn hh.1)]
      rw [hrest, List.append_nil]
      by_cases hP : P q
      · rw [if_pos ⟨hq, hP⟩]
        show [g q] = if P q then [g q] else []
        rw [if_pos hP]
      · rw [if_neg (fun hh => hP hh.2)]
        show ([] : List VError) = if P q then [g q] else []
        rw [if_neg hP]
    · rw [List.flatMap_cons, List.find?_cons_of_neg _ (by simp [beq_iff_eq, hq])]
      rw [if_neg (fun hh => hq hh.1), List.nil_append]
      exact ih hnd.2

/-- C2: if a domain-object name is declared at more than one location
across the model (value objects, entities, domain events and commands, in
all bounded contexts including module-nested aggregates), `validateModel`
is invalid and carries exactly one ambiguous-name error for that name whose
message lists every colliding location; a name with at most one location
gets no such error. -/
theorem validateModel_crossContext_duplicates (m : CMLModel) (n : String) :
    (1 < (declLocations m n).length →
       (validateModel m).valid = false
     ∧ (validateModel m).errors.filter (fun e =>
          e.kind == ErrKind.ambiguousDomainObject && e.element == n)
        = [⟨ErrKind.ambiguousDomainObject, VType.error,
            ambiguousMsg n (declLocations m n), n⟩])
  ∧ ((declLocations m n).length ≤ 1 →
       (validateModel m).errors.filter (fun e =>
          e.kind == ErrKind.ambiguousDomainObject && e.element == n) = []) := by
  have hA : (validateContextMap m).filter (fun e =>
      e.kind == ErrKind.ambiguousDomainObject && e.element == n) = [] := by
    rw [List.filter_eq_nil_iff]
    intro e he
    simp [(validateContextMap_kinds m e he).1]
  have hB : ((m.boundedContexts.flatMap validateBoundedContext).filter (fun e =>
      e.kind == ErrKind.ambiguousDomainObject && e.element == n)) = [] := by
    rw [List.filter_eq_nil_iff]
    intro e he
    rcases List.mem_flatMap.mp he with ⟨bc, _, hbc⟩
    simp [validateBoundedContext_kinds bc e hbc]
  have hC : ((dupScan (fun nm => ⟨.duplicateBoundedContext, .error, dupBcMsg nm, nm⟩)
      [] (m.boundedContexts.map (·.name))).filter (fun e =>
      e.kind == ErrKind.ambiguousDomainObject && e.element == n)) = [] := by
    rw [List.filter_eq_nil_iff]
    intro e he
    have := dupScan_kind _ ErrKind.duplicateBoundedContext (fun _ => rfl) _ _ e he
    simp [this]
  have hfind := foldUpsert_find (scanPairs m) [] n
  rw [show ((scanPairs m).foldl (fun acc p => mapUpsert acc p.1 p.2) []) = buildLocMap m
    from rfl] at hfind
  have hDecl : ((scanPairs m).filter (fun p => p.1 == n)).map (·.2) = declLocations m n := rfl
  rw [hDecl] at hfind
  simp only [List.find?_nil] at hfind
  have hD : ((validateNoDuplicateDomainObjectNames m).filter (fun e =>
      e.kind == ErrKind.ambiguousDomainObject && e.element == n)) =
      (match (buildLocMap m).find? (fun q => q.1 == n) with
       | some q => if 1 < q.2.length then
           [⟨ErrKind.ambiguousDomainObject, VType.error, ambiguousMsg q.1 q.2, q.1⟩] else []
       | none => []) := by
    unfold validateNoDuplicateDomainObjectNames
    rw [filter_flatMap_comm]
    have hpt : ∀ p : String × List String,
        ((if 1 < p.2.length then
            [(⟨ErrKind.ambiguousDomainObject, VType.error, ambiguousMsg p.1 p.2, p.1⟩ : VError)]
          else []).filter (fun e =>
            e.kind == ErrKind.ambiguousDomainObject && e.element == n)) =
        (if p.1 = n ∧ 1 < p.2.length then
            [(⟨ErrKind.ambiguousDomainObject, VType.error, ambiguousMsg p.1 p.2, p.1⟩ : VError)]
          else []) := by
      intro p
      by_cases hl : 1 < p.2.length
      · rw [if_pos hl]
        by_cases hn : p.1 = n
        · rw [if_pos ⟨hn, hl⟩]
          simp [List.filter_cons, hn]
        · rw [if_neg (fun hh => hn hh.1)]
          simp [List.filter_cons, hn]
      · rw [if_neg hl, if_neg (fun hh => hl hh.2)]
        rfl
    simp only [hpt]
    exact flatMap_key_guard (buildLocMap m) n (fun p => 1 < p.2.length) _
      (buildLocMap_keys_nodup m)
  constructor
  · intro hlen
    have hne : declLocations m n ≠ [] := by
      intro hc
      rw [hc] at hlen
      simp at hlen
    rw [if_neg hne] at hfind
    rw [hfind] at hD
    simp only [hlen, if_true, if_pos hlen] at hD
    constructor
    · have hmem : (⟨ErrKind.ambiguousDomainObject, VType.error,
          ambiguousMsg n (declLocations m n), n⟩ : VError) ∈ (validateModel m).errors := by
        rw [validateModel_errors_eq]
        refine List.mem_append.mpr (Or.inr ?_)
        unfold validateNoDuplicateDomainObjectNames
        refine List.mem_flatMap.mpr ⟨(n, declLocations m n), ?_, ?_⟩
        · exact List.mem_of_find?_eq_some hfind
        · rw [if_pos hlen]
          simp
      have hfe : (⟨ErrKind.ambiguousDomainObject, VType.error,
          ambiguousMsg n (declLocations m n), n⟩ : VError) ∈
          (validateModel m).errors.filter (fun e => e.type == VType.error) :=
        List.mem_filter.mpr ⟨hmem, rfl⟩
      have hlenpos : ((validateModel m).errors.filter (fun e => e.type == VType.error)).length ≠ 0 := by
        intro hc
        rw [List.length_eq_zero] at hc
        rw [hc] at hfe
        simp at hfe
      show decide ((((validateModel m).errors).filter (fun e => e.type == VType.error)).length = 0)
        = false
      exact decide_eq_false hlenpos
    · rw [validateModel_errors_eq, List.filter_append, List.filter_append, List.filter_append,
        hA, hB, hC, hD]
      rfl
  · intro hlen
    rw [validateModel_errors_eq, List.filter_append, List.filter_append, List.filter_append,
      hA, hB, hC, hD]
    by_cases hnil : declLocations m n = []
    · rw [if_pos hnil] at hfind
      rw [hfind]
      rfl
    · rw [if_neg hnil] at hfind
      rw [hfind]
      have : ¬(1 < (declLocations m n).length) := by omega
      simp only [this, if_false]
      rfl

/-- Witness for C2 at the spec's own example: two contexts both declaring
the value object `AgentId`. -/
theorem validateModel_crossContext_duplicates_witness :
    (validateModel mAgentDup).valid = false
  ∧ (validateModel mAgentDup).errors.filter (fun e =>
      e.kind == ErrKind.ambiguousDomainObject && e.element == "AgentId")
     = [⟨ErrKind.ambiguousDomainObject, VType.error,
         ambiguousMsg "AgentId" (declLocations mAgentDup "AgentId"), "AgentId"⟩] :=
  (validateModel_crossContext_duplicates mAgentDup "AgentId").1 (by decide)

/-! ### `findAggregate` against the functional update -/

theorem updateFirstAgg_of_none (n : String) (f : Aggregate → Aggregate)
    (l : List Aggregate) (h : l.find? (fun x => x.name == n) = none) :
    updateFirstAgg n f l = l := by
  induction l with
  | nil => rfl
  | cons a rest ih =>
    cases hpa : (a.name == n) with
    | true => rw [List.find?_cons_of_pos _ (by exact hpa)] at h; cases h
    | false =>
      rw [List.find?_cons_of_neg _ (by simp [hpa])] at h
      simp only [updateFirstAgg, hpa, Bool.false_eq_true, if_false]
      rw [ih h]

theorem updateFirstAgg_of_some (n : String) (f : Aggregate → Aggregate)
    (l : List Aggregate) (x : Aggregate) (h : l.find? (fun v => v.name == n) = some x)
    (hx : (f x).name = x.name) :
    (updateFirstAgg n f l).find? (fun v => v.name == n) = some (f x) := by
  induction l with
  | nil => cases h
  | cons a rest ih =>
    cases hpa : (a.name == n) with
    | true =>
      rw [List.find?_cons_of_pos _ (by exact hpa)] at h
      injection h with he
      subst he
      have hfc : ((f a).name == n) = true := by rw [hx]; exact hpa
      rw [updateFirstAgg, if_pos hpa, List.find?_cons_of_pos _ (by exact hfc)]
    | false =>
      rw [List.find?_cons_of_neg _ (by simp [hpa])] at h
      simp only [updateFirstAgg, hpa, Bool.false_eq_true, if_false]
      rw [List.find?_cons_of_neg _ (by simp [hpa])]
      exact ih h

theorem updateFirstModule_of_none (n : String) (f : Aggregate → Aggregate)
    (mods : List Module) (h : findInModules n mods = none) :
    updateFirstModule n f mods = mods := by
  induction mods with
  | nil => rfl
  | cons mod rest ih =>
    cases hfa : mod.aggregates.find? (fun v => v.name == n) with
    | some a => rw [findInModules, hfa] at h; cases h
    | none =>
      rw [findInModules, hfa] at h
      simp only [updateFirstModule, hfa, Option.isSome_none, Bool.false_eq_true, if_false]
      rw [ih h]

theorem updateFirstModule_of_some (n : String) (f : Aggregate → Aggregate)
    (mods : List Module) (x : Aggregate) (h : findInModules n mods = some x)
    (hx : (f x).name = x.name) :
    findInModules n (updateFirstModule n f mods) = some (f x) := by
  induction mods with
  | nil => cases h
  | cons mod rest ih =>
    cases hfa : mod.aggregates.find? (fun v => v.name == n) with
    | some a =>
      rw [findInModules, hfa] at h
      have he : a = x := by injection h
      subst he
      simp only [updateFirstModule, hfa, Option.isSome_some, if_true]
      have hfa2 := updateFirstAgg_of_some n f mod.aggregates a hfa hx
      show (match (updateFirstAgg n f mod.aggregates).find? (fun v => v.name == n) with
        | some v => some v
        | none => findInModules n rest) = some (f a)
      rw [hfa2]
    | none =>
      rw [findInModules, hfa] at h
      simp only [updateFirstModule, hfa, Option.isSome_none, Bool.false_eq_true, if_false]
      rw [findInModules, hfa]
      exact ih h

theorem updateFirstBc_of_some (n : String) (g : BoundedContext → BoundedContext)
    (l : List BoundedContext) (x : BoundedContext)
    (h : l.find? (fun bc => bc.name == n) = some x) (hx : (g x).name = x.name) :
    (updateFirstBc n g l).find? (fun bc => bc.name == n) = some (g x) := by
  induction l with
  | nil => cases h
  | cons bc rest ih =>
    cases hpa : (bc.name == n) with
    | true =>
      rw [List.find?_cons_of_pos _ (by exact hpa)] at h
      injection h with he
      subst he
      have hfc : ((g bc).name == n) = true := by rw [hx]; exact hpa
      rw [updateFirstBc, if_pos hpa, List.find?_cons_of_pos _ (by exact hfc)]
    | false =>
      rw [List.find?_cons_of_neg _ (by simp [hpa])] at h
      simp only [updateFirstBc, hpa, Bool.false_eq_true, if_false]
      rw [List.find?_cons_of_neg _ (by simp [hpa])]
      exact ih h

theorem updateBcAgg_name (aggName : String) (f : Aggregate → Aggregate)
    (bc : BoundedContext) : (updateBcAgg aggName f bc).name = bc.name := by
  unfold updateBcAgg
  split <;> rfl

theorem findAggregate_eq_bind (m : CMLModel) (c a : String) :
    findAggregate m c a = (m.boundedContexts.find? (fun bc => bc.name == c)).bind
      (fun bc => bcFindAgg bc a) := by
  unfold findAggregate
  cases m.boundedContexts.find? (fun bc => bc.name == c) <;> rfl

theorem bcFindAgg_update (bc : BoundedContext) (a : String) (f : Aggregate → Aggregate)
    (x : Aggregate) (h : bcFindAgg bc a = some x) (hx : (f x).name = x.name) :
    bcFindAgg (updateBcAgg a f bc) a = some (f x) := by
  unfold bcFindAgg at h
  cases hfa : bc.aggregates.find? (fun v => v.name == a) with
  | some a0 =>
    rw [hfa] at h
    have h2 : some a0 = some x := h
    have he : a0 = x := by injection h2
    subst he
    have hbody : updateBcAgg a f bc
        = { bc with aggregates := updateFirstAgg a f bc.aggregates } := by
      unfold updateBcAgg
      rw [if_pos (show (bc.aggregates.find? (fun v => v.name == a)).isSome = true by
        rw [hfa]; rfl)]
    rw [hbody]
    have hfa2 := updateFirstAgg_of_some a f bc.aggregates a0 hfa hx
    show (match (updateFirstAgg a f bc.aggregates).find? (fun v => v.name == a) with
      | some v => some v
      | none => findInModules a bc.modules) = some (f a0)
    rw [hfa2]
  | none =>
    rw [hfa] at h
    have h2 : findInModules a bc.modules = some x := h
    have hbody : updateBcAgg a f bc
        = { bc with modules := updateFirstModule a f bc.modules } := by
      unfold updateBcAgg
      rw [if_neg (show ¬(bc.aggregates.find? (fun v => v.name == a)).isSome = true by
        rw [hfa]; simp)]
    rw [hbody]
    show (match bc.aggregates.find? (fun v => v.name == a) with
      | some v => some v
      | none => findInModules a (updateFirstModule a f bc.modules)) = some (f x)
    rw [hfa]
    show findInModules a (updateFirstModule a f bc.modules) = some (f x)
    exact updateFirstModule_of_some a f bc.modules x h2 hx

/-- Updating the aggregate found by `findAggregate` is visible to a
subsequent `findAggregate` as exactly that aggregate transformed by `f`
(provided `f` preserves its name). -/
theorem findAggregate_update_some (m : CMLModel) (c a : String)
    (f : Aggregate → Aggregate) (x : Aggregate)
    (h : findAggregate m c a = some x) (hx : (f x).name = x.name) :
    findAggregate (updateAggregate m c a f) c a = some (f x) := by
  rw [findAggregate_eq_bind] at h
  rw [findAggregate_eq_bind]
  rw [show (updateAggregate m c a f).boundedContexts
      = updateFirstBc c (updateBcAgg a f) m.boundedContexts from rfl]
  cases hbc : m.boundedContexts.find? (fun bc => bc.name == c) with
  | none => rw [hbc] at h; simp at h
  | some bc =>
    rw [hbc] at h
    have h2 : bcFindAgg bc a = some x := h
    rw [updateFirstBc_of_some c (updateBcAgg a f) m.boundedContexts bc hbc
      (updateBcAgg_name a f bc)]
    show bcFindAgg (updateBcAgg a f bc) a = some (f x)
    exact bcFindAgg_update bc a f x h2 hx

theorem find?_append_of_none {l1 l2 : List α} {p : α → Bool}
    (h : l1.find? p = none) : (l1 ++ l2).find? p = l2.find? p := by
  induction l1 with
  | nil => rfl
  | cons a rest ih =>
    cases hpa : p a with
    | true => rw [List.find?_cons_of_pos _ hpa] at h; cases h
    | false =>
      rw [List.find?_cons_of_neg _ (by simp [hpa])] at h
      rw [List.cons_append, List.find?_cons_of_neg _ (by simp [hpa])]
      exact ih h

/-- C10: `addIdentifier` returns the existing ID value object (id and
reference-type string) without touching the model when one with the
normalized name is already present, and is therefore idempotent on the
model: a second identical call (with any fresh id) leaves the model exactly
as after the first. -/
theorem addIdentifier_idempotent (p : AddIdentifierParams) (id1 id2 : String) (m : CMLModel) :
    (∀ agg vo, findAggregate m p.contextName p.aggregateName = some agg →
        agg.valueObjects.find? (fun v => v.name == normalizeIdentifierName p.name) = some vo →
        addIdentifier p id1 m = (⟨true, some ⟨vo.id, vo.name, "- " ++ vo.name⟩, none⟩, m))
  ∧ (addIdentifier p id2 (addIdentifier p id1 m).2).2 = (addIdentifier p id1 m).2 := by
  constructor
  · intro agg vo hagg hvo
    simp [addIdentifier, hagg, hvo]
  · cases hagg : findAggregate m p.contextName p.aggregateName with
    | none => simp [addIdentifier, hagg]
    | some aggregate =>
      cases hvo : aggregate.valueObjects.find?
          (fun v => v.name == normalizeIdentifierName p.name) with
      | some existing => simp [addIdentifier, hagg, hvo]
      | none =>
        by_cases hdup : (checkForDuplicateDomainObjectName m
            (normalizeIdentifierName p.name) p.contextName).isDuplicate = true
        · simp [addIdentifier, hagg, hvo, hdup]
        · have hdup' : (checkForDuplicateDomainObjectName m
              (normalizeIdentifierName p.name) p.contextName).isDuplicate = false := by
            simpa using hdup
          have hm1 : (addIdentifier p id1 m).2 = updateAggregate m p.contextName p.aggregateName
              (fun x => { x with valueObjects := x.valueObjects
                ++ [⟨id1, normalizeIdentifierName p.name,
                     [⟨"value", "String", false, false⟩]⟩] }) := by
            simp [addIdentifier, hagg, hvo, hdup']
          have hfind2 : findAggregate (addIdentifier p id1 m).2 p.contextName p.aggregateName
              = some { aggregate with valueObjects := aggregate.valueObjects
                  ++ [⟨id1, normalizeIdentifierName p.name,
                       [⟨"value", "String", false, false⟩]⟩] } := by
            rw [hm1]
            exact findAggregate_update_some m p.contextName p.aggregateName _ aggregate hagg rfl
          have hfindvo : (aggregate.valueObjects
              ++ [(⟨id1, normalizeIdentifierName p.name,
                   [⟨"value", "String", false, false⟩]⟩ : ValueObject)]).find?
                (fun v => v.name == normalizeIdentifierName p.name)
              = some (⟨id1, normalizeIdentifierName p.name,
                   [⟨"value", "String", false, false⟩]⟩ : ValueObject) := by
            rw [find?_append_of_none hvo]
            rw [List.find?_cons_of_pos _ (by simp)]
          generalize hgen : (addIdentifier p id1 m).2 = m1 at hfind2 ⊢
          simp [addIdentifier, hfind2, hfindvo]

/-! ### Phase-2 creation lemmas for `batchAddElements` -/

theorem createIdentifiers_spec : ∀ (ids : List String) (agg : Aggregate) (fresh : Nat),
    ∃ ext, (createIdentifiers ids agg fresh).1.valueObjects = agg.valueObjects ++ ext
      ∧ (∀ n ∈ ids, n ∈ (createIdentifiers ids agg fresh).1.valueObjects.map (fun v => v.name))
      ∧ (createIdentifiers ids agg fresh).1.name = agg.name
      ∧ (createIdentifiers ids agg fresh).1.entities = agg.entities
      ∧ (createIdentifiers ids agg fresh).1.domainEvents = agg.domainEvents
      ∧ (createIdentifiers ids agg fresh).1.commands = agg.commands
      ∧ (createIdentifiers ids agg fresh).1.services = agg.services := by
  intro ids
  induction ids with
  | nil =>
    intro agg fresh
    exact ⟨[], by simp [createIdentifiers], by simp, rfl, rfl, rfl, rfl, rfl⟩
  | cons n0 rest ih =>
    intro agg fresh
    cases hf : agg.valueObjects.find? (fun vo => vo.name == n0) with
    | some existing =>
      obtain ⟨ext, h1, h2, h3, h4, h5, h6, h7⟩ := ih agg fresh
      have hred : (createIdentifiers (n0 :: rest) agg fresh).1
          = (createIdentifiers rest agg fresh).1 := by
        simp only [createIdentifiers, hf]
      refine ⟨ext, ?_, ?_, ?_, ?_, ?_, ?_, ?_⟩
      · rw [hred]; exact h1
      · intro x hx
        rcases List.mem_cons.mp hx with hx0 | hxr
        · subst hx0
          have hname : existing.name = x := by
            have hp := List.find?_some hf
            simpa using hp
          rw [hred, h1, List.map_append]
          refine List.mem_append_left _ ?_
          rw [← hname]
          exact List.mem_map_of_mem _ (List.mem_of_find?_eq_some hf)
        · rw [hred]; exact h2 x hxr
      · rw [hred]; exact h3
      · rw [hred]; exact h4
      · rw [hred]; exact h5
      · rw [hred]; exact h6
      · rw [hred]; exact h7
    | none =>
      obtain ⟨ext, h1, h2, h3, h4, h5, h6, h7⟩ := ih { agg with valueObjects := agg.valueObjects
        ++ [⟨mkFreshId fresh, n0, [⟨"value", "String", false, false⟩]⟩] } (fresh + 1)
      have hred : (createIdentifiers (n0 :: rest) agg fresh).1
          = (createIdentifiers rest { agg with valueObjects := agg.valueObjects
              ++ [⟨mkFreshId fresh, n0, [⟨"value", "String", false, false⟩]⟩] } (fresh + 1)).1 := by
        simp only [createIdentifiers, hf]
      refine ⟨⟨mkFreshId fresh, n0, [⟨"value", "String", false, false⟩]⟩ :: ext,
        ?_, ?_, ?_, ?_, ?_, ?_, ?_⟩
      · rw [hred, h1]; simp
      · intro x hx
        rcases List.mem_cons.mp hx with hx0 | hxr
        · subst hx0
          rw [hred, h1, List.map_append]
          refine List.mem_append_left _ ?_
          refine List.mem_map.mpr
            ⟨⟨mkFreshId fresh, x, [⟨"value", "String", false, false⟩]⟩, ?_, rfl⟩
          simp
        · rw [hred]; exact h2 x hxr
      · rw [hred, h3]
      · rw [hred, h4]
      · rw [hred, h5]
      · rw [hred, h6]
      · rw [hred, h7]

theorem createValueObjects_spec : ∀ (vps : List BatchElemParams) (agg : Aggregate) (fresh : Nat),
    ∃ ext, (createValueObjects vps agg fresh).1.valueObjects = agg.valueObjects ++ ext
      ∧ (∀ vp ∈ vps, sanitizeIdentifier vp.name
          ∈ (createValueObjects vps agg fresh).1.valueObjects.map (fun v => v.name))
      ∧ (createValueObjects vps agg fresh).1.name = agg.name
      ∧ (createValueObjects vps agg fresh).1.entities = agg.entities
      ∧ (createValueObjects vps agg fresh).1.domainEvents = agg.domainEvents
      ∧ (createValueObjects vps agg fresh).1.commands = agg.commands
      ∧ (createValueObjects vps agg fresh).1.services = agg.services := by
  intro vps
  induction vps with
  | nil =>
    intro agg fresh
    exact ⟨[], by simp [createValueObjects], by simp, rfl, rfl, rfl, rfl, rfl⟩
  | cons vp rest ih =>
    intro agg fresh
    obtain ⟨ext, h1, h2, h3, h4, h5, h6, h7⟩ := ih { agg with valueObjects := agg.valueObjects
      ++ [⟨mkFreshId fresh, sanitizeIdentifier vp.name, vp.attributes.map toAttribute⟩] }
      (fresh + 1)
    have hred : (createValueObjects (vp :: rest) agg fresh).1
        = (createValueObjects rest { agg with valueObjects := agg.valueObjects
            ++ [⟨mkFreshId fresh, sanitizeIdentifier vp.name, vp.attributes.map toAttribute⟩] }
            (fresh + 1)).1 := rfl
    refine ⟨⟨mkFreshId fresh, sanitizeIdentifier vp.name, vp.attributes.map toAttribute⟩ :: ext,
      ?_, ?_, ?_, ?_, ?_, ?_, ?_⟩
    · rw [hred, h1]; simp
    · intro x hx
      rcases List.mem_cons.mp hx with hx0 | hxr
      · subst hx0
        rw [hred, h1, List.map_append]
        refine List.mem_append_left _ ?_
        refine List.mem_map.mpr
          ⟨⟨mkFreshId fresh, sanitizeIdentifier x.name, x.attributes.map toAttribute⟩, ?_, rfl⟩
        simp
      · rw [hred]; exact h2 x hxr
    · rw [hred, h3]
    · rw [hred, h4]
    · rw [hred, h5]
    · rw [hred, h6]
    · rw [hred, h7]

theorem createEntities_spec : ∀ (eps : List BatchEntityParams) (agg : Aggregate) (fresh : Nat),
    ∃ ext, (createEntities eps agg fresh).1.entities = agg.entities ++ ext
      ∧ (∀ ep ∈ eps, sanitizeIdentifier ep.name
          ∈ (createEntities eps agg fresh).1.entities.map (fun e => e.name))
      ∧ (createEntities eps agg fresh).1.name = agg.name
      ∧ (createEntities eps agg fresh).1.valueObjects = agg.valueObjects
      ∧ (createEntities eps agg fresh).1.domainEvents = agg.domainEvents
      ∧ (createEntities eps agg fresh).1.commands = agg.commands
      ∧ (createEntities eps agg fresh).1.services = agg.services := by
  intro eps
  induction eps with
  | nil =>
    intro agg fresh
    exact ⟨[], by simp [createEntities], by simp, rfl, rfl, rfl, rfl, rfl⟩
  | cons ep rest ih =>
    intro agg fresh
    obtain ⟨ext, h1, h2, h3, h4, h5, h6, h7⟩ :=
      ih
        { agg with
          entities := agg.entities ++ [⟨mkFreshId fresh, sanitizeIdentifier ep.name,
            ep.attributes.map toAttributeFull, [], ep.aggregateRoot⟩],
          aggregateRoot := if ep.aggregateRoot then
              some ⟨mkFreshId fresh, sanitizeIdentifier ep.name,
                ep.attributes.map toAttributeFull, [], ep.aggregateRoot⟩
            else agg.aggregateRoot }
        (fresh + 1)
    have hred : (createEntities (ep :: rest) agg fresh).1
        = (createEntities rest
            { agg with
              entities := agg.entities ++ [⟨mkFreshId fresh, sanitizeIdentifier ep.name,
                ep.attributes.map toAttributeFull, [], ep.aggregateRoot⟩],
              aggregateRoot := if ep.aggregateRoot then
                  some ⟨mkFreshId fresh, sanitizeIdentifier ep.name,
                    ep.attributes.map toAttributeFull, [], ep.aggregateRoot⟩
                else agg.aggregateRoot }
            (fresh + 1)).1 := rfl
    refine ⟨⟨mkFreshId fresh, sanitizeIdentifier ep.name, ep.attributes.map toAttributeFull,
        [], ep.aggregateRoot⟩ :: ext, ?_, ?_, ?_, ?_, ?_, ?_, ?_⟩
    · rw [hred, h1]; simp
    · intro x hx
      rcases List.mem_cons.mp hx with hx0 | hxr
      · subst hx0
        rw [hred, h1, List.map_append]
        refine List.mem_append_left _ ?_
        refine List.mem_map.mpr
          ⟨⟨mkFreshId fresh, sanitizeIdentifier x.name, x.attributes.map toAttributeFull,
            [], x.aggregateRoot⟩, ?_, rfl⟩
        simp
      · rw [hred]; exact h2 x hxr
    · rw [hred, h3]
    · rw [hred, h4]
    · rw [hred, h5]
    · rw [hred, h6]
    · rw [hred, h7]

theorem createDomainEvents_spec : ∀ (dps : List BatchElemParams) (agg : Aggregate) (fresh : Nat),
    ∃ ext, (createDomainEvents dps agg fresh).1.domainEvents = agg.domainEvents ++ ext
      ∧ (∀ dp ∈ dps, sanitizeIdentifier dp.name
          ∈ (createDomainEvents dps agg fresh).1.domainEvents.map (fun e => e.name))
      ∧ (createDomainEvents dps agg fresh).1.name = agg.name
      ∧ (createDomainEvents dps agg fresh).1.valueObjects = agg.valueObjects
      ∧ (createDomainEvents dps agg fresh).1.entities = agg.entities
      ∧ (createDomainEvents dps agg fresh).1.commands = agg.commands
      ∧ (createDomainEvents dps agg fresh).1.services = agg.services := by
  intro dps
  induction dps with
  | nil =>
    intro agg fresh
    exact ⟨[], by simp [createDomainEvents], by simp, rfl, rfl, rfl, rfl, rfl⟩
  | cons dp rest ih =>
    intro agg fresh
    obtain ⟨ext, h1, h2, h3, h4, h5, h6, h7⟩ := ih { agg with domainEvents := agg.domainEvents
      ++ [⟨mkFreshId fresh, sanitizeIdentifier dp.name, dp.attributes.map toAttribute⟩] }
      (fresh + 1)
    have hred : (createDomainEvents (dp :: rest) agg fresh).1
        = (createDomainEvents rest { agg with domainEvents := agg.domainEvents
            ++ [⟨mkFreshId fresh, sanitizeIdentifier dp.name, dp.attributes.map toAttribute⟩] }
            (fresh + 1)).1 := rfl
    refine ⟨⟨mkFreshId fresh, sanitizeIdentifier dp.name, dp.attributes.map toAttribute⟩ :: ext,
      ?_, ?_, ?_, ?_, ?_, ?_, ?_⟩
    · rw [hred, h1]; simp
    · intro x hx
      rcases List.mem_cons.mp hx with hx0 | hxr
      · subst hx0
        rw [hred, h1, List.map_append]
        refine List.mem_append_left _ ?_
        refine List.mem_map.mpr
          ⟨⟨mkFreshId fresh, sanitizeIdentifier x.name, x.attributes.map toAttribute⟩, ?_, rfl⟩
        simp
      · rw [hred]; exact h2 x hxr
    · rw [hred, h3]
    · rw [hred, h4]
    · rw [hred, h5]
    · rw [hred, h6]
    · rw [hred, h7]

theorem createCommands_spec : ∀ (cps : List BatchElemParams) (agg : Aggregate) (fresh : Nat),
    ∃ ext, (createCommands cps agg fresh).1.commands = agg.commands ++ ext
      ∧ (∀ cp ∈ cps, sanitizeIdentifier cp.name
          ∈ (createCommands cps agg fresh).1.commands.map (fun e => e.name))
      ∧ (createCommands cps agg fresh).1.name = agg.name
      ∧ (createCommands cps agg fresh).1.valueObjects = agg.valueObjects
      ∧ (createCommands cps agg fresh).1.entities = agg.entities
      ∧ (createCommands cps agg fresh).1.domainEvents = agg.domainEvents
      ∧ (createCommands cps agg fresh).1.services = agg.services := by
  intro cps
  induction cps with
  | nil =>
    intro agg fresh
    exact ⟨[], by simp [createCommands], by simp, rfl, rfl, rfl, rfl, rfl⟩
  | cons cp rest ih =>
    intro agg fresh
    obtain ⟨ext, h1, h2, h3, h4, h5, h6, h7⟩ := ih { agg with commands := agg.commands
      ++ [⟨mkFreshId fresh, sanitizeIdentifier cp.name, cp.attributes.map toAttribute⟩] }
      (fresh + 1)
    have hred : (createCommands (cp :: rest) agg fresh).1
        = (createCommands rest { agg with commands := agg.commands
            ++ [⟨mkFreshId fresh, sanitizeIdentifier cp.name, cp.attributes.map toAttribute⟩] }
            (fresh + 1)).1 := rfl
    refine ⟨⟨mkFreshId fresh, sanitizeIdentifier cp.name, cp.attributes.map toAttribute⟩ :: ext,
      ?_, ?_, ?_, ?_, ?_, ?_, ?_⟩
    · rw [hred, h1]; simp
    · intro x hx
      rcases List.mem_cons.mp hx with hx0 | hxr
      · subst hx0
        rw [hred, h1, List.map_append]
        refine List.mem_append_left _ ?_
        refine List.mem_map.mpr
          ⟨⟨mkFreshId fresh, sanitizeIdentifier x.name, x.attributes.map toAttribute⟩, ?_, rfl⟩
        simp
      · rw [hred]; exact h2 x hxr
    · rw [hred, h3]
    · rw [hred, h4]
    · rw [hred, h5]
    · rw [hred, h6]
    · rw [hred, h7]

theorem createServices_spec : ∀ (sps : List BatchServiceParams) (agg : Aggregate) (fresh : Nat),
    ∃ ext, (createServices sps agg fresh).1.services = agg.services ++ ext
      ∧ (∀ sp ∈ sps, sanitizeIdentifier sp.name
          ∈ (createServices sps agg fresh).1.services.map (fun e => e.name))
      ∧ (createServices sps agg fresh).1.name = agg.name
      ∧ (createServices sps agg fresh).1.valueObjects = agg.valueObjects
      ∧ (createServices sps agg fresh).1.entities = agg.entities
      ∧ (createServices sps agg fresh).1.domainEvents = agg.domainEvents
      ∧ (createServices sps agg fresh).1.commands = agg.commands := by
  intro sps
  induction sps with
  | nil =>
    intro agg fresh
    exact ⟨[], by simp [createServices], by simp, rfl, rfl, rfl, rfl, rfl⟩
  | cons sp rest ih =>
    intro agg fresh
    obtain ⟨ext, h1, h2, h3, h4, h5, h6, h7⟩ := ih { agg with services := agg.services
      ++ [⟨mkFreshId fresh, sanitizeIdentifier sp.name, sp.operations.map toServiceOp⟩] }
      (fresh + 1)
    have hred : (createServices (sp :: rest) agg fresh).1
        = (createServices rest { agg with services := agg.services
            ++ [⟨mkFreshId fresh, sanitizeIdentifier sp.name, sp.operations.map toServiceOp⟩] }
            (fresh + 1)).1 := rfl
    refine ⟨⟨mkFreshId fresh, sanitizeIdentifier sp.name, sp.operations.map toServiceOp⟩ :: ext,
      ?_, ?_, ?_, ?_, ?_, ?_, ?_⟩
    · rw [hred, h1]; simp
    · intro x hx
      rcases List.mem_cons.mp hx with hx0 | hxr
      · subst hx0
        rw [hred, h1, List.map_append]
        refine List.mem_append_left _ ?_
        refine List.mem_map.mpr
          ⟨⟨mkFreshId fresh, sanitizeIdentifier x.name, x.operations.map toServiceOp⟩, ?_, rfl⟩
        simp
      · rw [hred]; exact h2 x hxr
    · rw [hred, h3]
    · rw [hred, h4]
    · rw [hred, h5]
    · rw [hred, h6]
    · rw [hred, h7]

theorem batchPhase2_spec (p : BatchAddElementsParams) (normIds : List String)
    (agg : Aggregate) (fresh : Nat) :
    (batchPhase2 p normIds agg fresh).1.name = agg.name
  ∧ (∀ n ∈ normIds,
      n ∈ (batchPhase2 p normIds agg fresh).1.valueObjects.map (fun v => v.name))
  ∧ (∀ vp ∈ p.valueObjects, sanitizeIdentifier vp.name
      ∈ (batchPhase2 p normIds agg fresh).1.valueObjects.map (fun v => v.name))
  ∧ (∀ ep ∈ p.entities, sanitizeIdentifier ep.name
      ∈ (batchPhase2 p normIds agg fresh).1.entities.map (fun e => e.name))
  ∧ (∀ dp ∈ p.domainEvents, sanitizeIdentifier dp.name
      ∈ (batchPhase2 p normIds agg fresh).1.domainEvents.map (fun e => e.name))
  ∧ (∀ cp ∈ p.commands, sanitizeIdentifier cp.name
      ∈ (batchPhase2 p normIds agg fresh).1.commands.map (fun e => e.name))
  ∧ (∀ sp ∈ p.services, sanitizeIdentifier sp.name
      ∈ (batchPhase2 p normIds agg fresh).1.services.map (fun e => e.name)) := by
  rcases hI : createIdentifiers normIds agg fresh with ⟨agg1, madeI, f1⟩
  rcases hV : createValueObjects p.valueObjects agg1 f1 with ⟨agg2, madeV, f2⟩
  rcases hE : createEntities p.entities agg2 f2 with ⟨agg3, madeE, f3⟩
  rcases hD : createDomainEvents p.domainEvents agg3 f3 with ⟨agg4, madeD, f4⟩
  rcases hC : createCommands p.commands agg4 f4 with ⟨agg5, madeC, f5⟩
  rcases hS : createServices p.services agg5 f5 with ⟨agg6, madeS, f6⟩
  have hred : (batchPhase2 p normIds agg fresh).1 = agg6 := by
    simp only [batchPhase2, hI, hV, hE, hD, hC, hS]
  have eI : (createIdentifiers normIds agg fresh).1 = agg1 := by rw [hI]
  have eV : (createValueObjects p.valueObjects agg1 f1).1 = agg2 := by rw [hV]
  have eE : (createEntities p.entities agg2 f2).1 = agg3 := by rw [hE]
  have eD : (createDomainEvents p.domainEvents agg3 f3).1 = agg4 := by rw [hD]
  have eC : (createCommands p.commands agg4 f4).1 = agg5 := by rw [hC]
  have eS : (createServices p.services agg5 f5).1 = agg6 := by rw [hS]
  obtain ⟨extI, _, i2, i3, _, _, _, _⟩ := createIdentifiers_spec normIds agg fresh
  rw [eI] at i2 i3
  obtain ⟨extV, v1, v2, v3, _, _, _, _⟩ := createValueObjects_spec p.valueObjects agg1 f1
  rw [eV] at v1 v2 v3
  obtain ⟨extE, _, n2, n3, n4, _, _, _⟩ := createEntities_spec p.entities agg2 f2
  rw [eE] at n2 n3 n4
  obtain ⟨extD, _, d2, d3, d4, d5, _, _⟩ := createDomainEvents_spec p.domainEvents agg3 f3
  rw [eD] at d2 d3 d4 d5
  obtain ⟨extC, _, c2, c3, c4, c5, c6, _⟩ := createCommands_spec p.commands agg4 f4
  rw [eC] at c2 c3 c4 c5 c6
  obtain ⟨extS, _, s2, s3, s4, s5, s6, s7⟩ := createServices_spec p.services agg5 f5
  rw [eS] at s2 s3 s4 s5 s6 s7
  rw [hred]
  refine ⟨?_, ?_, ?_, ?_, ?_, ?_, ?_⟩
  · rw [s3, c3, d3, n3, v3, i3]
  · intro n hn
    rw [s4, c4, d4, n4, v1, List.map_append]
    exact List.mem_append_left _ (i2 n hn)
  · intro vp hvp
    rw [s4, c4, d4, n4]
    exact v2 vp hvp
  · intro ep hep
    rw [s5, c5, d5]
    exact n2 ep hep
  · intro dp hdp
    rw [s6, c6]
    exact d2 dp hdp
  · intro cp hcp
    rw [s7]
    exact c2 cp hcp
  · exact s2

/-! ### Phase-1 validation lemmas: the error list only grows, and a clean
identifier pass normalizes every requested identifier name -/

theorem valServices_errs_prefix (aggName : String) (ff : Bool) (inAggNames : List String) :
    ∀ (svcs : List BatchServiceParams) (errs : List ValidationItem),
      ∃ extra, valServices aggName ff inAggNames svcs errs = errs ++ extra := by
  intro svcs
  induction svcs with
  | nil => intro errs; exact ⟨[], by simp [valServices]⟩
  | cons svc rest ih =>
    intro errs
    simp only [valServices]
    by_cases hc : inAggNames.contains (sanitizeIdentifier svc.name) = true
    · rw [if_pos hc]
      by_cases hff : ff = true
      · rw [if_pos hff]
        exact ⟨_, rfl⟩
      · rw [if_neg hff]
        obtain ⟨extra, hex⟩ := ih (errs ++ [⟨"service", sanitizeIdentifier svc.name,
          "Service '" ++ sanitizeIdentifier svc.name ++ "' already exists in aggregate '"
          ++ aggName ++ "'"⟩])
        rw [List.append_assoc] at hex
        exact ⟨_, hex⟩
    · rw [if_neg hc]
      exact ih errs

theorem valIdentifiers_errs_prefix (m : CMLModel) (ctx : String) (ff : Bool) :
    ∀ (ids : List BatchIdentifierParams) (names : List String) (errs : List ValidationItem)
      (norm : List String),
      ∃ extra, (valIdentifiers m ctx ff ids names errs norm).1 = errs ++ extra := by
  intro ids
  induction ids with
  | nil => intro names errs norm; exact ⟨[], by simp [valIdentifiers]⟩
  | cons idp rest ih =>
    intro names errs norm
    simp only [valIdentifiers]
    by_cases hc : names.contains (normalizeIdentifierName idp.name) = true
    · rw [if_pos hc]
      by_cases hff : ff = true
      · rw [if_pos hff]
        exact ⟨_, rfl⟩
      · rw [if_neg hff]
        obtain ⟨extra, hex⟩ := ih names (errs ++ [⟨"identifier",
          normalizeIdentifierName idp.name, "Duplicate name '"
          ++ normalizeIdentifierName idp.name ++ "' within this batch"⟩]) norm
        rw [List.append_assoc] at hex
        exact ⟨_, hex⟩
    · rw [if_neg hc]
      by_cases hd : (checkForDuplicateDomainObjectName m
          (normalizeIdentifierName idp.name) ctx).isDuplicate = true
      · rw [if_pos hd]
        by_cases hff : ff = true
        · rw [if_pos hff]
          exact ⟨_, rfl⟩
        · rw [if_neg hff]
          obtain ⟨extra, hex⟩ := ih names _ norm
          rw [List.append_assoc] at hex
          exact ⟨_, hex⟩
      · rw [if_neg hd]
        exact ih (normalizeIdentifierName idp.name :: names) errs
          (norm ++ [normalizeIdentifierName idp.name])

theorem valElems_errs_prefix (m : CMLModel) (ctx aggName : String) (ff : Bool)
    (etype resArticle dupAggLabel crossLabel : String) (inAggNames : List String) :
    ∀ (items : List (String × List AttrInput)) (names : List String)
      (errs : List ValidationItem),
      ∃ extra, (valElems m ctx aggName ff etype resArticle dupAggLabel crossLabel
        inAggNames items names errs).1 = errs ++ extra := by
  intro items
  induction items with
  | nil => intro names errs; exact ⟨[], by simp [valElems]⟩
  | cons it rest ih =>
    intro names errs
    rcases it with ⟨rawName, attrs⟩
    simp only [valElems]
    by_cases h1 : (isReservedDomainObjectName (sanitizeIdentifier rawName)).1 = true
    · rw [if_pos h1]
      by_cases hff : ff = true
      · rw [if_pos hff]
        exact ⟨_, rfl⟩
      · rw [if_neg hff]
        obtain ⟨extra, hex⟩ := ih names _
        rw [List.append_assoc] at hex
        exact ⟨_, hex⟩
    · rw [if_neg h1]
      by_cases h2 : names.contains (sanitizeIdentifier rawName) = true
      · rw [if_pos h2]
        by_cases hff : ff = true
        · rw [if_pos hff]
          exact ⟨_, rfl⟩
        · rw [if_neg hff]
          obtain ⟨extra, hex⟩ := ih names _
          rw [List.append_assoc] at hex
          exact ⟨_, hex⟩
      · rw [if_neg h2]
        by_cases h3 : inAggNames.contains (sanitizeIdentifier rawName) = true
        · rw [if_pos h3]
          by_cases hff : ff = true
          · rw [if_pos hff]
            exact ⟨_, rfl⟩
          · rw [if_neg hff]
            obtain ⟨extra, hex⟩ := ih names _
            rw [List.append_assoc] at hex
            exact ⟨_, hex⟩
        · rw [if_neg h3]
          by_cases h4 : (checkForDuplicateDomainObjectName m
              (sanitizeIdentifier rawName) ctx).isDuplicate = true
          · rw [if_pos h4]
            by_cases hff : ff = true
            · rw [if_pos hff]
              exact ⟨_, rfl⟩
            · rw [if_neg hff]
              obtain ⟨extra, hex⟩ := ih names _
              rw [List.append_assoc] at hex
              exact ⟨_, hex⟩
          · rw [if_neg h4]
            by_cases h5 : 0 < attrs.length ∧
                ¬validateAttributesValid attrs (sanitizeIdentifier rawName)
            · rw [if_pos h5]
              by_cases hff : ff = true
              · rw [if_pos hff]
                exact ⟨_, rfl⟩
              · rw [if_neg hff]
                obtain ⟨extra, hex⟩ := ih names _
                rw [List.append_assoc] at hex
                exact ⟨_, hex⟩
            · rw [if_neg h5]
              exact ih (sanitizeIdentifier rawName :: names) errs

theorem valIdentifiers_no_errs (m : CMLModel) (ctx : String) (ff : Bool) :
    ∀ (ids : List BatchIdentifierParams) (names : List String) (errs : List ValidationItem)
      (norm : List String),
      (valIdentifiers m ctx ff ids names errs norm).1 = errs →
      (valIdentifiers m ctx ff ids names errs norm).2.2
        = norm ++ ids.map (fun ip => normalizeIdentifierName ip.name) := by
  intro ids
  induction ids with
  | nil => intro names errs norm h; simp [valIdentifiers]
  | cons idp rest ih =>
    intro names errs norm h
    simp only [valIdentifiers] at h ⊢
    by_cases hc : names.contains (normalizeIdentifierName idp.name) = true
    · rw [if_pos hc] at h ⊢
      by_cases hff : ff = true
      · rw [if_pos hff] at h
        exfalso
        have hlen := congrArg List.length h
        simp only [List.length_append, List.length_cons, List.length_nil] at hlen
        omega
      · rw [if_neg hff] at h
        exfalso
        obtain ⟨extra, hex⟩ := valIdentifiers_errs_prefix m ctx ff rest names _ norm
        rw [hex] at h
        have hlen := congrArg List.length h
        simp only [List.length_append, List.length_cons, List.length_nil] at hlen
        omega
    · rw [if_neg hc] at h ⊢
      by_cases hd : (checkForDuplicateDomainObjectName m
          (normalizeIdentifierName idp.name) ctx).isDuplicate = true
      · rw [if_pos hd] at h
        by_cases hff : ff = true
        · rw [if_pos hff] at h
          exfalso
          have hlen := congrArg List.length h
          simp only [List.length_append, List.length_cons, List.length_nil] at hlen
          omega
        · rw [if_neg hff] at h
          exfalso
          obtain ⟨extra, hex⟩ := valIdentifiers_errs_prefix m ctx ff rest names _ norm
          rw [hex] at h
          have hlen := congrArg List.length h
          simp only [List.length_append, List.length_cons, List.length_nil] at hlen
          omega
      · rw [if_neg hd] at h ⊢
        rw [ih (normalizeIdentifierName idp.name :: names) errs
          (norm ++ [normalizeIdentifierName idp.name]) h]
        simp

/-- A clean phase 1 (no validation error collected) normalizes every
requested identifier name, and in particular the returned `normIds` list is
exactly the map of `normalizeIdentifierName` over the request. -/
theorem batchPhase1_spec (p : BatchAddElementsParams) (m : CMLModel) (agg : Aggregate)
    (h : (batchPhase1 p m agg).1 = []) :
    (batchPhase1 p m agg).2 = p.identifiers.map (fun ip => normalizeIdentifierName ip.name) := by
  rcases hI : valIdentifiers m p.contextName p.failFast p.identifiers [] [] [] with ⟨e1, n1, ids⟩
  rcases h2 : (if e1.length = 0 ∨ p.failFast = false then
      valElems m p.contextName p.aggregateName p.failFast "valueObject" "a Value Object"
        "Value object" "Value object" (agg.valueObjects.map (·.name))
        (p.valueObjects.map (fun vp => (vp.name, vp.attributes))) n1 e1
    else (e1, n1)) with ⟨e2, n2⟩
  rcases h3 : (if e2.length = 0 ∨ p.failFast = false then
      valElems m p.contextName p.aggregateName p.failFast "entity" "an Entity"
        "Entity" "Entity" (agg.entities.map (·.name))
        (p.entities.map (fun ep => (ep.name, ep.attributes))) n2 e2
    else (e2, n2)) with ⟨e3, n3⟩
  rcases h4 : (if e3.length = 0 ∨ p.failFast = false then
      valElems m p.contextName p.aggregateName p.failFast "domainEvent" "a Domain Event"
        "Domain event" "Domain event" (agg.domainEvents.map (·.name))
        (p.domainEvents.map (fun dp => (dp.name, dp.attributes))) n3 e3
    else (e3, n3)) with ⟨e4, n4⟩
  rcases h5 : (if e4.length = 0 ∨ p.failFast = false then
      valElems m p.contextName p.aggregateName p.failFast "command" "a Command"
        "Command" "Command" (agg.commands.map (·.name))
        (p.commands.map (fun cp => (cp.name, cp.attributes))) n4 e4
    else (e4, n4)) with ⟨e5, n5⟩
  have hred1 : (batchPhase1 p m agg).1
      = if e5.length = 0 ∨ p.failFast = false then
          valServices p.aggregateName p.failFast (agg.services.map (·.name)) p.services e5
        else e5 := by
    simp only [batchPhase1, hI, h2, h3, h4, h5]
  have hred2 : (batchPhase1 p m agg).2 = ids := by
    simp only [batchPhase1, hI, h2, h3, h4, h5]
  rw [hred1] at h
  have h5nil : e5 = [] := by
    by_cases hc : e5.length = 0 ∨ p.failFast = false
    · rw [if_pos hc] at h
      obtain ⟨extra, hex⟩ := valServices_errs_prefix p.aggregateName p.failFast
        (agg.services.map (·.name)) p.services e5
      rw [hex] at h
      exact (List.append_eq_nil.mp h).1
    · rwa [if_neg hc] at h
  have h4nil : e4 = [] := by
    by_cases hc : e4.length = 0 ∨ p.failFast = false
    · rw [if_pos hc] at h5
      obtain ⟨extra, hex⟩ := valElems_errs_prefix m p.contextName p.aggregateName p.failFast
        "command" "a Command" "Command" "Command" (agg.commands.map (·.name))
        (p.commands.map (fun cp => (cp.name, cp.attributes))) n4 e4
      have he : e5 = e4 ++ extra := by rw [← hex, h5]
      rw [h5nil] at he
      exact (List.append_eq_nil.mp he.symm).1
    · rw [if_neg hc] at h5
      have he : e4 = e5 := congrArg Prod.fst h5
      rw [he, h5nil]
  have h3nil : e3 = [] := by
    by_cases hc : e3.length = 0 ∨ p.failFast = false
    · rw [if_pos hc] at h4
      obtain ⟨extra, hex⟩ := valElems_errs_prefix m p.contextName p.aggregateName p.failFast
        "domainEvent" "a Domain Event" "Domain event" "Domain event"
        (agg.domainEvents.map (·.name))
        (p.domainEvents.map (fun dp => (dp.name, dp.attributes))) n3 e3
      have he : e4 = e3 ++ extra := by rw [← hex, h4]
      rw [h4nil] at he
      exact (List.append_eq_nil.mp he.symm).1
    · rw [if_neg hc] at h4
      have he : e3 = e4 := congrArg Prod.fst h4
      rw [he, h4nil]
  have h2nil : e2 = [] := by
    by_cases hc : e2.length = 0 ∨ p.failFast = false
    · rw [if_pos hc] at h3
      obtain ⟨extra, hex⟩ := valElems_errs_prefix m p.contextName p.aggregateName p.failFast
        "entity" "an Entity" "Entity" "Entity" (agg.entities.map (·.name))
        (p.entities.map (fun ep => (ep.name, ep.attributes))) n2 e2
      have he : e3 = e2 ++ extra := by rw [← hex, h3]
      rw [h3nil] at he
      exact (List.append_eq_nil.mp he.symm).1
    · rw [if_neg hc] at h3
      have he : e2 = e3 := congrArg Prod.fst h3
      rw [he, h3nil]
  have h1nil : e1 = [] := by
    by_cases hc : e1.length = 0 ∨ p.failFast = false
    · rw [if_pos hc] at h2
      obtain ⟨extra, hex⟩ := valElems_errs_prefix m p.contextName p.aggregateName p.failFast
        "valueObject" "a Value Object" "Value object" "Value object"
        (agg.valueObjects.map (·.name))
        (p.valueObjects.map (fun vp => (vp.name, vp.attributes))) n1 e1
      have he : e2 = e1 ++ extra := by rw [← hex, h2]
      rw [h2nil] at he
      exact (List.append_eq_nil.mp he.symm).1
    · rw [if_neg hc] at h2
      have he : e1 = e2 := congrArg Prod.fst h2
      rw [he, h2nil]
  have hids : ids = p.identifiers.map (fun ip => normalizeIdentifierName ip.name) := by
    have h0 := valIdentifiers_no_errs m p.contextName p.failFast p.identifiers [] [] []
      (by rw [hI]; exact h1nil)
    rw [hI] at h0
    simpa using h0
  rw [hred2, hids]

/-- C6: `batchAddElements` is atomic: whenever any requested element fails
validation the call reports failure with a non-empty error list and returns
the model completely unchanged, and whenever it reports success every
requested element (under its normalized name) is present in the target
aggregate of the returned model. -/
theorem batchAddElements_atomic (p : BatchAddElementsParams) (fresh : Nat) (m : CMLModel) :
    ((batchAddElements p fresh m).1.success = false →
        (batchAddElements p fresh m).2 = m ∧ (batchAddElements p fresh m).1.errors ≠ [])
  ∧ ((batchAddElements p fresh m).1.success = true →
        batchAllPresent p (batchAddElements p fresh m).2 = true) := by
  cases hagg : findAggregate m p.contextName p.aggregateName with
  | none =>
    constructor
    · intro hs
      constructor
      · simp [batchAddElements, hagg]
      · simp [batchAddElements, hagg]
    · intro hs
      exfalso
      simp [batchAddElements, hagg] at hs
  | some aggregate =>
    rcases hP1 : batchPhase1 p m aggregate with ⟨verrs, normIds⟩
    by_cases hlen : 0 < verrs.length
    · constructor
      · intro hs
        constructor
        · simp [batchAddElements, hagg, hP1, hlen]
        · have hne : verrs ≠ [] := by
            intro hnil
            rw [hnil] at hlen
            simp at hlen
          simpa [batchAddElements, hagg, hP1, hlen] using hne
      · intro hs
        exfalso
        simp [batchAddElements, hagg, hP1, hlen] at hs
    · have hnil : verrs = [] := by
        cases hv : verrs with
        | nil => rfl
        | cons a l => exfalso; rw [hv] at hlen; exact hlen (by simp)
      subst hnil
      rcases hP2 : batchPhase2 p normIds aggregate fresh with ⟨agg', created⟩
      constructor
      · intro hs
        exfalso
        simp [batchAddElements, hagg, hP1, hP2] at hs
      · intro hs
        have hred : (batchAddElements p fresh m).2
            = updateAggregate m p.contextName p.aggregateName (fun _ => agg') := by
          simp [batchAddElements, hagg, hP1, hP2]
        rw [hred]
        have eP2 : (batchPhase2 p normIds aggregate fresh).1 = agg' := by rw [hP2]
        obtain ⟨hname, hids, hvos, hents, hevs, hcmds, hsvcs⟩ :=
          batchPhase2_spec p normIds aggregate fresh
        rw [eP2] at hname hids hvos hents hevs hcmds hsvcs
        have hnorm : normIds
            = p.identifiers.map (fun ip => normalizeIdentifierName ip.name) := by
          have h0 := batchPhase1_spec p m aggregate (by rw [hP1])
          rw [hP1] at h0
          exact h0
        have hfind : findAggregate (updateAggregate m p.contextName p.aggregateName
            (fun _ => agg')) p.contextName p.aggregateName = some agg' := by
          have hup := findAggregate_update_some m p.contextName p.aggregateName
            (fun _ => agg') aggregate hagg hname
          simpa using hup
        simp only [batchAllPresent, hfind]
        simp only [Bool.and_eq_true, List.all_eq_true]
        refine ⟨⟨⟨⟨⟨?_, ?_⟩, ?_⟩, ?_⟩, ?_⟩, ?_⟩
        · intro ip hip
          have := hids (normalizeIdentifierName ip.name)
            (by rw [hnorm]; exact List.mem_map_of_mem _ hip)
          simpa using this
        · intro vp hvp
          have := hvos vp hvp
          simpa using this
        · intro ep hep
          have := hents ep hep
          simpa using this
        · intro dp hdp
          have := hevs dp hdp
          simpa using this
        · intro cp hcp
          have := hcmds cp hcp
          simpa using this
        · intro sp hsp
          have := hsvcs sp hsp
          simpa using this

/-- Witness for C6: the all-valid batch `pBatchW` succeeds and every
requested element is present afterwards; the colliding batch `pBatchFail`
fails, reports the collision, and leaves the model untouched. -/
theorem batchAddElements_atomic_witness :
    batchAllPresent pBatchW (batchAddElements pBatchW 7 mWithOrderId).2 = true
  ∧ (batchAddElements pBatchFail 7 mWithOrderId).2 = mWithOrderId
  ∧ (batchAddElements pBatchFail 7 mWithOrderId).1.errors ≠ [] :=
  ⟨(batchAddElements_atomic pBatchW 7 mWithOrderId).2 (by decide),
   ((batchAddElements_atomic pBatchFail 7 mWithOrderId).1 (by decide)).1,
   ((batchAddElements_atomic pBatchFail 7 mWithOrderId).1 (by decide)).2⟩

/-! ### Keyword-prefix lexing lemmas (C7) -/

theorem takeWhile_all {p : Char → Bool} : ∀ (l : List Char), l.all p = true →
    l.takeWhile p = l := by
  intro l
  induction l with
  | nil => intro _; rfl
  | cons a as ih =>
    intro h
    simp only [List.all_cons, Bool.and_eq_true] at h
    simp [List.takeWhile_cons, h.1, ih h.2]

theorem identLen_eq_length {c : Char} {cs : List Char} (hsc : isIdentStartChar c = true)
    (hall : cs.all isIdentChar = true) : identLen (c :: cs) = (c :: cs).length := by
  simp [identLen, hsc, takeWhile_all cs hall]
  omega

theorem prefix_all_ident {s w : List Char} (hpre : s.isPrefixOf w = true)
    (hw : w.all isIdentChar = true) : s.all isIdentChar = true := by
  have hp : s <+: w := List.isPrefixOf_iff_prefix.mp hpre
  rw [List.all_eq_true] at hw ⊢
  intro a ha
  exact hw a (hp.sublist.subset ha)

theorem not_prefix_nonident {s w : List Char} (hw : w.all isIdentChar = true)
    (hs : s.all isIdentChar = false) : s.isPrefixOf w = false := by
  cases hq : s.isPrefixOf w
  · rfl
  · exact absurd (prefix_all_ident hq hw) (by simp [hs])

theorem jsSpace_eq_false_of_identStart {c : Char} (h : isIdentStartChar c = true) :
    jsSpace c = false := by
  cases hj : jsSpace c
  · rfl
  · exfalso
    simp only [jsSpace, Bool.or_eq_true, decide_eq_true_eq] at hj
    rcases hj with ((((hc | hc) | hc) | hc) | hc) | hc <;>
      (subst hc; exact absurd h (by decide))

/-- On an identifier-shaped word that is not itself one of the fixed keyword
strings, a keyword chain either passes (no pattern is a prefix) or emits the
full word as one `Ident` token via `longer_alt`. -/
theorem tryKw_ident : ∀ (chain : List (TokKind × List String)) (c : Char) (cs : List Char),
    isIdentStartChar c = true → cs.all isIdentChar = true →
    (∀ e ∈ chain, ∀ s ∈ e.2, s ∈ exactKeywordStrings) →
    (∀ k ∈ exactKeywordStrings, k.data ≠ c :: cs) →
    tryKw (c :: cs) chain = none ∨ tryKw (c :: cs) chain = some ⟨TokKind.Ident, c :: cs⟩ := by
  intro chain
  induction chain with
  | nil => intro c cs _ _ _ _; exact Or.inl rfl
  | cons e rest ih =>
    intro c cs hsc hall hsub hnk
    rcases e with ⟨kind, pats⟩
    cases hfind : pats.find? (fun p => p.data.isPrefixOf (c :: cs)) with
    | none =>
      have hred : tryKw (c :: cs) ((kind, pats) :: rest) = tryKw (c :: cs) rest := by
        simp only [tryKw, hfind]
      rw [hred]
      exact ih c cs hsc hall (fun e2 he s hs => hsub e2 (List.mem_cons_of_mem _ he) s hs) hnk
    | some p =>
      right
      have hmem : p ∈ pats := List.mem_of_find?_eq_some hfind
      have hpre : p.data.isPrefixOf (c :: cs) = true := by
        have hq := List.find?_some hfind
        simpa using hq
      have hkey : p ∈ exactKeywordStrings := hsub (kind, pats) (List.mem_cons_self _ _) p hmem
      have hne : p.data ≠ c :: cs := hnk p hkey
      have hprefix : p.data <+: c :: cs := List.isPrefixOf_iff_prefix.mp hpre
      have hlt : p.data.length < (c :: cs).length := by
        rcases Nat.lt_or_ge p.data.length (c :: cs).length with hl | hl
        · exact hl
        · exact absurd (List.IsPrefix.eq_of_length hprefix
            (Nat.le_antisymm hprefix.length_le hl)) hne
      have hil : identLen (c :: cs) = (c :: cs).length := identLen_eq_length hsc hall
      have hred : tryKw (c :: cs) ((kind, pats) :: rest)
          = if p.data.length < identLen (c :: cs)
            then some ⟨TokKind.Ident, (c :: cs).take (identLen (c :: cs))⟩
            else some ⟨kind, p.data⟩ := by
        simp only [tryKw, hfind]
      rw [hred, hil, if_pos hlt, List.take_length]

/-- The token types after the short role markers never match an
identifier-shaped word other than as the full `Ident` token. -/
theorem lexTail_ident (c : Char) (cs : List Char)
    (hsc : isIdentStartChar c = true) (hall : cs.all isIdentChar = true)
    (hnk : ∀ k ∈ exactKeywordStrings, k.data ≠ c :: cs) :
    nextTok.lexTail (c :: cs) = some (some ⟨TokKind.Ident, c :: cs⟩, (c :: cs).length) := by
  have hil : identLen (c :: cs) = (c :: cs).length := identLen_eq_length hsc hall
  have hsym : symbolToks.find? (fun p => (c :: cs).head? = some p.2) = none := by
    rw [List.find?_eq_none]
    intro q hq
    simp only [List.head?_cons, decide_eq_true_eq]
    intro hcq
    injection hcq with hcq
    rw [hcq] at hsc
    fin_cases hq <;> exact absurd hsc (by decide)
  rcases tryKw_ident kwChainC c cs hsc hall (by decide) hnk with hC | hC
  · simp only [nextTok.lexTail, hC, hsym]
    split
    · rename_i rest heq
      exfalso
      injection heq with h1 _
      rw [h1] at hsc
      exact absurd hsc (by decide)
    · simp only [hil]
      rw [if_pos (by simp), List.take_length]
  · simp [nextTok.lexTail, hC]

/-- One lexer step on an identifier-shaped word that is not a keyword emits
the whole word as a single `Ident` token: every keyword token's
`longer_alt: Identifier` yields the identifier, and no earlier token type
matches. -/
theorem nextTok_ident (c : Char) (cs : List Char)
    (hsc : isIdentStartChar c = true) (hall : cs.all isIdentChar = true)
    (hnk : ∀ k ∈ exactKeywordStrings, k.data ≠ c :: cs) :
    nextTok (c :: cs) = some (some ⟨TokKind.Ident, c :: cs⟩, (c :: cs).length) := by
  have hallw : (c :: cs).all isIdentChar = true := by
    simp [List.all_cons, isIdentChar_of_start hsc, hall]
  have hws : jsSpace c = false := jsSpace_eq_false_of_identStart hsc
  have hp1 : ("<->".data.isPrefixOf (c :: cs)) = false := not_prefix_nonident hallw (by decide)
  have hp2 : ("U->D".data.isPrefixOf (c :: cs)) = false := not_prefix_nonident hallw (by decide)
  have hp3 : ("D<-U".data.isPrefixOf (c :: cs)) = false := not_prefix_nonident hallw (by decide)
  have hp4 : ("D->U".data.isPrefixOf (c :: cs)) = false := not_prefix_nonident hallw (by decide)
  have hp5 : ("U<-D".data.isPrefixOf (c :: cs)) = false := not_prefix_nonident hallw (by decide)
  have hp6 : ("->".data.isPrefixOf (c :: cs)) = false := not_prefix_nonident hallw (by decide)
  have hpcs : ("Customer-Supplier".data.isPrefixOf (c :: cs)) = false :=
    not_prefix_nonident hallw (by decide)
  have hlex : nextTok.lexTail (c :: cs)
      = some (some ⟨TokKind.Ident, c :: cs⟩, (c :: cs).length) :=
    lexTail_ident c cs hsc hall hnk
  simp only [nextTok]
  rw [List.takeWhile_cons_of_neg (by simp [hws])]
  simp only [List.length_nil, lt_self_iff_false, if_false]
  split
  · rename_i rest heq
    exfalso
    injection heq with h1 _
    rw [h1] at hsc
    exact absurd hsc (by decide)
  · rename_i rest heq
    exfalso
    injection heq with h1 _
    rw [h1] at hsc
    exact absurd hsc (by decide)
  · simp only [hp1, hp2, hp3, hp4, hp5, hp6, Bool.false_eq_true, if_false]
    rcases tryKw_ident kwChainA c cs hsc hall (by decide) hnk with hA | hA
    · simp only [hA, hpcs, Bool.false_eq_true, if_false]
      rcases tryKw_ident kwChainB c cs hsc hall (by decide) hnk with hB | hB
      · simp only [hB]
        split
        · rename_i rest heq
          injection heq with h1 h2
          subst h1
          subst h2
          cases hcs : cs with
          | nil =>
            exfalso
            rw [hcs] at hnk
            exact hnk "U" (by decide) (by decide)
          | cons r rs =>
            rw [hcs] at hall hlex
            simp only [List.all_cons, Bool.and_eq_true] at hall
            rw [if_pos (show (((r :: rs).head?.map isIdentChar).getD false) = true by
              simp [hall.1])]
            exact hlex
        · rename_i rest heq
          injection heq with h1 h2
          subst h1
          subst h2
          cases hcs : cs with
          | nil =>
            exfalso
            rw [hcs] at hnk
            exact hnk "D" (by decide) (by decide)
          | cons r rs =>
            rw [hcs] at hall hlex
            simp only [List.all_cons, Bool.and_eq_true] at hall
            rw [if_pos (show (((r :: rs).head?.map isIdentChar).getD false) = true by
              simp [hall.1])]
            exact hlex
        · exact hlex
      · simp [hB]
    · simp [hA]

/-- C7: the document `BoundedContext ServiceNowPlatform { }` parses with the
single bounded context named `ServiceNowPlatform`; in general, every
identifier-shaped word that starts with a keyword as a proper prefix but is
not itself a keyword is lexed as exactly one `Identifier` token covering the
whole word, never as a keyword token plus a remainder. -/
theorem keyword_prefix_lexing :
    ((parseCML docServiceNow).success = true
      ∧ (parseCML docServiceNow).model.map
          (fun mo => mo.boundedContexts.map (fun bc => bc.name))
        = some ["ServiceNowPlatform"])
  ∧ (∀ w : List Char, isIdentifierChars w = true →
      (∃ k ∈ exactKeywordStrings, k.data.isPrefixOf w = true ∧ k.data ≠ w) →
      (∀ k ∈ exactKeywordStrings, k.data ≠ w) →
      tokenize (String.mk w) = ([⟨TokKind.Ident, w⟩], false)) := by
  constructor
  · exact ⟨by decide, by decide⟩
  · intro w hw hkpre hnk
    cases w with
    | nil => cases hw
    | cons c cs =>
      simp only [isIdentifierChars, Bool.and_eq_true] at hw
      have hnext := nextTok_ident c cs hw.1 hw.2 hnk
      have hmax : max (c :: cs).length 1 = cs.length + 1 := by
        rw [List.length_cons]
        omega
      have hdrop : (c :: cs).drop (max (c :: cs).length 1) = [] := by
        rw [List.drop_eq_nil_iff]
        omega
      show tokenizeLoop ((c :: cs).length + 1) (c :: cs) [] false
        = ([⟨TokKind.Ident, c :: cs⟩], false)
      simp [tokenizeLoop, hnext, hdrop]

/-- Witness for C7: `ServiceNow` begins with the keyword `Service`, is not
itself a keyword, and lexes to the single identifier token `ServiceNow`. -/
theorem keyword_prefix_lexing_witness :
    tokenize (String.mk "ServiceNow".data) = ([⟨TokKind.Ident, "ServiceNow".data⟩], false) :=
  keyword_prefix_lexing.2 "ServiceNow".data (by decide) (by decide) (by decide)

/-- Witness for C10: the aggregate already holds `OrderId`, so the call
returns the existing object's id and reference type with the model
untouched. -/
theorem addIdentifier_idempotent_witness :
    addIdentifier pOrderId "uuid-w" mWithOrderId =
      (⟨true, some ⟨"vo1", "OrderId", "- " ++ "OrderId"⟩, none⟩, mWithOrderId) :=
  (addIdentifier_idempotent pOrderId "uuid-w" "uuid-x" mWithOrderId).1
    { id := "a", name := "OrderAggregate",
      valueObjects := [⟨"vo1", "OrderId", [⟨"value", "String", false, false⟩]⟩] }
    ⟨"vo1", "OrderId", [⟨"value", "String", false, false⟩]⟩
    (by decide) (by decide)

end CML
